import Mathlib

/-!
# nulla: HLS and DASH manifest generators, segment requests

A shallow embedding of `include/nulla/hls_playlist.hpp` (class `m3u8`), of
`include/nulla/dash_playlist.hpp` (class `mpd`) and of the segment request
handler of `src/server.cpp` (`on_dash_stream_base::request_track_data` with
its callback `on_read_samples`).

Conventions of the embedding.

* Variables that the sources declare as `int` are 32-bit two's complement
  (`wrap32`), the `long` millisecond durations are 64-bit (`wrap64`), and
  `u64` variables hold values modulo `2 ^ 64` (`wrapU64`).
  Counters that only follow the number of elements of a container are
  natural numbers.
* The fields of the playlist and of a track are declared in
  `nulla/playlist.hpp` and `nulla/iso_reader.hpp`, which are not among the
  sources; they are kept as integers and their arithmetic is exact until
  the source stores a result in a variable of declared width.
* Variables that the sources declare as `float` hold IEEE-754 binary32
  values. A finite floating-point value is represented by the rational number
  it denotes, and every floating-point operation is the exact operation
  followed by rounding to nearest, ties to even (`f32`, and `f64` for the
  `double` intermediate of a division by the literal `1000.0`); an
  expression of `float` operands is evaluated in `float`.
* A `float` written to a stream with `<<` appears with six significant
  decimal digits; `ostream_float` gives the number that the text denotes.
* A `std::string` is a Lean `String`; for the ASCII texts that the generators
  compare and write, bytes and characters are the same.
* Text written to a stream is kept as the list of lines written, one
  constructor per output statement of the source.
* A run of the request handler is kept as the list of its events (searches of
  the sample index, reads of `track.samples`, blob reads, writer calls,
  replies), in the order of the statements of the source.
* Reading `front()` of an empty vector or an element outside of a vector,
  dividing by zero and converting an out-of-range `float` to `int` are
  undefined in C++; the functions that can do so return `Option`, `none`
  standing for the undefined run.
-/

namespace nulla

/-! ## Machine arithmetic -/

/-- Value of a 32-bit two's complement `int` holding the integer `x`. -/
def wrap32 (x : ℤ) : ℤ := (x + 2 ^ 31) % 2 ^ 32 - 2 ^ 31

/-- Value of a 64-bit two's complement `long` holding the integer `x`. -/
def wrap64 (x : ℤ) : ℤ := (x + 2 ^ 63) % 2 ^ 64 - 2 ^ 63

/-- Nearest integer of a rational, a tie going to the even neighbour. -/
def roundHalfEven (x : ℚ) : ℤ :=
  let f := ⌊x⌋
  if x - f < 1 / 2 then f
  else if 1 / 2 < x - f then f + 1
  else if f % 2 = 0 then f else f + 1

/-- The power of two `2 ^ e` as a rational, for an integer exponent. -/
def pow2 (e : ℤ) : ℚ :=
  if 0 ≤ e then ((2 ^ e.toNat : ℕ) : ℚ) else 1 / ((2 ^ (-e).toNat : ℕ) : ℚ)

/-- Helper of `ilog2`: halve `n` until it is below two, at most `fuel` times. -/
def ilog2Aux : ℕ → ℕ → ℕ
  | 0, _ => 0
  | fuel + 1, n => if n < 2 then 0 else ilog2Aux fuel (n / 2) + 1

/-- Position of the highest set bit of `n` (`0` for `n = 0`). -/
def ilog2 (n : ℕ) : ℕ := ilog2Aux n n

/-- Binary exponent of a non-zero rational: the `e` with `2^e ≤ |x| < 2^(e+1)`. -/
def binade (x : ℚ) : ℤ :=
  let d : ℤ := (ilog2 x.num.natAbs : ℤ) - (ilog2 x.den : ℤ)
  if pow2 d ≤ |x| then d else d - 1

/-- Rounding to the nearest binary floating-point number with `prec` bits of
significand and least normal exponent `emin`, ties to even. Values below the
normal range are rounded on the subnormal grid. -/
def roundBinary (prec : ℕ) (emin : ℤ) (x : ℚ) : ℚ :=
  if x = 0 then 0
  else
    let u : ℚ := pow2 (max (binade x) emin - ((prec - 1 : ℕ) : ℤ))
    (roundHalfEven (x / u) : ℚ) * u

/-- Rounding to IEEE-754 binary32, the C++ type `float`. -/
def f32 (x : ℚ) : ℚ := roundBinary 24 (-126) x

/-- Rounding to IEEE-754 binary64, the C++ type `double`. -/
def f64 (x : ℚ) : ℚ := roundBinary 53 (-1022) x

/-! ## Data model (`nulla/playlist.hpp`, `nulla/iso_reader.hpp`) -/

/-- Modelled from the spec: the media type of a track, which the sources
compare with the GPAC constants `GF_ISOM_MEDIA_AUDIO` and
`GF_ISOM_MEDIA_VISUAL`; the spec gives it the values AUDIO, VIDEO, OTHER. -/
inductive MediaType
  | AUDIO
  | VISUAL
  | OTHER
  deriving DecidableEq, Repr

/-- Modelled from the spec: one coded access unit of a track. -/
structure sample where
  dts : ℕ
  offset : ℕ
  length : ℕ
  deriving DecidableEq, Repr

/-- Modelled from the spec: audio parameters of a track. -/
structure audio_info where
  sample_rate : ℕ
  channels : ℕ
  deriving DecidableEq, Repr

/-- Modelled from the spec: video parameters of a track. -/
structure video_info where
  width : ℕ
  height : ℕ
  fps_num : ℕ
  fps_denum : ℕ
  sar_w : ℕ
  sar_h : ℕ
  deriving DecidableEq, Repr

/-- Modelled from the spec: one elementary stream (`nulla::track`). -/
structure track where
  id : ℕ
  number : ℕ
  media_type : MediaType
  codec : String
  mime_type : String
  bandwidth : ℕ
  timescale : ℕ
  media_timescale : ℕ
  duration : ℕ
  audio : audio_info
  video : video_info
  samples : List sample
  deriving DecidableEq, Repr

/-- Modelled from the spec: a track-request. The field `track` is the
effective track that the accessor `track_request::track()` returns. -/
structure track_request where
  track : track
  start_number : ℤ
  duration_msec : ℤ
  deriving DecidableEq, Repr

/-- Modelled from the spec: `nulla::representation`. -/
structure representation where
  id : String
  duration_msec : ℤ
  tracks : List track_request
  deriving DecidableEq, Repr

/-- Modelled from the spec: `nulla::adaptation`. -/
structure adaptation where
  repr_ids : List String
  deriving DecidableEq, Repr

/-- Modelled from the spec: `nulla::period`. -/
structure period where
  duration_msec : ℤ
  adaptations : List adaptation
  deriving DecidableEq, Repr

/-- Modelled from the spec: the playlist behind `nulla::playlist_t`. The map
`repr` is kept as the list of its entries in key order. -/
structure playlist where
  base_url : String
  chunk_duration_sec : ℤ
  duration_msec : ℤ
  periods : List period
  repr : List (String × representation)
  deriving DecidableEq, Repr

/-- The lookup `m_playlist->repr.find(id)`; `none` is `repr.end()`. -/
def playlist.find (pl : playlist) (id : String) : Option representation :=
  pl.repr.lookup id

/-! ## HLS generator (`hls_playlist.hpp`) -/

/-- The attributes of one `#EXT-X-MEDIA` line. -/
structure ext_x_media where
  type : String
  group_id : String
  name : String
  uri : String
  deriving DecidableEq, Repr

/-- The attributes of one `#EXT-X-STREAM-INF` line; an attribute that the
source writes under a condition is `none` when it is not written. -/
structure ext_x_stream_inf where
  bandwidth : ℕ
  codecs : String
  resolution : Option (ℕ × ℕ)
  audio : Option String
  video : Option String
  deriving DecidableEq, Repr

/-- A line of the master playlist `m_ss`. -/
inductive MasterLine
  | text (s : String)
  | media (m : ext_x_media)
  | stream_inf (s : ext_x_stream_inf)
  | uri (url : String)
  deriving DecidableEq, Repr

/-- A line of a variant playlist. `extinf d` is the line `#EXTINF:<d>,` with
the `float` value `d` that is handed to the stream; the number that the
stream writes for it is `ostream_float d`. -/
inductive VariantLine
  | text (s : String)
  | extinf (duration : ℚ)
  | uri (url : String)
  deriving DecidableEq

/-- The state of an `m3u8` object. -/
structure m3u8 where
  m_playlist : playlist
  m_total_duration_msec : ℤ
  m_ss : List MasterLine
  m_variants : List (String × List VariantLine)
  m_adaptation_id : ℕ
  m_audio_groups : List String
  m_video_groups : List String

/-- The constructor `m3u8(playlist)` with the default member initialisers. -/
def m3u8.init (pl : playlist) : m3u8 :=
  { m_playlist := pl, m_total_duration_msec := 0, m_ss := [], m_variants := [],
    m_adaptation_id := 1, m_audio_groups := [], m_video_groups := [] }

/-- The assignment `m[key] = value` of a `std::map`, whose keys are unique. -/
def map_assign {β : Type} : List (String × β) → String → β → List (String × β)
  | [], key, value => [(key, value)]
  | e :: es, key, value =>
    if e.1 = key then (key, value) :: es else e :: map_assign es key value

namespace m3u8

/-- The string returned by `main_playlist()`, as its lines. -/
def main_playlist (st : m3u8) : List MasterLine := st.m_ss

/-- The playlist returned by `variant_playlist(prefix)`; an unknown key gives
the empty string, here the empty list of lines. -/
def variant_playlist (st : m3u8) (key : String) : List VariantLine :=
  match st.m_variants.lookup key with
  | none => []
  | some v => v

/-- The codec rewrite of `add_representation` (lines 126-129):
`if (codec.substr(0, 4) == "avc3") codec[3] = '1';`. -/
def hls_codec (codec : String) : String :=
  if codec.data.take 4 = "avc3".data then String.mk (codec.data.set 3 '1') else codec

/-- The inner loop of `add_representation` (lines 167-176). The first argument
counts the iterations that remain, `i` is the loop variable, `total` and
`duration` are the `float` variables `total_duration` and `duration`. -/
def extinf_loop (url_base : String) (start_number number_max : ℤ) (track_duration : ℚ) :
    ℕ → ℤ → ℚ → ℚ → List VariantLine
  | 0, _, _, _ => []
  | k + 1, i, total, duration =>
    let duration := if i = number_max - 1 then f32 (track_duration - total) else duration
    VariantLine.extinf duration
      :: VariantLine.uri (url_base ++ toString (start_number + i))
      :: extinf_loop url_base start_number number_max track_duration k (i + 1)
          (f32 (total + duration)) duration

/-- The value of `int number_max` (lines 162-163) for a track-request of
`duration_msec` milliseconds, given `int track_in_msec`. -/
def number_max (duration_msec track_in_msec : ℤ) : ℤ :=
  wrap32 (Int.tdiv (wrap64 (duration_msec + track_in_msec - 1)) track_in_msec)

/-- The body of the loop over the track-requests (lines 159-176): the lines
written for one track-request. The division by `track_in_msec` is undefined
when that is zero. -/
def track_segments (pl : playlist) (r : representation) (tr : track_request) :
    Option (List VariantLine) :=
  let track_duration : ℚ := f32 (f64 (f32 (tr.duration_msec : ℚ) / 1000))
  let track_in_msec : ℤ := wrap32 (1000 * pl.chunk_duration_sec)
  if track_in_msec = 0 then none
  else
    let n := number_max tr.duration_msec track_in_msec
    some (extinf_loop (pl.base_url ++ "play/" ++ r.id ++ "/") tr.start_number n
      track_duration n.toNat 0 0 (f32 (pl.chunk_duration_sec : ℚ)))

/-- The loop `for (const nulla::track_request &tr: r.tracks)` (lines 158-177). -/
def variant_body (pl : playlist) (r : representation) :
    List track_request → Option (List VariantLine)
  | [] => some []
  | tr :: rest =>
    match track_segments pl r tr with
    | none => none
    | some a =>
      match variant_body pl r rest with
      | none => none
      | some b => some (a ++ b)

/-- The five header lines of a variant playlist (lines 150-156). -/
def variant_header (pl : playlist) : List VariantLine :=
  [VariantLine.text "#EXTM3U", VariantLine.text "#EXT-X-VERSION:3",
   VariantLine.text "#EXT-X-PLAYLIST-TYPE:VOD", VariantLine.text "#EXT-X-MEDIA-SEQUENCE:0",
   VariantLine.text ("#EXT-X-TARGETDURATION:" ++ toString pl.chunk_duration_sec)]

/-- The variant playlist that `add_representation` builds in `pls`
(lines 150-178). -/
def variant_of (pl : playlist) (r : representation) : Option (List VariantLine) :=
  match variant_body pl r r.tracks with
  | none => none
  | some body => some (variant_header pl ++ body ++ [VariantLine.text "#EXT-X-ENDLIST"])

/-- The `#EXT-X-STREAM-INF` line of `add_representation` (lines 126-146). -/
def stream_inf_of (t : track) (atype vtype : String) : ext_x_stream_inf :=
  { bandwidth := t.bandwidth
    codecs := hls_codec t.codec
    resolution := if t.media_type = MediaType.VISUAL then some (t.video.width, t.video.height)
      else none
    audio := if atype ≠ "none" then some atype else none
    video := if vtype ≠ "none" then some vtype else none }

/-- `m3u8::add_representation` (lines 119-181). The text goes to `m_ss`, the
stream that `add_aset` passes. `r.tracks.front()` is undefined for an empty
track list. -/
def add_representation (st : m3u8) (r : representation) (atype vtype : String) :
    Option m3u8 :=
  match r.tracks.head? with
  | none => none
  | some trf =>
    let url := st.m_playlist.base_url ++ "playlist/" ++ r.id
    let ss := st.m_ss ++
      [MasterLine.stream_inf (stream_inf_of trf.track atype vtype), MasterLine.uri url]
    match variant_of st.m_playlist r with
    | none => none
    | some pls => some { st with m_ss := ss, m_variants := map_assign st.m_variants r.id pls }

end m3u8

/-! ## Quantities of the spec -/

/-- Number of `#EXTINF` lines among the lines of a variant playlist. -/
def extinf_count : List VariantLine → ℕ
  | [] => 0
  | VariantLine.extinf _ :: rest => extinf_count rest + 1
  | _ :: rest => extinf_count rest

/-- The `#EXTINF` durations of a variant playlist, in order of appearance. -/
def extinf_durations : List VariantLine → List ℚ
  | [] => []
  | VariantLine.extinf d :: rest => d :: extinf_durations rest
  | _ :: rest => extinf_durations rest

/-- The segment URLs of a variant playlist, in order of appearance. -/
def segment_urls : List VariantLine → List String
  | [] => []
  | VariantLine.uri u :: rest => u :: segment_urls rest
  | _ :: rest => segment_urls rest

/-- The segment count of the spec: `ceil(duration_msec / (1000 * chunk_duration_sec))`. -/
def segment_count (duration_msec chunk_duration_sec : ℤ) : ℤ :=
  ⌈(duration_msec : ℚ) / (1000 * (chunk_duration_sec : ℚ))⌉

/-! ## Sample inputs -/

/-- A 1280x720 AVC video track at 30 frames per second. -/
def sample_video_track : track :=
  { id := 1, number := 1, media_type := MediaType.VISUAL, codec := "avc1.640028",
    mime_type := "video/mp4", bandwidth := 2500000, timescale := 15360,
    media_timescale := 15360, duration := 184320,
    audio := { sample_rate := 0, channels := 0 },
    video := { width := 1280, height := 720, fps_num := 30, fps_denum := 1,
               sar_w := 1, sar_h := 1 },
    samples := [] }

/-- A track-request on `sample_video_track`. -/
def sample_request (start_number duration_msec : ℤ) : track_request :=
  { track := sample_video_track, start_number := start_number, duration_msec := duration_msec }

/-- A representation `v0` with the given track-requests. -/
def sample_repr (tracks : List track_request) : representation :=
  { id := "v0", duration_msec := 12000, tracks := tracks }

/-- A playlist with base URL `http://h/` and the given chunk duration. -/
def sample_playlist (chunk_duration_sec : ℤ) (tracks : List track_request) : playlist :=
  { base_url := "http://h/", chunk_duration_sec := chunk_duration_sec, duration_msec := 12000,
    periods := [{ duration_msec := 12000, adaptations := [{ repr_ids := ["v0"] }] }],
    repr := [("v0", sample_repr tracks)] }

/-- The start_number rule of the spec for the track-requests of a representation:
each `start_number` equals `start` plus the segment counts
`ceil(duration_msec / (1000 * chunk_duration_sec))` of the track-requests before it. -/
def start_number_rule (chunk_duration_sec : ℤ) : ℤ → List track_request → Prop
  | _, [] => True
  | start, tr :: rest =>
    tr.start_number = start ∧
      start_number_rule chunk_duration_sec
        (start + segment_count tr.duration_msec chunk_duration_sec) rest

/-- The total segment count of a list of track-requests. -/
def total_segments (chunk_duration_sec : ℤ) (tracks : List track_request) : ℤ :=
  (tracks.map (fun tr => segment_count tr.duration_msec chunk_duration_sec)).sum

/-- The URLs `url_base + n` for `n = start, start + 1, ..., start + count - 1`. -/
def numbered_urls (url_base : String) (start : ℤ) (count : ℕ) : List String :=
  (List.range count).map (fun (n : ℕ) => url_base ++ toString (start + (n : ℤ)))

namespace m3u8

/-- The body of the loop of `add_aset_groups` for a representation found in
`m_playlist->repr` (lines 67-93). `group_id` is the local variable that is
declared before the loop and keeps its value from one iteration to the next;
`type` is set to `"DATA"` in every iteration. The result is the new value of
`group_id` and the new state. -/
def add_aset_groups_step (adaptation_id group_id : String) (st : m3u8) (r : representation)
    (trf : track_request) : String × m3u8 :=
  let audio_track : Bool := trf.track.media_type = MediaType.AUDIO
  let type1 := if audio_track then "AUDIO" else "DATA"
  let group1 :=
    if audio_track then "audio-" ++ toString st.m_audio_groups.length else group_id
  let audio_groups :=
    if audio_track then st.m_audio_groups ++ [group1] else st.m_audio_groups
  let video_track : Bool := trf.track.media_type = MediaType.VISUAL
  let type2 := if video_track then "VIDEO" else type1
  let group2 :=
    if video_track then "video-" ++ toString st.m_video_groups.length else group1
  let video_groups :=
    if video_track then st.m_video_groups ++ [group2] else st.m_video_groups
  let url := st.m_playlist.base_url ++ "playlist/" ++ r.id
  (group2,
    { st with
      m_audio_groups := audio_groups
      m_video_groups := video_groups
      m_ss := st.m_ss ++
        [MasterLine.media
          { type := type2, group_id := group2, name := adaptation_id, uri := url }] })

/-- The loop of `add_aset_groups` (lines 62-94) over `a.repr_ids`. -/
def add_aset_groups_loop (adaptation_id : String) : List String → String → m3u8 → Option m3u8
  | [], _, st => some st
  | id :: ids, group_id, st =>
    match st.m_playlist.find id with
    | none => add_aset_groups_loop adaptation_id ids group_id st
    | some r =>
      match r.tracks.head? with
      | none => none
      | some trf =>
        add_aset_groups_loop adaptation_id ids
          (add_aset_groups_step adaptation_id group_id st r trf).1
          (add_aset_groups_step adaptation_id group_id st r trf).2

/-- `m3u8::add_aset_groups` (lines 58-95). -/
def add_aset_groups (st : m3u8) (adaptation_id : String) (a : adaptation) : Option m3u8 :=
  add_aset_groups_loop adaptation_id a.repr_ids "" st

/-- The loop over `m_video_groups` in `add_aset` (lines 112-114). -/
def add_aset_video_loop (r : representation) (atype : String) : List String → m3u8 → Option m3u8
  | [], st => some st
  | vtype :: vs, st =>
    match add_representation st r atype vtype with
    | none => none
    | some st1 => add_aset_video_loop r atype vs st1

/-- The loop over `m_audio_groups` in `add_aset` (lines 111-115). -/
def add_aset_audio_loop (r : representation) (video_groups : List String) :
    List String → m3u8 → Option m3u8
  | [], st => some st
  | atype :: as, st =>
    match add_aset_video_loop r atype video_groups st with
    | none => none
    | some st1 => add_aset_audio_loop r video_groups as st1

/-- The loop over `a.repr_ids` in `add_aset` (lines 104-116). -/
def add_aset_loop : List String → m3u8 → Option m3u8
  | [], st => some st
  | id :: ids, st =>
    match st.m_playlist.find id with
    | none => add_aset_loop ids st
    | some r =>
      match add_aset_audio_loop r st.m_video_groups st.m_audio_groups st with
      | none => none
      | some st1 => add_aset_loop ids st1

/-- `m3u8::add_aset` (lines 97-117). -/
def add_aset (st : m3u8) (a : adaptation) : Option m3u8 :=
  let audio_groups :=
    if st.m_audio_groups.isEmpty then st.m_audio_groups ++ ["none"] else st.m_audio_groups
  let video_groups :=
    if st.m_video_groups.isEmpty then st.m_video_groups ++ ["none"] else st.m_video_groups
  add_aset_loop a.repr_ids { st with m_audio_groups := audio_groups, m_video_groups := video_groups }

/-- The first loop of `add_period` (lines 47-51). -/
def add_period_groups : List adaptation → m3u8 → Option m3u8
  | [], st => some st
  | aset :: rest, st =>
    match add_aset_groups st ("adaptation-" ++ toString st.m_adaptation_id) aset with
    | none => none
    | some st1 =>
      add_period_groups rest { st1 with m_adaptation_id := st1.m_adaptation_id + 1 }

/-- The second loop of `add_period` (lines 53-55). -/
def add_period_asets : List adaptation → m3u8 → Option m3u8
  | [], st => some st
  | aset :: rest, st =>
    match add_aset st aset with
    | none => none
    | some st1 => add_period_asets rest st1

/-- `m3u8::add_period` (lines 46-56). -/
def add_period (st : m3u8) (p : period) : Option m3u8 :=
  match add_period_groups p.adaptations st with
  | none => none
  | some st1 => add_period_asets p.adaptations st1

/-- `m3u8::generate` (lines 15-24). `periods.front()` is undefined for a
playlist without periods. -/
def generate (st : m3u8) : Option m3u8 :=
  let ss := st.m_ss ++ [MasterLine.text "#EXTM3U", MasterLine.text "#EXT-X-VERSION:3"]
  match st.m_playlist.periods.head? with
  | none => none
  | some pr =>
    add_period { st with m_ss := ss, m_total_duration_msec := pr.duration_msec } pr

end m3u8

/-- The `#EXT-X-STREAM-INF` lines of a master playlist, in order. -/
def stream_inf_lines : List MasterLine → List ext_x_stream_inf
  | [] => []
  | MasterLine.stream_inf s :: rest => s :: stream_inf_lines rest
  | _ :: rest => stream_inf_lines rest

/-- The `#EXT-X-MEDIA` lines of a master playlist, in order. -/
def media_lines : List MasterLine → List ext_x_media
  | [] => []
  | MasterLine.media m :: rest => m :: media_lines rest
  | _ :: rest => media_lines rest

/-- The representations that the adaptations of a period list and that are
present in `playlist.repr`, in order of appearance. -/
def listed_reprs (pl : playlist) (p : period) : List representation :=
  p.adaptations.flatMap (fun a => a.repr_ids.filterMap pl.find)

/-- The media type of the first track of a representation. -/
def repr_media_type (r : representation) : Option MediaType :=
  r.tracks.head?.map (fun trf => trf.track.media_type)

/-- An AAC audio track. -/
def sample_audio_track : track :=
  { id := 2, number := 2, media_type := MediaType.AUDIO, codec := "mp4a.40.2",
    mime_type := "audio/mp4", bandwidth := 128000, timescale := 48000,
    media_timescale := 48000, duration := 576000,
    audio := { sample_rate := 48000, channels := 2 },
    video := { width := 0, height := 0, fps_num := 0, fps_denum := 0, sar_w := 0, sar_h := 0 },
    samples := [] }

/-- The playlist of scenario S2: video representations `v0` (720p) and `v1`
(1080p) in one adaptation, audio representation `a0` in another, 12 s each. -/
def sample_playlist_s2 (chunk_duration_sec : ℤ) (periods : List period) : playlist :=
  { base_url := "http://h/", chunk_duration_sec := chunk_duration_sec, duration_msec := 12000,
    periods := periods,
    repr :=
      [("a0", { id := "a0", duration_msec := 12000,
                tracks := [{ track := sample_audio_track, start_number := 0,
                             duration_msec := 12000 }] }),
       ("v0", { id := "v0", duration_msec := 12000,
                tracks := [sample_request 0 12000] }),
       ("v1", { id := "v1", duration_msec := 12000,
                tracks := [{ track := { sample_video_track with
                                        bandwidth := 5000000
                                        video := { width := 1920, height := 1080, fps_num := 30,
                                                   fps_denum := 1, sar_w := 1, sar_h := 1 } },
                             start_number := 0, duration_msec := 12000 }] })] }

/-- The period of scenario S2. -/
def sample_period_s2 : period :=
  { duration_msec := 12000,
    adaptations := [{ repr_ids := ["v0", "v1"] }, { repr_ids := ["a0"] }] }

/-- The `#EXT-X-STREAM-INF` lines that the spec asks for one representation:
one per pair of an audio group and a video group. -/
def repr_stream_infs (r : representation) (audio_groups video_groups : List String) :
    List ext_x_stream_inf :=
  match r.tracks.head? with
  | none => []
  | some trf =>
    audio_groups.flatMap (fun a => video_groups.map (fun v => m3u8.stream_inf_of trf.track a v))

/-- The group names `name ++ "0"`, `name ++ "1"`, ... that the first pass gives
to `count` representations when `first` groups exist already. -/
def group_names (name : String) (first count : ℕ) : List String :=
  (List.range count).map (fun (j : ℕ) => name ++ toString (first + j))

/-- The groups used by the second pass: the collected ones, or the synthetic
group `"none"` when none was collected. -/
def groups_or_none (groups : List String) : List String :=
  if groups.isEmpty then groups ++ ["none"] else groups

/-- Two states of the generator that differ only in the text written so far
and in the stored variant playlists. -/
def same_groups (st st' : m3u8) : Prop :=
  st'.m_playlist = st.m_playlist ∧ st'.m_audio_groups = st.m_audio_groups ∧
    st'.m_video_groups = st.m_video_groups ∧ st'.m_adaptation_id = st.m_adaptation_id ∧
    st'.m_total_duration_msec = st.m_total_duration_msec

/-! ## Decimal numbers in strings -/

/-- The number that a list of decimal digits denotes, given the number `acc`
read so far. -/
def decimal_value (acc : ℕ) : List Char → ℕ
  | [] => acc
  | c :: cs => decimal_value (10 * acc + (c.toNat - 48)) cs

/-- Whether the first track of a representation is an audio track. -/
def is_audio (r : representation) : Bool := repr_media_type r = some MediaType.AUDIO

/-- Whether the first track of a representation is a video track. -/
def is_video (r : representation) : Bool := repr_media_type r = some MediaType.VISUAL

/-- Number of audio representations in a list. -/
def audio_count (rs : List representation) : ℕ := rs.countP is_audio

/-- Number of video representations in a list. -/
def video_count (rs : List representation) : ℕ := rs.countP is_video

/-- The representations listed by the adaptations and present in
`playlist.repr`, each with the index of its adaptation, the first adaptation
having the index `k`. -/
def listed_with_index (pl : playlist) : ℕ → List adaptation → List (ℕ × representation)
  | _, [] => []
  | k, a :: rest =>
    (a.repr_ids.filterMap pl.find).map (fun r => (k, r)) ++ listed_with_index pl (k + 1) rest

/-- The `#EXT-X-MEDIA` lines `M` are the lines of the spec for the indexed
representations `L`, when `na` audio and `nv` video representations come
before them: one line for each representation, with the name of its adaptation
and its URI, `TYPE=AUDIO` and the next audio group for an audio representation,
`TYPE=VIDEO` and the next video group for a video representation, `TYPE=DATA`
for any other. -/
def media_ok (base_url : String) : ℕ → ℕ → List (ℕ × representation) → List ext_x_media → Prop
  | _, _, [], M => M = []
  | na, nv, (k, r) :: L, M =>
    ∃ m M', M = m :: M' ∧ m.name = "adaptation-" ++ toString k ∧
      m.uri = base_url ++ "playlist/" ++ r.id ∧
      (is_audio r = true → m.type = "AUDIO" ∧ m.group_id = "audio-" ++ toString na) ∧
      (is_video r = true → m.type = "VIDEO" ∧ m.group_id = "video-" ++ toString nv) ∧
      (is_audio r = false → is_video r = false → m.type = "DATA") ∧
      media_ok base_url (na + if is_audio r then 1 else 0) (nv + if is_video r then 1 else 0) L M'

namespace m3u8

/-- The state in which `generate` starts `add_period` (lines 16-20). -/
def generate_start (st : m3u8) (pr : period) : m3u8 :=
  { st with
    m_ss := st.m_ss ++ [MasterLine.text "#EXTM3U", MasterLine.text "#EXT-X-VERSION:3"]
    m_total_duration_msec := pr.duration_msec }

/-- The first pass of `generate`: the run up to the end of the first loop of
`add_period` (line 51). -/
def first_pass (st : m3u8) : Option m3u8 :=
  match st.m_playlist.periods.head? with
  | none => none
  | some pr => add_period_groups pr.adaptations (generate_start st pr)

end m3u8

/-- The groups of one kind as the spec has them for the second pass: `none`
stands for the synthetic group `"none"`, which is used when no group of the
kind was collected, and `some g` for the collected group `g`. -/
def group_options (name : String) (count : ℕ) : List (Option String) :=
  if count = 0 then [none] else (List.range count).map (fun (j : ℕ) => some (name ++ toString j))

/-- The `#EXT-X-STREAM-INF` line of the spec for a track and a pair of groups:
`AUDIO` and `VIDEO` are written for a collected group and left out for the
synthetic group. -/
def spec_stream_inf (t : track) (a v : Option String) : ext_x_stream_inf :=
  { bandwidth := t.bandwidth
    codecs := m3u8.hls_codec t.codec
    resolution := if t.media_type = MediaType.VISUAL then some (t.video.width, t.video.height)
      else none
    audio := a
    video := v }

/-- The `#EXT-X-STREAM-INF` lines of the spec for one representation: one for
each pair of an audio group and a video group. -/
def spec_stream_infs (r : representation) (audio_groups video_groups : List (Option String)) :
    List ext_x_stream_inf :=
  match r.tracks.head? with
  | none => []
  | some trf =>
    audio_groups.flatMap (fun a => video_groups.map (fun v => spec_stream_inf trf.track a v))

/-- A WebVTT text track, neither audio nor video. -/
def sample_text_track : track :=
  { id := 3, number := 3, media_type := MediaType.OTHER, codec := "wvtt",
    mime_type := "application/mp4", bandwidth := 1000, timescale := 1000,
    media_timescale := 1000, duration := 12000,
    audio := { sample_rate := 0, channels := 0 },
    video := { width := 0, height := 0, fps_num := 0, fps_denum := 0, sar_w := 0, sar_h := 0 },
    samples := [] }

/-- A playlist with one adaptation that lists the audio representation `a0`,
then the representation `t0`, whose tracks are `text_tracks`. -/
def sample_playlist_text (text_tracks : List track_request) : playlist :=
  { base_url := "http://h/", chunk_duration_sec := 4, duration_msec := 12000,
    periods := [{ duration_msec := 12000, adaptations := [{ repr_ids := ["a0", "t0"] }] }],
    repr :=
      [("a0", { id := "a0", duration_msec := 12000,
                tracks := [{ track := sample_audio_track, start_number := 0,
                             duration_msec := 12000 }] }),
       ("t0", { id := "t0", duration_msec := 12000, tracks := text_tracks })] }

/-! ## DASH generator (`dash_playlist.hpp`)

A `boost::property_tree` node is kept as the list of its XML attributes, in
the order of their first `put`, and the list of its children. Numbers are
stored in the tree as their decimal text. -/

/-- An XML element without children (`SegmentTemplate`,
`AudioChannelConfiguration`). -/
structure xml_leaf where
  attrs : List (String × String)
  deriving DecidableEq, Repr

/-- An XML element with attributes and named children of type `α`. -/
structure xml_node (α : Type) where
  attrs : List (String × String)
  children : List (String × α)
  deriving DecidableEq, Repr

/-- The `MPD` element: its attributes, the text of `BaseURL` and the `Period`. -/
structure xml_mpd where
  attrs : List (String × String)
  base_url : String
  period : xml_node (xml_node (xml_node xml_leaf))
  deriving DecidableEq, Repr

/-- Modelled from the spec: `gf_media_get_reduced_frame_rate` of the GPAC
library, which is not part of the sources; by the spec it reduces
`fps_num/fps_denum` by their greatest common divisor. -/
def gf_media_get_reduced_frame_rate (fps_num fps_denum : ℕ) : ℕ × ℕ :=
  (fps_num / Nat.gcd fps_num fps_denum, fps_denum / Nat.gcd fps_num fps_denum)

/-- Conversion of a `float` to `int`: truncation toward zero, undefined when
the result does not fit. -/
def float_to_int (x : ℚ) : Option ℤ :=
  let t : ℤ := if 0 ≤ x then ⌊x⌋ else ⌈x⌉
  if -2147483648 ≤ t ∧ t ≤ 2147483647 then some t else none

/-- Three decimal digits of a number below 1000, with leading zeros. -/
def pad3 (n : ℕ) : String :=
  if n < 10 then "00" ++ toString n else if n < 100 then "0" ++ toString n else toString n

/-- The conversion `%.3f` of `printf`: the value rounded to three fractional
digits, ties to even. -/
def fmt_3f (x : ℚ) : String :=
  let q : ℕ := (roundHalfEven (|x| * 1000)).toNat
  (if x < 0 then "-" else "") ++ toString (q / 1000) ++ "." ++ pad3 (q % 1000)

namespace mpd

/-- `mpd::print_time` (lines 138-146). `sec` and `s` are `float`, `h` and `m`
are `int`; `snprintf` keeps at most 35 characters. -/
def print_time (duration_msec : ℤ) : Option String :=
  let sec : ℚ := f32 (f64 (f32 (duration_msec : ℚ) / 1000))
  match float_to_int (f32 (sec / f32 3600)) with
  | none => none
  | some h =>
    match float_to_int (f32 (f32 (sec - f32 (wrap32 (h * 3600) : ℚ)) / f32 60)) with
    | none => none
    | some m =>
      let s : ℚ := f32 (f32 (sec - f32 (wrap32 (h * 3600) : ℚ)) - f32 (wrap32 (m * 60) : ℚ))
      some (String.mk
        (("PT" ++ toString h ++ "H" ++ toString m ++ "M" ++ fmt_3f s ++ "S").data.take 35))

/-- `mpd::add_segment` (lines 126-136): the `SegmentTemplate` element. -/
def add_segment (pl : playlist) (r : representation) (t : track) : xml_leaf :=
  let a0 : List (String × String) := []
  let a1 := map_assign a0 "timescale" (toString t.media_timescale)
  let a2 := map_assign a1 "duration" (toString ((t.media_timescale : ℤ) * pl.chunk_duration_sec))
  let a3 := map_assign a2 "initialization" ("init/" ++ r.id)
  let a4 := map_assign a3 "startNumber" (toString (0 : ℤ))
  let a5 := map_assign a4 "media" ("play/" ++ r.id ++ "/$Number$")
  { attrs := a5 }

/-- The `frameRate` attribute of `add_representation` (lines 102-115). -/
def frame_rate (v : video_info) : String :=
  let reduced := gf_media_get_reduced_frame_rate v.fps_num v.fps_denum
  if reduced.2 > 1 then toString v.fps_num ++ "/" ++ toString v.fps_denum
  else toString v.fps_num

/-- The body of `mpd::add_representation` (lines 67-123) once the first
track-request `trf` has been read: the `Representation` element. -/
def representation_element (pl : playlist) (r : representation) (trf : track_request) :
    xml_node xml_leaf :=
  let t := trf.track
  let a0 : List (String × String) := []
  let a1 := map_assign a0 "id" r.id
  let a2 := map_assign a1 "startWithSAP" "1"
  let a3 := map_assign a2 "mimeType" t.mime_type
  let a4 := map_assign a3 "codecs" t.codec
  let a5 := map_assign a4 "bandwidth" (toString t.bandwidth)
  let seg : String × xml_leaf := ("SegmentTemplate", add_segment pl r t)
  if t.media_type = MediaType.AUDIO then
    let b1 := map_assign a5 "audioSamplingRate" (toString t.audio.sample_rate)
    let channel : xml_leaf :=
      { attrs := map_assign
          (map_assign [] "schemeIdUri" "urn:mpeg:dash:23003:3:audio_channel_configuration:2011")
          "value" (toString t.audio.channels) }
    { attrs := b1, children := [("AudioChannelConfiguration", channel), seg] }
  else if t.media_type = MediaType.VISUAL then
    let b1 := map_assign a5 "width" (toString t.video.width)
    let b2 := map_assign b1 "height" (toString t.video.height)
    let b3 := map_assign b2 "frameRate" (frame_rate t.video)
    let b4 := map_assign b3 "sar" (toString t.video.sar_w ++ ":" ++ toString t.video.sar_h)
    { attrs := b4, children := [seg] }
  else { attrs := a5, children := [seg] }

/-- `mpd::add_representation` (lines 66-124): the `AdaptationSet` with the
`Representation` added. `r.tracks.front()` is undefined for an empty list. -/
def add_representation (pl : playlist) (aset : xml_node (xml_node xml_leaf))
    (r : representation) : Option (xml_node (xml_node xml_leaf)) :=
  match r.tracks.head? with
  | none => none
  | some trf =>
    some { aset with
      children := aset.children ++ [("Representation", representation_element pl r trf)] }

/-- The loop of `generate` over `m_playlist->repr` (lines 36-47). -/
def generate_loop (pl : playlist) :
    List (String × representation) → xml_node (xml_node (xml_node xml_leaf)) →
      Option (xml_node (xml_node (xml_node xml_leaf)))
  | [], period => some period
  | (_, repr) :: rest, period =>
    if repr.tracks.isEmpty then generate_loop pl rest period
    else
      match add_representation pl
          { attrs := map_assign [] "segmentAlignment" "true", children := [] } repr with
      | none => none
      | some aset =>
        generate_loop pl rest
          { period with children := period.children ++ [("AdaptationSet", aset)] }

/-- `mpd::generate` (lines 23-53): the `MPD` element added to `m_root`. -/
def generate (pl : playlist) : Option xml_mpd :=
  let m1 := map_assign [] "xmlns" "urn:mpeg:dash:schema:mpd:2011"
  let m2 := map_assign m1 "minBufferTime" "PT1.500S"
  let m3 := map_assign m2 "profiles" "urn:mpeg:dash:profile:full:2011"
  let m4 := map_assign m3 "type" "static"
  match generate_loop pl pl.repr { attrs := map_assign [] "id" "period_id", children := [] } with
  | none => none
  | some period =>
    match print_time pl.duration_msec with
    | none => none
    | some d =>
      let m5 := map_assign m4 "mediaPresentationDuration" d
      match print_time pl.duration_msec with
      | none => none
      | some d2 =>
        some { attrs := map_assign m5 "maxSegmentDuration" d2, base_url := pl.base_url,
               period := period }

end mpd

/-- The text of the spec for `print_time`: `PT<H>H<M>M<S.sss>S` with
`H = floor(ms / 3600000)`, `M = floor(ms / 60000) mod 60` and the remaining
`(ms mod 60000) / 1000` seconds with three fractional digits. -/
def spec_print_time (duration_msec : ℕ) : String :=
  "PT" ++ toString (duration_msec / 3600000) ++ "H" ++ toString (duration_msec / 60000 % 60) ++
    "M" ++ toString (duration_msec % 60000 / 1000) ++ "." ++ pad3 (duration_msec % 1000) ++ "S"

/-- The frame rate of the spec: `fps_num/fps_denum` reduced by the greatest
common divisor, written `n/d` when the reduced `d` exceeds 1 and `n` otherwise. -/
def spec_frame_rate (fps_num fps_denum : ℕ) : String :=
  let n := fps_num / Nat.gcd fps_num fps_denum
  let d := fps_denum / Nat.gcd fps_num fps_denum
  if d > 1 then toString n ++ "/" ++ toString d else toString n

/-- The playlist `pl` with `ps` as its list of periods. -/
def playlist.with_periods (pl : playlist) (ps : List period) : playlist :=
  { pl with periods := ps }

/-- The generator state `st` with `ps` as the list of periods of its playlist. -/
def m3u8.with_periods (st : m3u8) (ps : List period) : m3u8 :=
  { st with m_playlist := st.m_playlist.with_periods ps }

/-- What `generate` hands out: the master playlist and the variant playlists. -/
def m3u8.output (st : m3u8) : List MasterLine × List (String × List VariantLine) :=
  (st.main_playlist, st.m_variants)

/-! ## Segment request handler (`src/server.cpp`) -/

/-- Value of a 64-bit unsigned `u64` or `size_t` holding the integer `x`. -/
def wrapU64 (x : ℤ) : ℤ := x % 2 ^ 64

/-- Modelled from the spec: `nulla::media`, the metadata of a stored asset
with its tracks. -/
structure media where
  tracks : List track
  deriving DecidableEq, Repr

/-- Modelled from the spec: `nulla::writer_options`, with the six fields that
`request_track_data` assigns. The fields `sample_data` and
`sample_data_size`, which `on_read_samples` sets from the bytes read, are
kept beside the options in `Event.create`. -/
structure writer_options where
  pos_start : ℤ
  pos_end : ℤ
  dts_start : ℤ
  dts_end : ℤ
  fragment_duration : ℤ
  dts_start_absolute : ℤ
  deriving DecidableEq, Repr

/-- What a run of the request handler does, one constructor per kind of
statement with an effect outside the local variables (log lines apart):
* `search dts` is the call `track.sample_position_from_dts(dts)`;
* `sample pos` is a read of `track.samples[pos]`;
* `close ec` is `this->close(ec)` with the value of the error code;
* `read_data key offset size opt` is `m_session->read_data(key, offset, size)`
  connected to `on_read_samples` with the options `opt` bound;
* `create opt sample_data` is `writer.create(opt, movie_data)` of the fragment
  writer, `sample_data` being the bytes that `opt.sample_data` points to;
* `send_headers n` is the reply with `Content-Length` `n`. -/
inductive Event
  | search (dts : ℤ)
  | sample (pos : ℤ)
  | close (ec : ℤ)
  | read_data (key : String) (offset size : ℤ) (opt : writer_options)
  | create (opt : writer_options) (sample_data : List UInt8)
  | send_headers (content_length : ℕ)
  deriving DecidableEq

/-- The element `v[pos]` of a `std::vector` for a signed position. The
position is converted to `size_t`: a negative one becomes a value of at least
`2 ^ 63`, which is outside of every vector. Reading outside of the vector is
undefined. -/
def vector_at {α : Type} (v : List α) (pos : ℤ) : Option α :=
  if 0 ≤ pos then v[pos.toNat]? else none

/-- The local variable `dtime_start` of `request_track_data` (line 307): the
product of the `int` `time` and the field `track.timescale`, stored in a
`u64`. -/
def on_dash_stream_base.dtime_start (track : track) (time : ℤ) : ℤ :=
  wrapU64 (time * track.timescale)

/-- The local variable `dtime_end` of `request_track_data` (lines 308-309):
`time_end` is the `int` sum `time + 10` stored in a `u64`, and `dtime_end` the
`u64` product of `time_end` and `track.timescale`. -/
def on_dash_stream_base.dtime_end (track : track) (time : ℤ) : ℤ :=
  let time_end : ℤ := wrapU64 (wrap32 (time + 10))
  wrapU64 (time_end * track.timescale)

/-- The local variable `pos_end` of `request_track_data` after lines 324-327:
the result of the end search, replaced by `track.samples.size() - 1` when it
is negative. A vector has fewer than `2 ^ 63` elements, so that the `size_t`
difference stored in the `ssize_t` is the integer `size - 1` (`-1` for an empty
vector). -/
def on_dash_stream_base.pos_end (sample_position_from_dts : track → ℤ → ℤ)
    (track : track) (time : ℤ) : ℤ :=
  let pos_end : ℤ := sample_position_from_dts track (on_dash_stream_base.dtime_end track time)
  if pos_end < 0 then (track.samples.length : ℤ) - 1 else pos_end

/-- The writer options that `request_track_data` builds (lines 339-346). -/
def on_dash_stream_base.options (sample_position_from_dts : track → ℤ → ℤ)
    (track : track) (time : ℤ) : writer_options :=
  { pos_start := sample_position_from_dts track (on_dash_stream_base.dtime_start track time),
    pos_end := on_dash_stream_base.pos_end sample_position_from_dts track time,
    dts_start := on_dash_stream_base.dtime_start track time,
    dts_end := on_dash_stream_base.dtime_end track time,
    fragment_duration := 1 * track.timescale,
    dts_start_absolute := 0 }

/-- The method `on_dash_stream_base::request_track_data` (lines 304-351).
The search `track.sample_position_from_dts` is declared in
`nulla/iso_reader.hpp`, which is not among the sources, and is a parameter;
it returns an `ssize_t`. The result is the list of the events of the run in
their order, `none` for a run with an undefined read. -/
def on_dash_stream_base.request_track_data (sample_position_from_dts : track → ℤ → ℤ)
    (m_media : media) (key : String) (time : ℤ) : Option (List Event) :=
  match vector_at m_media.tracks 0 with
  | none => none
  | some track =>
    let dtime_start : ℤ := on_dash_stream_base.dtime_start track time
    let dtime_end : ℤ := on_dash_stream_base.dtime_end track time
    let pos_start : ℤ := sample_position_from_dts track dtime_start
    if pos_start < 0 then
      some [Event.search dtime_start, Event.close (wrap32 pos_start)]
    else
      let pos_end : ℤ := on_dash_stream_base.pos_end sample_position_from_dts track time
      match vector_at track.samples pos_start, vector_at track.samples pos_end with
      | some s_start, some s_end =>
        let start_offset : ℤ := wrapU64 s_start.offset
        let end_offset : ℤ := wrapU64 (s_end.offset + s_end.length)
        let opt : writer_options :=
          on_dash_stream_base.options sample_position_from_dts track time
        some [Event.search dtime_start, Event.search dtime_end, Event.sample pos_start,
          Event.sample pos_end, Event.sample pos_end,
          Event.read_data key start_offset (wrapU64 (end_offset - start_offset)) opt]
      | _, _ => none

/-- What the blob store hands to `on_read_samples`: the code of `error`
(`0` for a read without error) and the bytes of the entry `result[0]`. -/
structure read_result where
  error : ℤ
  file : List UInt8
  deriving DecidableEq

/-- The callback `on_dash_stream_base::on_read_samples` (lines 266-302). The
fragment writer `nulla::iso_writer::create` is declared in
`nulla/iso_writer.hpp`, which is not among the sources, and is a parameter:
it returns the `int` result and the bytes of `movie_data`. -/
def on_dash_stream_base.on_read_samples
    (create : track → writer_options → List UInt8 → ℤ × List UInt8)
    (m_media : media) (opt : writer_options) (result : read_result) : Option (List Event) :=
  if result.error ≠ 0 then some [Event.close (wrap32 (-result.error))]
  else
    match vector_at m_media.tracks 0 with
    | none => none
    | some track =>
      let created := create track opt result.file
      let err : ℤ := wrap32 created.1
      if err < 0 then some [Event.create opt result.file, Event.close err]
      else some [Event.create opt result.file, Event.send_headers created.2.length]

/-- A segment request from `request_track_data` on: the events of
`request_track_data`, followed by those of the callback `on_read_samples`
for the read that it has issued as its last statement; `blob` gives the
outcome of a read of the blob store. -/
def on_dash_stream_base.segment_request (sample_position_from_dts : track → ℤ → ℤ)
    (create : track → writer_options → List UInt8 → ℤ × List UInt8)
    (blob : String → ℤ → ℤ → read_result)
    (m_media : media) (key : String) (time : ℤ) : Option (List Event) :=
  match on_dash_stream_base.request_track_data sample_position_from_dts m_media key time with
  | none => none
  | some evs =>
    match evs.getLast? with
    | some (Event.read_data k offset size opt) =>
      match on_dash_stream_base.on_read_samples create m_media opt (blob k offset size) with
      | none => none
      | some after => some (evs ++ after)
    | _ => some evs

/-- The blob reads among the events of a run, each with offset and size. -/
def blob_reads : List Event → List (ℤ × ℤ)
  | [] => []
  | Event.read_data _ offset size _ :: rest => (offset, size) :: blob_reads rest
  | _ :: rest => blob_reads rest

/-- The positions at which a run reads `track.samples`. -/
def sample_reads : List Event → List ℤ
  | [] => []
  | Event.sample pos :: rest => pos :: sample_reads rest
  | _ :: rest => sample_reads rest

/-- The options with which a run invokes the fragment writer. -/
def writer_calls : List Event → List writer_options
  | [] => []
  | Event.create opt _ :: rest => opt :: writer_calls rest
  | _ :: rest => writer_calls rest

/-- The values with which a run searches the sample index. -/
def searches : List Event → List ℤ
  | [] => []
  | Event.search dts :: rest => dts :: searches rest
  | _ :: rest => searches rest

/-- The options bound to the blob reads of a run. -/
def read_options : List Event → List writer_options
  | [] => []
  | Event.read_data _ _ _ opt :: rest => opt :: read_options rest
  | _ :: rest => read_options rest

/-- Modelled from the spec: `track::sample_position_from_dts` of
`nulla/iso_reader.hpp`, which is not among the sources. By the spec it returns
the largest index `i` with `samples[i].dts ≤ t`, and `NOT_FOUND`, a negative
value (here `-1`), when there is no such index. -/
def sample_position_from_dts (track : track) (t : ℤ) : ℤ :=
  match (List.range track.samples.length).reverse.find?
      (fun i => decide (((track.samples.getD i ⟨0, 0, 0⟩).dts : ℤ) ≤ t)) with
  | some i => (i : ℤ)
  | none => -1

/-- The track of scenario S4: timescale 15360, 360 samples of 4 bytes with a
DTS every 512 ticks. -/
def sample_track_s4 : track :=
  { sample_video_track with
    samples := (List.range 360).map (fun (i : ℕ) =>
      ({ dts := 512 * i, offset := 4 * i, length := 4 } : sample)) }

/-- A writer that fails on an empty sample buffer and otherwise returns the
sample bytes as the fragment. -/
def sample_writer (_ : track) (_ : writer_options) (data : List UInt8) : ℤ × List UInt8 :=
  if data.isEmpty then (-22, []) else (0, data)

/-- A blob store that returns `size` zero bytes without error. -/
def sample_blob (_ : String) (_ : ℤ) (size : ℤ) : read_result :=
  { error := 0, file := List.replicate size.toNat 0 }

/-! ## The segment loop of `add_representation`, arithmetic as a parameter -/

/-- The number formats of the loop of `add_representation`: what storing a
value in an `int`, in a `long`, in a `float` and in a `double` does to it. -/
structure arithmetic where
  int32 : ℤ → ℤ
  int64 : ℤ → ℤ
  float32 : ℚ → ℚ
  float64 : ℚ → ℚ

/-- The formats of the machine: two's complement integers and IEEE-754
floating point. -/
def arithmetic.machine : arithmetic :=
  { int32 := wrap32, int64 := wrap64, float32 := f32, float64 := f64 }

/-- Exact arithmetic: every value is stored as it is. -/
def arithmetic.exact : arithmetic :=
  { int32 := id, int64 := id, float32 := id, float64 := id }

/-- The inner loop of `add_representation` (lines 167-176) as `extinf_loop`,
with the `float` operations of the arithmetic `ar`. -/
def m3u8.extinf_loop_in (ar : arithmetic) (url_base : String) (start_number number_max : ℤ)
    (track_duration : ℚ) : ℕ → ℤ → ℚ → ℚ → List VariantLine
  | 0, _, _, _ => []
  | k + 1, i, total, duration =>
    let duration :=
      if i = number_max - 1 then ar.float32 (track_duration - total) else duration
    VariantLine.extinf duration
      :: VariantLine.uri (url_base ++ toString (start_number + i))
      :: m3u8.extinf_loop_in ar url_base start_number number_max track_duration k (i + 1)
          (ar.float32 (total + duration)) duration

/-- The body of the loop over the track-requests (lines 159-176) as
`track_segments`, with the operations of the arithmetic `ar`. -/
def m3u8.track_segments_in (ar : arithmetic) (pl : playlist) (r : representation)
    (tr : track_request) : Option (List VariantLine) :=
  let track_duration : ℚ :=
    ar.float32 (ar.float64 (ar.float32 (tr.duration_msec : ℚ) / 1000))
  let track_in_msec : ℤ := ar.int32 (1000 * pl.chunk_duration_sec)
  if track_in_msec = 0 then none
  else
    let n : ℤ :=
      ar.int32 (Int.tdiv (ar.int64 (tr.duration_msec + track_in_msec - 1)) track_in_msec)
    some (m3u8.extinf_loop_in ar (pl.base_url ++ "play/" ++ r.id ++ "/") tr.start_number n
      track_duration n.toNat 0 0 (ar.float32 (pl.chunk_duration_sec : ℚ)))

/-! ## Text of a `float` written to a stream -/

/-- Helper of `decimal_unit` for `100000 ≤ x`: the unit `u` is multiplied by
ten until `x < 1000000 * u`, at most `fuel` times. -/
def unit_up : ℕ → ℚ → ℚ → ℚ
  | 0, _, u => u
  | fuel + 1, x, u => if x < 1000000 * u then u else unit_up fuel x (u * 10)

/-- Helper of `decimal_unit` for `x < 100000`: the unit `u` is divided by ten
until `100000 * u ≤ x`, at most `fuel` times. -/
def unit_down : ℕ → ℚ → ℚ → ℚ
  | 0, _, u => u
  | fuel + 1, x, u => if 100000 * u ≤ x then u else unit_down fuel x (u / 10)

/-- The unit of the sixth significant decimal digit of a non-zero rational:
the power of ten `u` with `100000 * u ≤ |x| < 1000000 * u`. -/
def decimal_unit (x : ℚ) : ℚ :=
  if 100000 ≤ |x| then unit_up (x.num.natAbs + x.den + 5) |x| 1
  else unit_down (x.num.natAbs + x.den + 5) |x| 1

/-- The number that `operator<<` writes for a `float` on a stream with the
default format (`pls << duration`, line 171): the conversion `%g` with
precision 6, which rounds the value to six significant decimal digits, a tie
going to the even digit. Only the number that the text denotes is kept, not
its layout (fixed or scientific, trailing zeros removed). -/
def ostream_float (x : ℚ) : ℚ :=
  if x = 0 then 0
  else
    let u : ℚ := decimal_unit x
    (roundHalfEven (x / u) : ℚ) * u

/-- The numbers written on the `#EXTINF` lines of a variant playlist, in order
of appearance: the text of each `float` duration. -/
def extinf_written (l : List VariantLine) : List ℚ :=
  (extinf_durations l).map ostream_float

/-! # Theorems -/

/-! ## Machine integers -/

theorem wrap32_of_range {x : ℤ} (h1 : -2147483648 ≤ x) (h2 : x ≤ 2147483647) :
    wrap32 x = x := by
  unfold wrap32
  omega

theorem wrap64_of_range {x : ℤ} (h1 : -9223372036854775808 ≤ x)
    (h2 : x ≤ 9223372036854775807) : wrap64 x = x := by
  unfold wrap64
  omega

theorem ceil_div_eq {a b : ℤ} (hb : 0 < b) : ⌈(a : ℚ) / (b : ℚ)⌉ = (a + b - 1) / b := by
  have hbq : (0 : ℚ) < (b : ℚ) := by exact_mod_cast hb
  rw [Int.ceil_eq_iff]
  have h1 := Int.ediv_mul_le (a + b - 1) (ne_of_gt hb)
  have h2 := Int.lt_ediv_add_one_mul_self (a + b - 1) hb
  constructor
  · rw [lt_div_iff₀ hbq]
    have : ((a + b - 1) / b - 1) * b < a := by nlinarith
    exact_mod_cast this
  · rw [div_le_iff₀ hbq]
    have : a ≤ ((a + b - 1) / b) * b := by nlinarith
    exact_mod_cast this

/-! ## Variant playlists: counting lines -/

theorem extinf_count_append (a b : List VariantLine) :
    extinf_count (a ++ b) = extinf_count a + extinf_count b := by
  induction a with
  | nil => simp [extinf_count]
  | cons x xs ih =>
    cases x
    all_goals simp [extinf_count, ih]
    omega

theorem extinf_count_loop (u : String) (s n : ℤ) (td : ℚ) (k : ℕ) (i : ℤ) (total d : ℚ) :
    extinf_count (m3u8.extinf_loop u s n td k i total d) = k := by
  induction k generalizing i total d with
  | zero => simp [m3u8.extinf_loop, extinf_count]
  | succ k ih => simp [m3u8.extinf_loop, extinf_count, ih]

theorem segment_count_nonneg {ms c : ℤ} (hc : 1 ≤ c) (hms : 0 ≤ ms) : 0 ≤ segment_count ms c := by
  unfold segment_count
  apply Int.ceil_nonneg
  have : (0:ℚ) ≤ (ms:ℚ) := by exact_mod_cast hms
  have : (0:ℚ) < 1000 * (c:ℚ) := by
    have : (1:ℚ) ≤ (c:ℚ) := by exact_mod_cast hc
    linarith
  positivity

theorem segment_count_eq_ediv {ms c : ℤ} (hc : 1 ≤ c) :
    segment_count ms c = (ms + 1000 * c - 1) / (1000 * c) := by
  have hpos : (0 : ℤ) < 1000 * c := by omega
  unfold segment_count
  have := @ceil_div_eq ms (1000 * c) hpos
  push_cast at this
  exact this

theorem number_max_eq {ms c : ℤ} (hc1 : 1 ≤ c) (hc2 : c ≤ 2147483) (hms : 0 ≤ ms)
    (hn : segment_count ms c ≤ 2147483647) :
    wrap32 (1000 * c) = 1000 * c ∧
      m3u8.number_max ms (wrap32 (1000 * c)) = segment_count ms c := by
  have hw : wrap32 (1000 * c) = 1000 * c := wrap32_of_range (by omega) (by omega)
  refine ⟨hw, ?_⟩
  have hpos : (0 : ℤ) < 1000 * c := by omega
  have hsc := @segment_count_eq_ediv ms c hc1
  rw [hsc] at hn
  have hle := Int.lt_ediv_add_one_mul_self (ms + 1000 * c - 1) hpos
  have hms2 : ms + 1000 * c - 1 ≤ 9223372036854775807 := by nlinarith
  unfold m3u8.number_max
  rw [hw, wrap64_of_range (by omega) hms2, hsc]
  have hnn : 0 ≤ ms + 1000 * c - 1 := by omega
  rw [Int.tdiv_eq_ediv hnn (by omega)]
  apply wrap32_of_range _ hn
  have := Int.ediv_nonneg hnn (le_of_lt hpos)
  omega

theorem track_segments_eq (pl : playlist) (r : representation) (tr : track_request)
    (hc1 : 1 ≤ pl.chunk_duration_sec) (hc2 : pl.chunk_duration_sec ≤ 2147483)
    (hms : 0 ≤ tr.duration_msec)
    (hn : segment_count tr.duration_msec pl.chunk_duration_sec ≤ 2147483647) :
    m3u8.track_segments pl r tr =
      some (m3u8.extinf_loop (pl.base_url ++ "play/" ++ r.id ++ "/") tr.start_number
        (segment_count tr.duration_msec pl.chunk_duration_sec)
        (f32 (f64 (f32 (tr.duration_msec : ℚ) / 1000)))
        (segment_count tr.duration_msec pl.chunk_duration_sec).toNat 0 0
        (f32 (pl.chunk_duration_sec : ℚ))) := by
  obtain ⟨hw, hnm⟩ := number_max_eq hc1 hc2 hms hn
  unfold m3u8.track_segments
  have h0 : wrap32 (1000 * pl.chunk_duration_sec) ≠ 0 := by rw [hw]; omega
  simp only [h0, if_false, hnm]

theorem lookup_map_assign {β : Type} (m : List (String × β)) (k : String) (v : β) :
    (map_assign m k v).lookup k = some v := by
  induction m with
  | nil => simp [map_assign, List.lookup]
  | cons e es ih =>
    by_cases he : e.1 = k
    · simp [map_assign, he, List.lookup]
    · have hk : (k == e.1) = false := by
        simpa using fun h => he h.symm
      simp [map_assign, he, List.lookup, hk, ih]

theorem variant_body_count (pl : playlist) (r : representation)
    (hc1 : 1 ≤ pl.chunk_duration_sec) (hc2 : pl.chunk_duration_sec ≤ 2147483)
    (ts : List track_request)
    (hd : ∀ tr ∈ ts, 0 ≤ tr.duration_msec ∧
      segment_count tr.duration_msec pl.chunk_duration_sec ≤ 2147483647) :
    ∃ b, m3u8.variant_body pl r ts = some b ∧
      (extinf_count b : ℤ) =
        (ts.map (fun tr => segment_count tr.duration_msec pl.chunk_duration_sec)).sum := by
  induction ts with
  | nil => exact ⟨[], rfl, by simp [extinf_count]⟩
  | cons t ts ih =>
    obtain ⟨b, hb, hcount⟩ := ih (fun tr htr => hd tr (List.mem_cons_of_mem _ htr))
    obtain ⟨hms, hn⟩ := hd t (List.mem_cons_self _ _)
    have ht := track_segments_eq pl r t hc1 hc2 hms hn
    have hnn := segment_count_nonneg hc1 hms
    rw [m3u8.variant_body, ht, hb]
    refine ⟨_, rfl, ?_⟩
    rw [extinf_count_append, extinf_count_loop]
    simp only [List.map_cons, List.sum_cons]
    push_cast
    rw [← hcount, Int.toNat_of_nonneg hnn]

/-- C1 (amended): for a playlist with `1 ≤ chunk_duration_sec ≤ 2147483` and a
representation with a non-empty track list whose track-requests all have
`duration_msec ≥ 0` and at most `2147483647` segments each,
`add_representation` stores a variant playlist whose number of `#EXTINF` lines
is the sum over the track-requests of
`ceil(duration_msec / (1000 * chunk_duration_sec))`. -/
theorem C1_extinf_count (st : m3u8) (r : representation) (atype vtype : String)
    (hc1 : 1 ≤ st.m_playlist.chunk_duration_sec)
    (hc2 : st.m_playlist.chunk_duration_sec ≤ 2147483)
    (hne : r.tracks ≠ [])
    (hd : ∀ tr ∈ r.tracks, 0 ≤ tr.duration_msec ∧
      segment_count tr.duration_msec st.m_playlist.chunk_duration_sec ≤ 2147483647) :
    ∃ st', m3u8.add_representation st r atype vtype = some st' ∧
      (extinf_count (st'.variant_playlist r.id) : ℤ) =
        (r.tracks.map
          (fun tr => segment_count tr.duration_msec st.m_playlist.chunk_duration_sec)).sum := by
  obtain ⟨b, hb, hcount⟩ := variant_body_count st.m_playlist r hc1 hc2 r.tracks hd
  cases htr : r.tracks with
  | nil => exact absurd htr hne
  | cons trf rest =>
    rw [m3u8.add_representation, htr, List.head?_cons, m3u8.variant_of, ← htr, hb]
    refine ⟨_, rfl, ?_⟩
    simp only [m3u8.variant_playlist, lookup_map_assign]
    rw [extinf_count_append, extinf_count_append, ← hcount]
    simp [m3u8.variant_header, extinf_count]

/-- C1, witness: a 12.5 s track-request with 4 s chunks gives 4 `#EXTINF` lines. -/
theorem C1_extinf_count_witness :
    ∃ st', m3u8.add_representation (m3u8.init (sample_playlist 4 [sample_request 0 12500]))
        (sample_repr [sample_request 0 12500]) "none" "none" = some st' ∧
      (extinf_count (st'.variant_playlist "v0") : ℤ) =
        ([sample_request 0 12500].map (fun tr => segment_count tr.duration_msec 4)).sum :=
  C1_extinf_count (m3u8.init (sample_playlist 4 [sample_request 0 12500]))
    (sample_repr [sample_request 0 12500]) "none" "none" (by decide) (by decide) (by decide)
    (by
      intro tr htr
      simp only [sample_repr, List.mem_singleton] at htr
      subst htr
      decide!)

/-- C1, counterexample: the claim as stated fails. With `chunk_duration_sec = 1`
and one track-request of 4294967296000 ms the sum of the ceilings is 4294967296,
but `int number_max` holds 0 and the stored variant playlist has no `#EXTINF`
line; and for a representation without track-requests `r.tracks.front()` is
undefined, so that no playlist is stored. -/
theorem C1_counterexample :
    (m3u8.add_representation (m3u8.init (sample_playlist 1 [sample_request 0 4294967296000]))
        (sample_repr [sample_request 0 4294967296000]) "none" "none").map
        (fun st => extinf_count (st.variant_playlist "v0")) = some 0
      ∧ segment_count 4294967296000 1 = 4294967296
      ∧ (m3u8.add_representation (m3u8.init (sample_playlist 1 []))
        (sample_repr []) "none" "none").isNone = true := by
  refine ⟨?_, ?_, ?_⟩
  · decide!
  · decide!
  · decide!

/-! ## Variant playlists: segment URLs -/

theorem segment_urls_append (a b : List VariantLine) :
    segment_urls (a ++ b) = segment_urls a ++ segment_urls b := by
  induction a with
  | nil => simp [segment_urls]
  | cons x xs ih =>
    cases x
    all_goals simp [segment_urls, ih]

theorem numbered_urls_succ (u : String) (s : ℤ) (k : ℕ) :
    numbered_urls u s (k + 1) = (u ++ toString s) :: numbered_urls u (s + 1) k := by
  unfold numbered_urls
  rw [List.range_succ_eq_map]
  simp only [List.map_cons, List.map_map, Nat.cast_zero, add_zero]
  congr 1
  apply List.map_congr_left
  intro n _
  show u ++ toString (s + ((n + 1 : ℕ) : ℤ)) = u ++ toString (s + 1 + (n : ℤ))
  congr 2
  push_cast
  ring

theorem numbered_urls_add (u : String) (s : ℤ) (a b : ℕ) :
    numbered_urls u s (a + b) = numbered_urls u s a ++ numbered_urls u (s + (a : ℤ)) b := by
  induction a generalizing s with
  | zero => simp [numbered_urls]
  | succ a ih =>
    rw [Nat.succ_add, numbered_urls_succ, numbered_urls_succ, ih]
    simp only [List.cons_append, Nat.cast_succ]
    congr 3
    ring

theorem segment_urls_loop (u : String) (s n : ℤ) (td : ℚ) (k : ℕ) (i : ℤ) (total d : ℚ) :
    segment_urls (m3u8.extinf_loop u s n td k i total d) = numbered_urls u (s + i) k := by
  induction k generalizing i total d with
  | zero => simp [m3u8.extinf_loop, segment_urls, numbered_urls]
  | succ k ih =>
    rw [numbered_urls_succ]
    simp only [m3u8.extinf_loop, segment_urls, ih]
    congr 2
    ring

theorem variant_body_urls (pl : playlist) (r : representation)
    (hc1 : 1 ≤ pl.chunk_duration_sec) (hc2 : pl.chunk_duration_sec ≤ 2147483)
    (ts : List track_request) (start : ℤ)
    (hd : ∀ tr ∈ ts, 0 ≤ tr.duration_msec ∧
      segment_count tr.duration_msec pl.chunk_duration_sec ≤ 2147483647)
    (hrule : start_number_rule pl.chunk_duration_sec start ts) :
    ∃ b, m3u8.variant_body pl r ts = some b ∧
      segment_urls b = numbered_urls (pl.base_url ++ "play/" ++ r.id ++ "/") start
        (total_segments pl.chunk_duration_sec ts).toNat := by
  induction ts generalizing start with
  | nil => exact ⟨[], rfl, by simp [segment_urls, numbered_urls, total_segments]⟩
  | cons t ts ih =>
    obtain ⟨hst, hrest⟩ := hrule
    obtain ⟨b, hb, hurls⟩ := ih _ (fun tr htr => hd tr (List.mem_cons_of_mem _ htr)) hrest
    obtain ⟨hms, hn⟩ := hd t (List.mem_cons_self _ _)
    have ht := track_segments_eq pl r t hc1 hc2 hms hn
    have hnn := segment_count_nonneg hc1 hms
    have htot : 0 ≤ total_segments pl.chunk_duration_sec ts := by
      unfold total_segments
      apply List.sum_nonneg
      intro x hx
      obtain ⟨tr, htr, rfl⟩ := List.mem_map.1 hx
      exact segment_count_nonneg hc1 (hd tr (List.mem_cons_of_mem _ htr)).1
    rw [m3u8.variant_body, ht, hb]
    refine ⟨_, rfl, ?_⟩
    rw [segment_urls_append, segment_urls_loop, hurls]
    have hsplit : (total_segments pl.chunk_duration_sec (t :: ts)).toNat =
        (segment_count t.duration_msec pl.chunk_duration_sec).toNat +
          (total_segments pl.chunk_duration_sec ts).toNat := by
      unfold total_segments at htot ⊢
      simp only [List.map_cons, List.sum_cons]
      omega
    rw [hsplit, numbered_urls_add, Int.toNat_of_nonneg hnn, hst, add_zero]

/-- C3 (amended): for a playlist with `1 ≤ chunk_duration_sec ≤ 2147483` and a
representation with a non-empty track list whose track-requests have
`duration_msec ≥ 0`, at most `2147483647` segments each, and satisfy the
start_number rule (the first `start_number` is 0, each later one is the total
segment count of the earlier track-requests), the segment URLs of the stored
variant playlist are, in order,
`base_url + "play/" + repr.id + "/" + n` for `n = 0, 1, ..., T-1`, with `T` the
total segment count of the representation. -/
theorem C3_segment_urls (st : m3u8) (r : representation) (atype vtype : String)
    (hc1 : 1 ≤ st.m_playlist.chunk_duration_sec)
    (hc2 : st.m_playlist.chunk_duration_sec ≤ 2147483)
    (hne : r.tracks ≠ [])
    (hd : ∀ tr ∈ r.tracks, 0 ≤ tr.duration_msec ∧
      segment_count tr.duration_msec st.m_playlist.chunk_duration_sec ≤ 2147483647)
    (hrule : start_number_rule st.m_playlist.chunk_duration_sec 0 r.tracks) :
    ∃ st', m3u8.add_representation st r atype vtype = some st' ∧
      segment_urls (st'.variant_playlist r.id) =
        (List.range (total_segments st.m_playlist.chunk_duration_sec r.tracks).toNat).map
          (fun (n : ℕ) => st.m_playlist.base_url ++ "play/" ++ r.id ++ "/" ++ toString (n : ℤ)) := by
  obtain ⟨b, hb, hurls⟩ := variant_body_urls st.m_playlist r hc1 hc2 r.tracks 0 hd hrule
  cases htr : r.tracks with
  | nil => exact absurd htr hne
  | cons trf rest =>
    rw [m3u8.add_representation, htr, List.head?_cons, m3u8.variant_of, ← htr, hb]
    refine ⟨_, rfl, ?_⟩
    simp only [m3u8.variant_playlist, lookup_map_assign]
    rw [segment_urls_append, segment_urls_append, hurls]
    simp [m3u8.variant_header, segment_urls, numbered_urls]

/-- C3, witness: track-requests of 12.5 s and 8 s with 4 s chunks and start
numbers 0 and 4 list the segments 0 to 5. -/
theorem C3_segment_urls_witness :
    ∃ st', m3u8.add_representation
        (m3u8.init (sample_playlist 4 [sample_request 0 12500, sample_request 4 8000]))
        (sample_repr [sample_request 0 12500, sample_request 4 8000]) "none" "none" = some st' ∧
      segment_urls (st'.variant_playlist "v0") =
        (List.range (total_segments 4 [sample_request 0 12500, sample_request 4 8000]).toNat).map
          (fun (n : ℕ) => "http://h/" ++ "play/" ++ "v0" ++ "/" ++ toString (n : ℤ)) :=
  C3_segment_urls
    (m3u8.init (sample_playlist 4 [sample_request 0 12500, sample_request 4 8000]))
    (sample_repr [sample_request 0 12500, sample_request 4 8000]) "none" "none"
    (by decide) (by decide) (by decide)
    (by
      intro tr htr
      simp only [sample_repr, List.mem_cons, List.mem_singleton, List.not_mem_nil,
        or_false] at htr
      rcases htr with rfl | rfl
      · decide!
      · decide!)
    (by
      refine ⟨rfl, ?_, trivial⟩
      decide!)

/-- C3, counterexample: the claim as stated fails. With `chunk_duration_sec = 1`
and a single track-request of 4294967296000 ms with `start_number = 0` the
start_number rule holds and the total segment count is 4294967296, but the
stored variant playlist lists no segment URL. -/
theorem C3_counterexample :
    start_number_rule 1 0 [sample_request 0 4294967296000]
      ∧ total_segments 1 [sample_request 0 4294967296000] = 4294967296
      ∧ (m3u8.add_representation
          (m3u8.init (sample_playlist 1 [sample_request 0 4294967296000]))
          (sample_repr [sample_request 0 4294967296000]) "none" "none").map
          (fun st => segment_urls (st.variant_playlist "v0")) = some [] := by
  refine ⟨⟨rfl, trivial⟩, ?_, ?_⟩
  · decide!
  · decide!

/-! ## Binary floating-point rounding -/

theorem pow2_eq (e : ℤ) : pow2 e = (2 : ℚ) ^ e := by
  unfold pow2
  split
  · rename_i h
    conv_rhs => rw [← Int.toNat_of_nonneg h]
    rw [zpow_natCast]
    push_cast
    rfl
  · rename_i h
    have h2 : 0 ≤ -e := by omega
    have h3 : e = -((-e).toNat : ℤ) := by rw [Int.toNat_of_nonneg h2]; ring
    conv_rhs => rw [h3]
    rw [zpow_neg, zpow_natCast]
    push_cast
    rw [one_div]

theorem pow2_pos (e : ℤ) : 0 < pow2 e := by
  rw [pow2_eq]
  positivity

theorem pow2_add (a b : ℤ) : pow2 (a + b) = pow2 a * pow2 b := by
  simp only [pow2_eq]
  exact zpow_add₀ (by norm_num) a b

theorem pow2_le {a b : ℤ} (h : a ≤ b) : pow2 a ≤ pow2 b := by
  simp only [pow2_eq]
  exact zpow_le_zpow_right₀ (by norm_num) h

theorem pow2_lt_iff {a b : ℤ} : pow2 a < pow2 b ↔ a < b := by
  simp only [pow2_eq]
  exact zpow_lt_zpow_iff_right₀ (by norm_num)

theorem pow2_natCast (n : ℕ) : pow2 (n : ℤ) = ((2 ^ n : ℕ) : ℚ) := by
  rw [pow2_eq, zpow_natCast]
  push_cast
  rfl

theorem ilog2Aux_spec (fuel n : ℕ) (h1 : 1 ≤ n) (h2 : n ≤ fuel) :
    2 ^ ilog2Aux fuel n ≤ n ∧ n < 2 ^ (ilog2Aux fuel n + 1) := by
  induction fuel generalizing n with
  | zero => omega
  | succ fuel ih =>
    unfold ilog2Aux
    split
    · constructor
      · simpa using h1
      · simpa using (by omega : n < 2)
    · obtain ⟨ha, hb⟩ := ih (n / 2) (by omega) (by omega)
      rw [pow_succ] at hb
      constructor
      · rw [pow_succ]; omega
      · rw [pow_succ, pow_succ]; omega

theorem ilog2_spec (n : ℕ) (h1 : 1 ≤ n) : 2 ^ ilog2 n ≤ n ∧ n < 2 ^ (ilog2 n + 1) :=
  ilog2Aux_spec n n h1 le_rfl

theorem abs_eq_natAbs_div (x : ℚ) : |x| = (x.num.natAbs : ℚ) / (x.den : ℚ) := by
  have h := Rat.num_div_den x
  have hd : (0 : ℚ) < (x.den : ℚ) := by exact_mod_cast x.den_pos
  conv_lhs => rw [← h]
  rw [abs_div, abs_of_pos hd]
  congr 1
  rw [← Int.cast_abs, Int.abs_eq_natAbs, Int.cast_natCast]

theorem binade_spec (x : ℚ) (hx : x ≠ 0) :
    pow2 (binade x) ≤ |x| ∧ |x| < pow2 (binade x + 1) := by
  have hn : 1 ≤ x.num.natAbs := by
    have : x.num ≠ 0 := Rat.num_ne_zero.2 hx
    omega
  have hd : 1 ≤ x.den := x.den_pos
  obtain ⟨a1, a2⟩ := ilog2_spec _ hn
  obtain ⟨b1, b2⟩ := ilog2_spec _ hd
  have hdq : (0 : ℚ) < (x.den : ℚ) := by exact_mod_cast x.den_pos
  have ha1 : pow2 (ilog2 x.num.natAbs : ℤ) ≤ (x.num.natAbs : ℚ) := by
    rw [pow2_natCast]; exact_mod_cast a1
  have ha2 : (x.num.natAbs : ℚ) < pow2 ((ilog2 x.num.natAbs : ℤ) + 1) := by
    have : ((ilog2 x.num.natAbs : ℤ) + 1) = ((ilog2 x.num.natAbs + 1 : ℕ) : ℤ) := by push_cast; ring
    rw [this, pow2_natCast]; exact_mod_cast a2
  have hb1 : pow2 (ilog2 x.den : ℤ) ≤ (x.den : ℚ) := by
    rw [pow2_natCast]; exact_mod_cast b1
  have hb2 : (x.den : ℚ) < pow2 ((ilog2 x.den : ℤ) + 1) := by
    have : ((ilog2 x.den : ℤ) + 1) = ((ilog2 x.den + 1 : ℕ) : ℤ) := by push_cast; ring
    rw [this, pow2_natCast]; exact_mod_cast b2
  have habs := abs_eq_natAbs_div x
  unfold binade
  simp only
  split
  · rename_i h
    refine ⟨h, ?_⟩
    rw [habs, div_lt_iff₀ hdq]
    have e1 : ((ilog2 x.num.natAbs : ℤ) - (ilog2 x.den : ℤ) + 1) + (ilog2 x.den : ℤ)
        = (ilog2 x.num.natAbs : ℤ) + 1 := by ring
    have := pow2_add ((ilog2 x.num.natAbs : ℤ) - (ilog2 x.den : ℤ) + 1) (ilog2 x.den : ℤ)
    rw [e1] at this
    have hp := pow2_pos ((ilog2 x.num.natAbs : ℤ) - (ilog2 x.den : ℤ) + 1)
    calc (x.num.natAbs : ℚ) < pow2 ((ilog2 x.num.natAbs : ℤ) + 1) := ha2
      _ = pow2 ((ilog2 x.num.natAbs : ℤ) - (ilog2 x.den : ℤ) + 1) * pow2 (ilog2 x.den : ℤ) := this
      _ ≤ pow2 ((ilog2 x.num.natAbs : ℤ) - (ilog2 x.den : ℤ) + 1) * (x.den : ℚ) :=
        mul_le_mul_of_nonneg_left hb1 (le_of_lt hp)
  · rename_i h
    have h := lt_of_not_le h
    refine ⟨?_, by simpa using h⟩
    rw [habs, le_div_iff₀ hdq]
    have e1 : ((ilog2 x.num.natAbs : ℤ) - (ilog2 x.den : ℤ) - 1) + ((ilog2 x.den : ℤ) + 1)
        = (ilog2 x.num.natAbs : ℤ) := by ring
    have := pow2_add ((ilog2 x.num.natAbs : ℤ) - (ilog2 x.den : ℤ) - 1) ((ilog2 x.den : ℤ) + 1)
    rw [e1] at this
    have hp := pow2_pos ((ilog2 x.num.natAbs : ℤ) - (ilog2 x.den : ℤ) - 1)
    calc pow2 ((ilog2 x.num.natAbs : ℤ) - (ilog2 x.den : ℤ) - 1) * (x.den : ℚ)
        ≤ pow2 ((ilog2 x.num.natAbs : ℤ) - (ilog2 x.den : ℤ) - 1) * pow2 ((ilog2 x.den : ℤ) + 1) :=
          mul_le_mul_of_nonneg_left (le_of_lt hb2) (le_of_lt hp)
      _ = pow2 (ilog2 x.num.natAbs : ℤ) := this.symm
      _ ≤ (x.num.natAbs : ℚ) := ha1

theorem binade_lt {x : ℚ} (hx : x ≠ 0) {E : ℤ} (h : |x| < pow2 E) : binade x < E := by
  have := (binade_spec x hx).1
  exact pow2_lt_iff.1 (lt_of_le_of_lt this h)

theorem binade_ge {x : ℚ} (hx : x ≠ 0) {E : ℤ} (h : pow2 E ≤ |x|) : E ≤ binade x := by
  have := (binade_spec x hx).2
  have := pow2_lt_iff.1 (lt_of_le_of_lt h this)
  omega

theorem roundHalfEven_intCast (n : ℤ) : roundHalfEven (n : ℚ) = n := by
  unfold roundHalfEven
  simp

theorem roundHalfEven_cases (x : ℚ) :
    (roundHalfEven x = ⌊x⌋ ∧ x - ⌊x⌋ ≤ 1 / 2) ∨ (roundHalfEven x = ⌊x⌋ + 1 ∧ 1 / 2 ≤ x - ⌊x⌋) := by
  unfold roundHalfEven
  simp only
  split
  · rename_i h
    exact Or.inl ⟨rfl, le_of_lt h⟩
  · rename_i h
    split
    · rename_i h2
      exact Or.inr ⟨rfl, le_of_lt h2⟩
    · rename_i h2
      have e : x - ⌊x⌋ = 1 / 2 := le_antisymm (not_lt.1 h2) (not_lt.1 h)
      split
      · exact Or.inl ⟨rfl, le_of_eq e⟩
      · exact Or.inr ⟨rfl, le_of_eq e.symm⟩

theorem roundHalfEven_error (x : ℚ) : |(roundHalfEven x : ℚ) - x| ≤ 1 / 2 := by
  have h1 := Int.floor_le x
  have h2 := Int.lt_floor_add_one x
  rw [abs_le]
  rcases roundHalfEven_cases x with ⟨h, hh⟩ | ⟨h, hh⟩
  · rw [h]
    constructor <;> linarith
  · rw [h]
    push_cast
    constructor <;> linarith

theorem le_roundHalfEven {a : ℤ} {x : ℚ} (h : (a : ℚ) ≤ x) : a ≤ roundHalfEven x := by
  have h1 : a ≤ ⌊x⌋ := Int.le_floor.2 h
  rcases roundHalfEven_cases x with ⟨h, _⟩ | ⟨h, _⟩ <;> omega

theorem roundHalfEven_le {b : ℤ} {x : ℚ} (h : x ≤ (b : ℚ)) : roundHalfEven x ≤ b := by
  rcases roundHalfEven_cases x with ⟨h1, _⟩ | ⟨h1, hh⟩
  · rw [h1]
    exact Int.cast_le.1 (le_trans (Int.floor_le x) h)
  · rw [h1]
    have : (⌊x⌋ : ℚ) < (b : ℚ) := by linarith
    have : ⌊x⌋ < b := by exact_mod_cast this
    omega

/-- Unfolding of `roundBinary` at a non-zero argument. -/
theorem roundBinary_eq (prec : ℕ) (emin : ℤ) (x : ℚ) (hx : x ≠ 0) :
    roundBinary prec emin x =
      (roundHalfEven (x / pow2 (max (binade x) emin - ((prec - 1 : ℕ) : ℤ))) : ℚ) *
        pow2 (max (binade x) emin - ((prec - 1 : ℕ) : ℤ)) := by
  unfold roundBinary
  simp [hx]

theorem roundBinary_error (prec : ℕ) (emin : ℤ) (x : ℚ) :
    |roundBinary prec emin x - x| ≤ pow2 (max (binade x) emin - ((prec - 1 : ℕ) : ℤ)) / 2 := by
  by_cases hx : x = 0
  · subst hx
    have := pow2_pos (max (binade 0) emin - ((prec - 1 : ℕ) : ℤ))
    simp only [roundBinary, if_true, sub_zero, abs_zero]
    positivity
  · rw [roundBinary_eq prec emin x hx]
    set u := pow2 (max (binade x) emin - ((prec - 1 : ℕ) : ℤ)) with hu
    have hup : 0 < u := pow2_pos _
    have h := roundHalfEven_error (x / u)
    have e : (roundHalfEven (x / u) : ℚ) * u - x = ((roundHalfEven (x / u) : ℚ) - x / u) * u := by
      field_simp
    rw [e, abs_mul, abs_of_pos hup]
    calc |(roundHalfEven (x / u) : ℚ) - x / u| * u ≤ 1 / 2 * u :=
          mul_le_mul_of_nonneg_right h (le_of_lt hup)
      _ = u / 2 := by ring

theorem roundBinary_error_lt (prec : ℕ) (emin : ℤ) (x : ℚ) (E : ℤ) (hE : emin < E)
    (h : |x| < pow2 E) :
    |roundBinary prec emin x - x| ≤ pow2 (E - 1 - ((prec - 1 : ℕ) : ℤ)) / 2 := by
  by_cases hx : x = 0
  · subst hx
    have := pow2_pos (E - 1 - ((prec - 1 : ℕ) : ℤ))
    simp only [roundBinary, if_true, sub_zero, abs_zero]
    positivity
  · have hb := binade_lt hx h
    have hle : max (binade x) emin - ((prec - 1 : ℕ) : ℤ) ≤ E - 1 - ((prec - 1 : ℕ) : ℤ) := by
      have : max (binade x) emin ≤ E - 1 := max_le (by omega) (by omega)
      omega
    have := pow2_le hle
    have := roundBinary_error prec emin x
    linarith

theorem roundBinary_grid_lt (prec : ℕ) (emin : ℤ) (k j : ℤ) (hk : |k| < 2 ^ prec)
    (hj : emin - ((prec - 1 : ℕ) : ℤ) ≤ j) (hp : 1 ≤ prec) :
    roundBinary prec emin ((k : ℚ) * pow2 j) = (k : ℚ) * pow2 j := by
  by_cases hx : (k : ℚ) * pow2 j = 0
  · rw [hx]
    simp [roundBinary]
  · rw [roundBinary_eq prec emin _ hx]
    set x := (k : ℚ) * pow2 j with hxdef
    set e := max (binade x) emin - ((prec - 1 : ℕ) : ℤ) with he
    have hjpos := pow2_pos j
    have hxlt : |x| < pow2 ((prec : ℤ) + j) := by
      rw [hxdef, abs_mul, abs_of_pos hjpos, pow2_add, pow2_natCast]
      apply mul_lt_mul_of_pos_right _ hjpos
      have : ((|k| : ℤ) : ℚ) < ((2 ^ prec : ℕ) : ℚ) := by exact_mod_cast hk
      simpa using this
    have hb := binade_lt hx hxlt
    have hcast : ((prec - 1 : ℕ) : ℤ) = (prec : ℤ) - 1 := by omega
    have hej : e ≤ j := by
      have : max (binade x) emin ≤ j + ((prec - 1 : ℕ) : ℤ) := max_le (by omega) (by omega)
      omega
    have hsplit : pow2 j = pow2 (j - e) * pow2 e := by
      rw [← pow2_add]; congr 1; ring
    have hnat : pow2 (j - e) = (((2 : ℤ) ^ (j - e).toNat : ℤ) : ℚ) := by
      have : j - e = (((j - e).toNat : ℕ) : ℤ) := (Int.toNat_of_nonneg (by omega)).symm
      conv_lhs => rw [this]
      rw [pow2_natCast]
      push_cast
      rfl
    have hep := pow2_pos e
    have hdiv : x / pow2 e = ((k * (2 : ℤ) ^ (j - e).toNat : ℤ) : ℚ) := by
      rw [hxdef, hsplit, hnat]
      push_cast
      field_simp
      ring
    rw [hdiv, roundHalfEven_intCast, hxdef, hsplit, hnat]
    push_cast
    ring

theorem roundBinary_grid (prec : ℕ) (emin : ℤ) (k j : ℤ) (hk : |k| ≤ 2 ^ prec)
    (hj : emin - ((prec - 1 : ℕ) : ℤ) ≤ j) (hp : 1 ≤ prec) :
    roundBinary prec emin ((k : ℚ) * pow2 j) = (k : ℚ) * pow2 j := by
  rcases lt_or_eq_of_le hk with h | h
  · exact roundBinary_grid_lt prec emin k j h hj hp
  · obtain ⟨q, hq⟩ : ∃ q : ℕ, prec = q + 1 := ⟨prec - 1, by omega⟩
    have h2 : |k| = 2 * 2 ^ q := by rw [h, hq, pow_succ]; ring
    have hk2 : k = 2 * (k / 2) := by
      rcases abs_cases k with ⟨e1, _⟩ | ⟨e1, _⟩ <;> omega
    have hk3 : |k / 2| < 2 ^ prec := by
      have hpow : (2 : ℤ) ^ q < 2 ^ prec := by
        rw [hq, pow_succ]
        have : (0 : ℤ) < 2 ^ q := by positivity
        omega
      have : |k / 2| = 2 ^ q := by
        rcases abs_cases k with ⟨e1, _⟩ | ⟨e1, _⟩ <;>
          rcases abs_cases (k / 2) with ⟨e2, _⟩ | ⟨e2, _⟩ <;> omega
      omega
    have e : (k : ℚ) * pow2 j = ((k / 2 : ℤ) : ℚ) * pow2 (j + 1) := by
      rw [pow2_add]
      have : pow2 1 = 2 := by rw [pow2_eq]; norm_num
      rw [this]
      conv_lhs => rw [hk2]
      push_cast
      ring
    rw [e]
    exact roundBinary_grid_lt prec emin (k / 2) (j + 1) hk3 (by omega) hp

theorem pow2_zero : pow2 0 = 1 := by
  rw [pow2_eq]; norm_num

theorem f32_intCast (n : ℤ) (h : |n| ≤ 16777216) : f32 (n : ℚ) = n := by
  have := roundBinary_grid 24 (-126) n 0 (by norm_num; exact h) (by norm_num) (by norm_num)
  rw [pow2_zero, mul_one] at this
  exact this

theorem f32_error_lt (x : ℚ) (E : ℤ) (hE : -126 < E) (h : |x| < pow2 E) :
    |f32 x - x| ≤ pow2 (E - 25) := by
  have := roundBinary_error_lt 24 (-126) x E hE h
  have e : pow2 (E - 1 - ((24 - 1 : ℕ) : ℤ)) = pow2 (E - 25) * pow2 1 := by
    rw [← pow2_add]; congr 1; norm_num; ring
  have h1 : pow2 1 = 2 := by rw [pow2_eq]; norm_num
  rw [e, h1] at this
  unfold f32
  linarith

theorem f64_error_lt (x : ℚ) (E : ℤ) (hE : -1022 < E) (h : |x| < pow2 E) :
    |f64 x - x| ≤ pow2 (E - 54) := by
  have := roundBinary_error_lt 53 (-1022) x E hE h
  have e : pow2 (E - 1 - ((53 - 1 : ℕ) : ℤ)) = pow2 (E - 54) * pow2 1 := by
    rw [← pow2_add]; congr 1; norm_num; ring
  have h1 : pow2 1 = 2 := by rw [pow2_eq]; norm_num
  rw [e, h1] at this
  unfold f64
  linarith

/-- The subtraction of a smaller non-negative integer from a rounded `float`
below `2^24` is exact. -/
theorem f32_sub_exact (y : ℚ) (T : ℤ) (hT0 : 0 ≤ T) (hTy : (T : ℚ) ≤ y)
    (hlo : pow2 (-126) ≤ y) (hhi : y < pow2 24) :
    f32 (f32 y - (T : ℚ)) = f32 y - (T : ℚ) := by
  have hy : 0 < y := lt_of_lt_of_le (pow2_pos _) hlo
  have hy0 : y ≠ 0 := ne_of_gt hy
  have habs : |y| = y := abs_of_pos hy
  have he1 : -126 ≤ binade y := binade_ge hy0 (by rw [habs]; exact hlo)
  have he2 : binade y < 24 := binade_lt hy0 (by rw [habs]; exact hhi)
  obtain ⟨hs1, hs2⟩ := binade_spec y hy0
  rw [habs] at hs1 hs2
  have hmax : max (binade y) (-126) = binade y := max_eq_left he1
  have hf : f32 y = (roundHalfEven (y / pow2 (binade y - 23)) : ℚ) * pow2 (binade y - 23) := by
    unfold f32
    rw [roundBinary_eq 24 (-126) y hy0, hmax]
    norm_num
  set e := binade y with he
  set u := pow2 (e - 23) with hu
  have hup : 0 < u := pow2_pos _
  have h23 : pow2 23 = 8388608 := by rw [pow2_eq]; norm_num
  have h24 : pow2 24 = 16777216 := by rw [pow2_eq]; norm_num
  have hpe : pow2 e = 8388608 * u := by
    rw [hu, ← h23, ← pow2_add]; congr 1; ring
  have hpe1 : pow2 (e + 1) = 16777216 * u := by
    rw [hu, ← h24, ← pow2_add]; congr 1; ring
  have hq1 : ((8388608 : ℤ) : ℚ) ≤ y / u := by
    rw [le_div_iff₀ hup]; push_cast; linarith
  have hq2 : y / u ≤ ((16777216 : ℤ) : ℚ) := by
    rw [div_le_iff₀ hup]; push_cast; linarith
  have hm1 := le_roundHalfEven hq1
  have hm2 := roundHalfEven_le hq2
  set m := roundHalfEven (y / u) with hm
  -- the integer `T` on the grid of `u`
  have hd : 0 ≤ 23 - e := by omega
  have hone : pow2 (23 - e) * u = 1 := by
    rw [hu, ← pow2_add, ← pow2_zero]; congr 1; ring
  have hnat : pow2 (23 - e) = (((2 : ℤ) ^ (23 - e).toNat : ℤ) : ℚ) := by
    have : 23 - e = (((23 - e).toNat : ℕ) : ℤ) := (Int.toNat_of_nonneg hd).symm
    conv_lhs => rw [this]
    rw [pow2_natCast]
    push_cast
    rfl
  set g : ℤ := (2 : ℤ) ^ (23 - e).toNat with hg
  have hTu : (T : ℚ) = ((T * g : ℤ) : ℚ) * u := by
    push_cast
    rw [← hnat, mul_assoc, hone, mul_one]
  have hsub : f32 y - (T : ℚ) = ((m - T * g : ℤ) : ℚ) * u := by
    rw [hf]
    conv_lhs => rw [hTu]
    push_cast
    ring
  have hg0 : 0 ≤ T * g := mul_nonneg hT0 (by positivity)
  have hTlt : T * g < 16777216 := by
    have h1 : ((T * g : ℤ) : ℚ) * u < 16777216 * u := by
      rw [← hTu]; linarith
    have h2 : ((T * g : ℤ) : ℚ) < 16777216 := lt_of_mul_lt_mul_right h1 (le_of_lt hup)
    exact_mod_cast h2
  have hk : |m - T * g| ≤ 2 ^ 24 := by
    rw [abs_le]
    constructor <;> norm_num <;> omega
  rw [hsub]
  unfold f32
  exact roundBinary_grid 24 (-126) (m - T * g) (e - 23) hk (by norm_num; omega) (by norm_num)

/-! ## Variant playlists: segment durations -/

theorem extinf_loop_succ (u : String) (s n : ℤ) (td : ℚ) (k : ℕ) (i : ℤ) (total d : ℚ) :
    m3u8.extinf_loop u s n td (k + 1) i total d =
      VariantLine.extinf (if i = n - 1 then f32 (td - total) else d)
        :: VariantLine.uri (u ++ toString (s + i))
        :: m3u8.extinf_loop u s n td k (i + 1)
            (f32 (total + if i = n - 1 then f32 (td - total) else d))
            (if i = n - 1 then f32 (td - total) else d) := rfl

theorem extinf_durations_step (d : ℚ) (url : String) (rest : List VariantLine) :
    extinf_durations (VariantLine.extinf d :: VariantLine.uri url :: rest) =
      d :: extinf_durations rest := rfl

theorem extinf_durations_loop (u : String) (s N c : ℤ) (td : ℚ) (hc0 : 0 ≤ c)
    (hT : (N - 1) * c ≤ 16777216) (k : ℕ) (i : ℤ) (hi : 0 ≤ i) (hik : i + k + 1 = N)
    (d : ℚ) (hd : 0 < k → d = (c : ℚ)) :
    extinf_durations (m3u8.extinf_loop u s N td (k + 1) i ((i * c : ℤ) : ℚ) d) =
      List.replicate k (c : ℚ) ++ [f32 (td - (((N - 1) * c : ℤ) : ℚ))] := by
  induction k generalizing i d with
  | zero =>
    have hiN : i = N - 1 := by push_cast at hik; omega
    rw [extinf_loop_succ, extinf_durations_step, hiN, if_pos rfl]
    rfl
  | succ k ih =>
    have hiN : ¬ i = N - 1 := by push_cast at hik; omega
    have hdc : d = (c : ℚ) := hd (Nat.succ_pos k)
    have hle : (i + 1) * c ≤ 16777216 := by
      have h1 : i + 1 ≤ N - 1 := by push_cast at hik; omega
      have := mul_le_mul_of_nonneg_right h1 hc0
      omega
    have hge : 0 ≤ (i + 1) * c := mul_nonneg (by omega) hc0
    have htot : f32 (((i * c : ℤ) : ℚ) + (c : ℚ)) = (((i + 1) * c : ℤ) : ℚ) := by
      have := f32_intCast ((i + 1) * c) (by rw [abs_of_nonneg hge]; exact hle)
      rw [← this]
      congr 1
      push_cast
      ring
    rw [extinf_loop_succ, extinf_durations_step, if_neg hiN, hdc, htot,
      ih (i + 1) (by omega) (by push_cast at hik ⊢; omega) (c : ℚ) (fun _ => rfl)]
    rfl

/-! ## Text of a `float` -/

theorem unit_down_succ (fuel : ℕ) (x u : ℚ) :
    unit_down (fuel + 1) x u = if 100000 * u ≤ x then u else unit_down fuel x (u / 10) := rfl

theorem unit_up_succ (fuel : ℕ) (x u : ℚ) :
    unit_up (fuel + 1) x u = if x < 1000000 * u then u else unit_up fuel x (u * 10) := rfl

theorem unit_down_spec (fuel : ℕ) (x : ℚ) (n : ℕ) :
    ∃ m : ℕ, n ≤ m ∧ unit_down fuel x (1 / 10 ^ n) = 1 / 10 ^ m := by
  induction fuel generalizing n with
  | zero => exact ⟨n, le_rfl, rfl⟩
  | succ fuel ih =>
    rw [unit_down_succ]
    by_cases h : 100000 * (1 / 10 ^ n : ℚ) ≤ x
    · rw [if_pos h]
      exact ⟨n, le_rfl, rfl⟩
    · rw [if_neg h]
      have e : (1 / 10 ^ n : ℚ) / 10 = 1 / 10 ^ (n + 1) := by
        rw [pow_succ]
        field_simp
      rw [e]
      obtain ⟨m, hm, hu⟩ := ih (n + 1)
      exact ⟨m, by omega, hu⟩

theorem decimal_unit_small (x : ℚ) (hx : |x| < 1000) :
    ∃ m : ℕ, 3 ≤ m ∧ decimal_unit x = 1 / 10 ^ m := by
  unfold decimal_unit
  have h0 : ¬ (100000 ≤ |x|) := by linarith
  have hf : x.num.natAbs + x.den + 5 = (x.num.natAbs + x.den + 2) + 1 + 1 + 1 := by omega
  rw [if_neg h0, hf, unit_down_succ, if_neg (by linarith), unit_down_succ,
    if_neg (by linarith), unit_down_succ, if_neg (by linarith)]
  have e : (1 : ℚ) / 10 / 10 / 10 = 1 / 10 ^ 3 := by norm_num
  rw [e]
  exact unit_down_spec _ _ 3

theorem decimal_unit_below (x : ℚ) (hx : |x| < 1000000) :
    ∃ m : ℕ, decimal_unit x = 1 / 10 ^ m := by
  unfold decimal_unit
  by_cases h0 : 100000 ≤ |x|
  · have hf : x.num.natAbs + x.den + 5 = (x.num.natAbs + x.den + 4) + 1 := by omega
    rw [if_pos h0, hf, unit_up_succ, if_pos (by linarith)]
    exact ⟨0, by norm_num⟩
  · rw [if_neg h0]
    obtain ⟨m, -, hm⟩ := unit_down_spec (x.num.natAbs + x.den + 5) |x| 0
    rw [pow_zero, div_one] at hm
    exact ⟨m, hm⟩

/-- An integer of at most six digits is written as it is. -/
theorem ostream_float_intCast (c : ℤ) (hc : |c| < 1000000) :
    ostream_float (c : ℚ) = (c : ℚ) := by
  unfold ostream_float
  by_cases h0 : (c : ℚ) = 0
  · rw [if_pos h0, h0]
  · rw [if_neg h0]
    have hq : |(c : ℚ)| < 1000000 := by exact_mod_cast hc
    obtain ⟨m, hm⟩ := decimal_unit_below (c : ℚ) hq
    simp only [hm]
    have hp : (0 : ℚ) < 10 ^ m := by positivity
    have e : (c : ℚ) / (1 / 10 ^ m) = ((c * 10 ^ m : ℤ) : ℚ) := by
      push_cast
      field_simp
    rw [e, roundHalfEven_intCast]
    push_cast
    field_simp

/-- A value below 1000 that is within 1 ms of a whole number of milliseconds
is written as a number within 1 ms of it. -/
theorem ostream_float_near (d : ℚ) (a : ℤ) (hd : |d| < 1000)
    (h : |d - (a : ℚ) / 1000| ≤ 1 / 1000) :
    |ostream_float d - (a : ℚ) / 1000| ≤ 1 / 1000 := by
  unfold ostream_float
  by_cases h0 : d = 0
  · rw [if_pos h0]
    rw [h0] at h
    exact h
  · rw [if_neg h0]
    obtain ⟨m, hm3, hm⟩ := decimal_unit_small d hd
    obtain ⟨n, rfl⟩ : ∃ n, m = n + 3 := ⟨m - 3, by omega⟩
    simp only [hm]
    have hu : (1 : ℚ) / 10 ^ (n + 3) = 1 / (1000 * 10 ^ n) := by
      rw [pow_add]
      norm_num
      ring
    rw [hu]
    obtain ⟨G, hGdef⟩ : ∃ G : ℤ, (G : ℚ) = 10 ^ n := ⟨10 ^ n, by push_cast; rfl⟩
    rw [← hGdef]
    have hG : (0 : ℚ) < (G : ℚ) := by rw [hGdef]; positivity
    have hk := roundHalfEven_error (d / (1 / (1000 * (G : ℚ))))
    obtain ⟨k, hkdef⟩ : ∃ k : ℤ, k = roundHalfEven (d / (1 / (1000 * (G : ℚ)))) := ⟨_, rfl⟩
    rw [← hkdef] at hk ⊢
    have e1 : d / (1 / (1000 * (G : ℚ))) = d * 1000 * G := by
      field_simp
      ring
    rw [e1] at hk
    rw [abs_le] at h hk
    -- the integers k and a * G differ by at most G
    have hlo : ((a * G - G - 1 : ℤ) : ℚ) < (k : ℚ) := by
      push_cast
      nlinarith [h.1, hk.1]
    have hhi : (k : ℚ) < ((a * G + G + 1 : ℤ) : ℚ) := by
      push_cast
      nlinarith [h.2, hk.2]
    have hlo2 : a * G - G - 1 < k := by exact_mod_cast hlo
    have hhi2 : k < a * G + G + 1 := by exact_mod_cast hhi
    have hlo3 : ((a * G - G : ℤ) : ℚ) ≤ (k : ℚ) := by
      have : a * G - G ≤ k := by omega
      exact_mod_cast this
    have hhi3 : (k : ℚ) ≤ ((a * G + G : ℤ) : ℚ) := by
      have : k ≤ a * G + G := by omega
      exact_mod_cast this
    push_cast at hlo3 hhi3
    have e2 : (k : ℚ) * (1 / (1000 * (G : ℚ))) - (a : ℚ) / 1000 =
        ((k : ℚ) - (a : ℚ) * G) / (1000 * G) := by
      field_simp
      ring
    rw [e2, abs_le]
    constructor
    · rw [le_div_iff₀ (by positivity)]
      have : (-(1 / 1000 : ℚ)) * (1000 * (G : ℚ)) = -(G : ℚ) := by ring
      linarith
    · rw [div_le_iff₀ (by positivity)]
      have : ((1 : ℚ) / 1000) * (1000 * (G : ℚ)) = (G : ℚ) := by ring
      linarith

theorem extinf_written_eq (n : ℕ) (c d : ℚ) (l : List VariantLine)
    (h : extinf_durations l = List.replicate n c ++ [d]) (hc : n = 0 ∨ ostream_float c = c) :
    extinf_written l = List.replicate n c ++ [ostream_float d] := by
  unfold extinf_written
  rw [h, List.map_append, List.map_replicate]
  rcases hc with hn | hc
  · subst hn
    rfl
  · rw [hc]
    rfl

/-- The `float` durations of a track-request with `0 < duration_msec ≤ 16777216`
and `1 ≤ chunk_duration_sec ≤ 2147483`: `chunk_duration_sec` for the first
`N - 1` segments, and a last value less than 1 ms away from
`duration_msec/1000 - (N-1) * chunk_duration_sec`. -/
theorem track_segments_durations (pl : playlist) (r : representation) (tr : track_request)
    (hc1 : 1 ≤ pl.chunk_duration_sec) (hc2 : pl.chunk_duration_sec ≤ 2147483)
    (hms1 : 0 < tr.duration_msec) (hms2 : tr.duration_msec ≤ 16777216) :
    1 ≤ segment_count tr.duration_msec pl.chunk_duration_sec ∧
    1000 * ((segment_count tr.duration_msec pl.chunk_duration_sec - 1) *
      pl.chunk_duration_sec) ≤ tr.duration_msec - 1 ∧
    ∃ d : ℚ, (m3u8.track_segments pl r tr).map extinf_durations =
        some (List.replicate ((segment_count tr.duration_msec pl.chunk_duration_sec).toNat - 1)
          (pl.chunk_duration_sec : ℚ) ++ [d]) ∧
      |d - ((tr.duration_msec : ℚ) / 1000 -
        ((segment_count tr.duration_msec pl.chunk_duration_sec : ℤ) - 1 : ℚ) *
          (pl.chunk_duration_sec : ℚ))| < 1 / 1000 := by
  set c := pl.chunk_duration_sec with hc
  set ms := tr.duration_msec with hms
  set N := segment_count ms c with hN
  have hpos : (0 : ℤ) < 1000 * c := by omega
  have hNe : N = (ms + 1000 * c - 1) / (1000 * c) := segment_count_eq_ediv hc1
  have hdiv1 := Int.ediv_mul_le (ms + 1000 * c - 1) (ne_of_gt hpos)
  have hdiv2 := Int.lt_ediv_add_one_mul_self (ms + 1000 * c - 1) hpos
  rw [← hNe] at hdiv1 hdiv2
  have hN1 : 1 ≤ N := by
    by_contra hcon
    have : N ≤ 0 := by omega
    nlinarith
  have hT1 : 1000 * ((N - 1) * c) ≤ ms - 1 := by nlinarith
  have hT0 : 0 ≤ (N - 1) * c := mul_nonneg (by omega) (by omega)
  have hNmax : N ≤ 2147483647 := by nlinarith
  have hseg := track_segments_eq pl r tr hc1 hc2 (le_of_lt hms1) hNmax
  have hfc : f32 (c : ℚ) = (c : ℚ) :=
    f32_intCast c (by rw [abs_of_nonneg (by omega)]; omega)
  have hfms : f32 (ms : ℚ) = (ms : ℚ) :=
    f32_intCast ms (by rw [abs_of_nonneg (by omega)]; omega)
  have hk : N.toNat = (N.toNat - 1) + 1 := by omega
  have hloop := extinf_durations_loop (pl.base_url ++ "play/" ++ r.id ++ "/") tr.start_number
    N c (f32 (f64 ((ms : ℚ) / 1000))) (by omega) (by omega) (N.toNat - 1) 0 le_rfl (by omega)
    (c : ℚ) (fun _ => rfl)
  rw [zero_mul, Int.cast_zero, ← hk] at hloop
  refine ⟨hN1, hT1, f32 (f32 (f64 ((ms : ℚ) / 1000)) - (((N - 1) * c : ℤ) : ℚ)), ?_, ?_⟩
  · rw [hseg, Option.map_some', hfc, hfms, hloop]
  · -- numerical part
    set x : ℚ := (ms : ℚ) / 1000 with hx
    set y : ℚ := f64 x with hy
    have hmsq1 : (1 : ℚ) ≤ (ms : ℚ) := by exact_mod_cast hms1
    have hmsq2 : (ms : ℚ) ≤ 16777216 := by exact_mod_cast hms2
    have hx1 : 1 / 1000 ≤ x := by rw [hx]; linarith
    have hx2 : x ≤ 16777216 / 1000 := by rw [hx]; linarith
    have hTq : (((N - 1) * c : ℤ) : ℚ) ≤ x - 1 / 1000 := by
      have : ((1000 * ((N - 1) * c) : ℤ) : ℚ) ≤ ((ms - 1 : ℤ) : ℚ) := by exact_mod_cast hT1
      push_cast at this ⊢
      rw [hx]
      linarith
    have p15 : pow2 15 = 32768 := by rw [pow2_eq]; norm_num
    have p24 : pow2 24 = 16777216 := by rw [pow2_eq]; norm_num
    have p39 : pow2 (15 - 54) = 1 / 549755813888 := by rw [pow2_eq]; norm_num
    have p10 : pow2 (15 - 25) = 1 / 1024 := by rw [pow2_eq]; norm_num
    have p126 : pow2 (-126) ≤ 1 / 2048 := by
      have := @pow2_le (-126) (-11) (by norm_num)
      have e : pow2 (-11) = 1 / 2048 := by rw [pow2_eq]; norm_num
      linarith
    have hyx : |y - x| ≤ 1 / 549755813888 := by
      rw [← p39]
      apply f64_error_lt x 15 (by norm_num)
      rw [p15, abs_of_nonneg (by linarith)]
      linarith
    rw [abs_le] at hyx
    have hfy : |f32 y - y| ≤ 1 / 1024 := by
      rw [← p10]
      apply f32_error_lt y 15 (by norm_num)
      rw [p15, abs_of_nonneg (by linarith)]
      linarith
    rw [abs_le] at hfy
    have hex := f32_sub_exact y ((N - 1) * c) hT0 (by linarith) (by linarith)
      (by rw [p24]; linarith)
    rw [hex, abs_lt]
    push_cast at hTq ⊢
    constructor <;> linarith

/-- C2 (amended): for a track-request with `0 < duration_msec ≤ 16777216` (the
range in which a `float` holds the milliseconds exactly) and
`1 ≤ chunk_duration_sec ≤ 2147483`, with
`N = ceil(duration_msec / (1000 * chunk_duration_sec))`, and with a last
duration `duration_msec/1000 - (N-1) * chunk_duration_sec` below 1000 s (so
that the six significant digits of the stream output reach the milliseconds),
the `#EXTINF` durations written for the track-request are `chunk_duration_sec`
for the first `N - 1` segments, and the last one differs from
`duration_msec/1000 - (N-1) * chunk_duration_sec` by at most 1 ms. Here `d` is
the `float` handed to the stream and `w` the number that its text denotes. -/
theorem C2_extinf_durations (pl : playlist) (r : representation) (tr : track_request)
    (hc1 : 1 ≤ pl.chunk_duration_sec) (hc2 : pl.chunk_duration_sec ≤ 2147483)
    (hms1 : 0 < tr.duration_msec) (hms2 : tr.duration_msec ≤ 16777216)
    (hlast : (tr.duration_msec : ℚ) / 1000 -
      ((segment_count tr.duration_msec pl.chunk_duration_sec : ℤ) - 1 : ℚ) *
        (pl.chunk_duration_sec : ℚ) < 1000) :
    ∃ d w : ℚ,
      (m3u8.track_segments pl r tr).map extinf_durations =
        some (List.replicate ((segment_count tr.duration_msec pl.chunk_duration_sec).toNat - 1)
          (pl.chunk_duration_sec : ℚ) ++ [d]) ∧
      (m3u8.track_segments pl r tr).map extinf_written =
        some (List.replicate ((segment_count tr.duration_msec pl.chunk_duration_sec).toNat - 1)
          (pl.chunk_duration_sec : ℚ) ++ [w]) ∧
      w = ostream_float d ∧
      |w - ((tr.duration_msec : ℚ) / 1000 -
        ((segment_count tr.duration_msec pl.chunk_duration_sec : ℤ) - 1 : ℚ) *
          (pl.chunk_duration_sec : ℚ))| ≤ 1 / 1000 := by
  obtain ⟨hN1, hT1, d, hd, hdL⟩ := track_segments_durations pl r tr hc1 hc2 hms1 hms2
  set c := pl.chunk_duration_sec with hc
  set ms := tr.duration_msec with hms
  set N := segment_count ms c with hN
  -- the exact last duration is a whole number of milliseconds
  obtain ⟨a, ha⟩ : ∃ a : ℤ, a = ms - 1000 * ((N - 1) * c) := ⟨_, rfl⟩
  have hL : (ms : ℚ) / 1000 - ((N : ℚ) - 1) * (c : ℚ) = (a : ℚ) / 1000 := by
    rw [ha]
    push_cast
    ring
  rw [hL] at hlast hdL ⊢
  have ha1 : 1 ≤ a := by omega
  have ha2 : a < 1000000 := by
    have : (a : ℚ) < 1000000 := by linarith
    exact_mod_cast this
  have ha1q : (1 : ℚ) ≤ (a : ℚ) := by exact_mod_cast ha1
  have ha2q : (a : ℚ) ≤ 999999 := by
    have : a ≤ 999999 := by omega
    exact_mod_cast this
  have hdabs : |d| < 1000 := by
    rw [abs_lt] at hdL ⊢
    constructor <;> linarith [hdL.1, hdL.2]
  have hchunk : N.toNat - 1 = 0 ∨ ostream_float (c : ℚ) = (c : ℚ) := by
    by_cases hN2 : N ≤ 1
    · left
      omega
    · right
      apply ostream_float_intCast
      have hc0 : 0 ≤ c := by omega
      rw [abs_of_nonneg hc0]
      have : 1000 * c ≤ 1000 * ((N - 1) * c) := by nlinarith
      omega
  cases hseg : m3u8.track_segments pl r tr with
  | none =>
    rw [hseg] at hd
    exact absurd hd (by simp)
  | some l =>
    rw [hseg, Option.map_some'] at hd
    have hl := Option.some.inj hd
    refine ⟨d, ostream_float d, ?_, ?_, rfl, ostream_float_near d a hdabs (le_of_lt hdL)⟩
    · rw [Option.map_some', hl]
    · rw [Option.map_some', extinf_written_eq _ _ _ l hl hchunk]

/-- C2, witness: 12500 ms with 4 s chunks. -/
theorem C2_extinf_durations_witness :
    ∃ d w : ℚ,
      (m3u8.track_segments (sample_playlist 4 [sample_request 0 12500])
        (sample_repr [sample_request 0 12500]) (sample_request 0 12500)).map extinf_durations =
        some (List.replicate ((segment_count 12500 4).toNat - 1) ((4 : ℤ) : ℚ) ++ [d]) ∧
      (m3u8.track_segments (sample_playlist 4 [sample_request 0 12500])
        (sample_repr [sample_request 0 12500]) (sample_request 0 12500)).map extinf_written =
        some (List.replicate ((segment_count 12500 4).toNat - 1) ((4 : ℤ) : ℚ) ++ [w]) ∧
      w = ostream_float d ∧
      |w - (((12500 : ℤ) : ℚ) / 1000 - ((segment_count 12500 4 : ℤ) - 1 : ℚ) * ((4 : ℤ) : ℚ))|
        ≤ 1 / 1000 :=
  C2_extinf_durations (sample_playlist 4 [sample_request 0 12500])
    (sample_repr [sample_request 0 12500]) (sample_request 0 12500)
    (by decide) (by decide) (by decide) (by decide) (by decide!)

/-- C2, the example of the spec: 12500 ms with 4 s chunks gives the durations
4, 4, 4 and 0.5, as `float` values and as written. -/
theorem C2_example_12500 :
    (m3u8.track_segments (sample_playlist 4 [sample_request 0 12500])
      (sample_repr [sample_request 0 12500]) (sample_request 0 12500)).map extinf_durations =
      some [4, 4, 4, 1 / 2] ∧
    (m3u8.track_segments (sample_playlist 4 [sample_request 0 12500])
      (sample_repr [sample_request 0 12500]) (sample_request 0 12500)).map extinf_written =
      some [4, 4, 4, 1 / 2] := by
  decide!

/-- C2, counterexample: the claim as stated fails, in two ways. For a
track-request of 36000002 ms (ten hours and 2 ms) with 10 s chunks there are
3601 segments; the `float` track duration is 36000, so that the last `#EXTINF`
duration is 0 and is written as `0`, which is 2 ms away from
`36000002/1000 - 3600 * 10`. For a track-request of 1234567 ms with 2000 s
chunks there is one segment; its `float` duration is 1234.5670166015625 and
the stream writes `1234.57`, which is 3 ms away from `1234567/1000`. -/
theorem C2_counterexample :
    (m3u8.track_segments (sample_playlist 10 [sample_request 0 36000002])
      (sample_repr [sample_request 0 36000002]) (sample_request 0 36000002)).map
        extinf_written = some (List.replicate 3600 (10 : ℚ) ++ [0])
      ∧ segment_count 36000002 10 = 3601
      ∧ (1 : ℚ) / 1000 < |0 - ((36000002 : ℚ) / 1000 - (3601 - 1) * 10)|
      ∧ (m3u8.track_segments (sample_playlist 2000 [sample_request 0 1234567])
          (sample_repr [sample_request 0 1234567]) (sample_request 0 1234567)).map
            extinf_durations = some [12345670166015625 / 10000000000000]
      ∧ (m3u8.track_segments (sample_playlist 2000 [sample_request 0 1234567])
          (sample_repr [sample_request 0 1234567]) (sample_request 0 1234567)).map
            extinf_written = some [123457 / 100]
      ∧ segment_count 1234567 2000 = 1
      ∧ (1 : ℚ) / 1000 < |123457 / 100 - ((1234567 : ℚ) / 1000 - (1 - 1) * 2000)| := by
  have hN : segment_count 36000002 10 = 3601 := by decide!
  refine ⟨?_, hN, ?_, by decide!, by decide!, by decide!, by norm_num [abs_of_pos]⟩
  · have hseg := track_segments_eq (sample_playlist 10 [sample_request 0 36000002])
      (sample_repr [sample_request 0 36000002]) (sample_request 0 36000002)
      (by decide) (by decide) (by decide) (by decide!)
    have hloop := extinf_durations_loop
      ((sample_playlist 10 [sample_request 0 36000002]).base_url ++ "play/" ++
        (sample_repr [sample_request 0 36000002]).id ++ "/") 0
      3601 10 (f32 (f64 (f32 ((36000002 : ℤ) : ℚ) / 1000))) (by decide) (by decide) 3600 0
      le_rfl (by decide) (f32 ((10 : ℤ) : ℚ)) (fun _ => by decide!)
    have hlast : f32 (f32 (f64 (f32 ((36000002 : ℤ) : ℚ) / 1000)) -
        (((3601 - 1) * 10 : ℤ) : ℚ)) = 0 := by decide!
    rw [hlast, zero_mul, Int.cast_zero] at hloop
    have hN2 : segment_count (sample_request 0 36000002).duration_msec
      (sample_playlist 10 [sample_request 0 36000002]).chunk_duration_sec = 3601 := hN
    rw [hseg, Option.map_some', hN2]
    have hw : ostream_float (((10 : ℤ) : ℚ)) = ((10 : ℤ) : ℚ) :=
      ostream_float_intCast 10 (by decide)
    have h0 : ostream_float (0 : ℚ) = 0 := by decide!
    have hwr := extinf_written_eq 3600 _ 0 _ hloop (Or.inr hw)
    rw [h0] at hwr
    exact congrArg some hwr
  · norm_num [abs_of_neg]

/-! ## Master playlist -/

theorem stream_inf_lines_append (a b : List MasterLine) :
    stream_inf_lines (a ++ b) = stream_inf_lines a ++ stream_inf_lines b := by
  induction a with
  | nil => simp [stream_inf_lines]
  | cons x xs ih =>
    cases x
    all_goals simp [stream_inf_lines, ih]

theorem media_lines_append (a b : List MasterLine) :
    media_lines (a ++ b) = media_lines a ++ media_lines b := by
  induction a with
  | nil => simp [media_lines]
  | cons x xs ih =>
    cases x
    all_goals simp [media_lines, ih]

theorem variant_body_isSome (pl : playlist) (r : representation)
    (h0 : wrap32 (1000 * pl.chunk_duration_sec) ≠ 0) (ts : List track_request) :
    ∃ b, m3u8.variant_body pl r ts = some b := by
  induction ts with
  | nil => exact ⟨[], rfl⟩
  | cons t ts ih =>
    obtain ⟨b, hb⟩ := ih
    have ht : ∃ a, m3u8.track_segments pl r t = some a := by
      unfold m3u8.track_segments
      simp only [h0, if_false]
      exact ⟨_, rfl⟩
    obtain ⟨a, ha⟩ := ht
    exact ⟨a ++ b, by rw [m3u8.variant_body, ha, hb]⟩

theorem same_groups_refl (st : m3u8) : same_groups st st := ⟨rfl, rfl, rfl, rfl, rfl⟩

theorem same_groups_trans {a b c : m3u8} (h1 : same_groups a b) (h2 : same_groups b c) :
    same_groups a c := by
  obtain ⟨p1, p2, p3, p4, p5⟩ := h1
  obtain ⟨q1, q2, q3, q4, q5⟩ := h2
  exact ⟨q1.trans p1, q2.trans p2, q3.trans p3, q4.trans p4, q5.trans p5⟩

theorem add_representation_spec (st : m3u8) (r : representation) (atype vtype : String)
    (trf : track_request) (rest : List track_request) (hr : r.tracks = trf :: rest)
    (h0 : wrap32 (1000 * st.m_playlist.chunk_duration_sec) ≠ 0) :
    ∃ st', m3u8.add_representation st r atype vtype = some st' ∧ same_groups st st' ∧
      st'.m_ss = st.m_ss ++ [MasterLine.stream_inf (m3u8.stream_inf_of trf.track atype vtype),
        MasterLine.uri (st.m_playlist.base_url ++ "playlist/" ++ r.id)] := by
  obtain ⟨b, hb⟩ := variant_body_isSome st.m_playlist r h0 r.tracks
  rw [m3u8.add_representation, hr, List.head?_cons, m3u8.variant_of, hb]
  exact ⟨_, rfl, ⟨rfl, rfl, rfl, rfl, rfl⟩, rfl⟩

theorem add_aset_video_loop_spec (r : representation) (atype : String)
    (trf : track_request) (rest : List track_request) (hr : r.tracks = trf :: rest)
    (vs : List String) (st : m3u8)
    (h0 : wrap32 (1000 * st.m_playlist.chunk_duration_sec) ≠ 0) :
    ∃ st', m3u8.add_aset_video_loop r atype vs st = some st' ∧ same_groups st st' ∧
      stream_inf_lines st'.m_ss = stream_inf_lines st.m_ss ++
        vs.map (fun v => m3u8.stream_inf_of trf.track atype v) ∧
      media_lines st'.m_ss = media_lines st.m_ss := by
  induction vs generalizing st with
  | nil => exact ⟨st, rfl, same_groups_refl st, by simp, rfl⟩
  | cons v vs ih =>
    obtain ⟨st1, h1, hs1, hss1⟩ := add_representation_spec st r atype v trf rest hr h0
    obtain ⟨st2, h2, hs2, hss2, hm2⟩ := ih st1 (by rw [hs1.1]; exact h0)
    refine ⟨st2, by rw [m3u8.add_aset_video_loop, h1]; exact h2, same_groups_trans hs1 hs2, ?_, ?_⟩
    · rw [hss2, hss1, stream_inf_lines_append]
      simp [stream_inf_lines]
    · rw [hm2, hss1, media_lines_append]
      simp [media_lines]

theorem add_aset_audio_loop_spec (r : representation) (vgroups : List String)
    (trf : track_request) (rest : List track_request) (hr : r.tracks = trf :: rest)
    (as : List String) (st : m3u8)
    (h0 : wrap32 (1000 * st.m_playlist.chunk_duration_sec) ≠ 0) :
    ∃ st', m3u8.add_aset_audio_loop r vgroups as st = some st' ∧ same_groups st st' ∧
      stream_inf_lines st'.m_ss = stream_inf_lines st.m_ss ++
        as.flatMap (fun a => vgroups.map (fun v => m3u8.stream_inf_of trf.track a v)) ∧
      media_lines st'.m_ss = media_lines st.m_ss := by
  induction as generalizing st with
  | nil => exact ⟨st, rfl, same_groups_refl st, by simp, rfl⟩
  | cons a as ih =>
    obtain ⟨st1, h1, hs1, hss1, hm1⟩ := add_aset_video_loop_spec r a trf rest hr vgroups st h0
    obtain ⟨st2, h2, hs2, hss2, hm2⟩ := ih st1 (by rw [hs1.1]; exact h0)
    refine ⟨st2, by rw [m3u8.add_aset_audio_loop, h1]; exact h2, same_groups_trans hs1 hs2, ?_, ?_⟩
    · rw [hss2, hss1, List.flatMap_cons, List.append_assoc]
    · rw [hm2, hm1]

theorem add_aset_loop_spec (ids : List String) (st : m3u8)
    (h0 : wrap32 (1000 * st.m_playlist.chunk_duration_sec) ≠ 0)
    (hne : ∀ id ∈ ids, ∀ r, st.m_playlist.find id = some r → r.tracks ≠ []) :
    ∃ st', m3u8.add_aset_loop ids st = some st' ∧ same_groups st st' ∧
      stream_inf_lines st'.m_ss = stream_inf_lines st.m_ss ++
        (ids.filterMap st.m_playlist.find).flatMap
          (fun r => repr_stream_infs r st.m_audio_groups st.m_video_groups) ∧
      media_lines st'.m_ss = media_lines st.m_ss := by
  induction ids generalizing st with
  | nil => exact ⟨st, rfl, same_groups_refl st, by simp, rfl⟩
  | cons id ids ih =>
    have hne2 : ∀ id ∈ ids, ∀ r, st.m_playlist.find id = some r → r.tracks ≠ [] :=
      fun i hi => hne i (List.mem_cons_of_mem _ hi)
    cases hf : st.m_playlist.find id with
    | none =>
      obtain ⟨st2, h2, hs2, hss2, hm2⟩ := ih st h0 hne2
      refine ⟨st2, by rw [m3u8.add_aset_loop, hf]; exact h2, hs2, ?_, hm2⟩
      rw [hss2, List.filterMap_cons, hf]
    | some r =>
      have hrne := hne id (List.mem_cons_self _ _) r hf
      obtain ⟨trf, rest, hr⟩ : ∃ trf rest, r.tracks = trf :: rest := by
        cases h : r.tracks with
        | nil => exact absurd h hrne
        | cons a b => exact ⟨a, b, rfl⟩
      obtain ⟨st1, h1, hs1, hss1, hm1⟩ :=
        add_aset_audio_loop_spec r st.m_video_groups trf rest hr st.m_audio_groups st h0
      obtain ⟨st2, h2, hs2, hss2, hm2⟩ := ih st1 (by rw [hs1.1]; exact h0)
        (by rw [hs1.1]; exact hne2)
      refine ⟨st2, by rw [m3u8.add_aset_loop, hf]; simp only [h1]; exact h2,
        same_groups_trans hs1 hs2, ?_, by rw [hm2, hm1]⟩
      rw [hss2, hss1, hs1.1, hs1.2.1, hs1.2.2.1, List.filterMap_cons, hf, List.flatMap_cons,
        List.append_assoc]
      congr 2
      simp only [repr_stream_infs, hr, List.head?_cons]

/-! ## Strings -/

theorem digitChar_value (k : ℕ) (h : k < 10) : (Nat.digitChar k).toNat - 48 = k := by
  interval_cases k <;> rfl

theorem decimal_value_cons (acc : ℕ) (c : Char) (cs : List Char) :
    decimal_value acc (c :: cs) = decimal_value (10 * acc + (c.toNat - 48)) cs := rfl

theorem toDigitsCore_succ (fuel n : ℕ) (ds : List Char) :
    Nat.toDigitsCore 10 (fuel + 1) n ds =
      if n / 10 = 0 then Nat.digitChar (n % 10) :: ds
      else Nat.toDigitsCore 10 fuel (n / 10) (Nat.digitChar (n % 10) :: ds) := rfl

theorem decimal_value_toDigitsCore (fuel n : ℕ) (ds : List Char) (h : n < fuel) :
    decimal_value 0 (Nat.toDigitsCore 10 fuel n ds) = decimal_value n ds := by
  induction fuel generalizing n ds with
  | zero => omega
  | succ fuel ih =>
    rw [toDigitsCore_succ]
    have hd := digitChar_value (n % 10) (Nat.mod_lt _ (by norm_num))
    generalize Nat.digitChar (n % 10) = c at hd
    split
    · rename_i h0
      rw [decimal_value_cons, hd]
      congr 1
      omega
    · rename_i h0
      rw [ih (n / 10) _ (by omega), decimal_value_cons, hd]
      congr 1
      omega

theorem toString_nat_injective {a b : ℕ} (h : toString a = toString b) : a = b := by
  have h1 : (Nat.toDigits 10 a) = (Nat.toDigits 10 b) := by
    have := congrArg String.data h
    exact this
  have h2 := congrArg (decimal_value 0) h1
  unfold Nat.toDigits at h2
  rw [decimal_value_toDigitsCore _ _ _ (Nat.lt_succ_self a),
    decimal_value_toDigitsCore _ _ _ (Nat.lt_succ_self b)] at h2
  exact h2

theorem append_toString_injective (name : String) {a b : ℕ}
    (h : name ++ toString a = name ++ toString b) : a = b := by
  have h1 := congrArg String.data h
  rw [String.data_append, String.data_append] at h1
  have h2 := List.append_cancel_left h1
  exact toString_nat_injective (String.ext h2)

theorem audio_ne_none (s : String) : "audio-" ++ s ≠ "none" := by
  intro h
  have h1 := congrArg String.data h
  rw [String.data_append] at h1
  simp at h1

theorem video_ne_none (s : String) : "video-" ++ s ≠ "none" := by
  intro h
  have h1 := congrArg String.data h
  rw [String.data_append] at h1
  simp at h1

theorem audio_ne_video (s t : String) : "audio-" ++ s ≠ "video-" ++ t := by
  intro h
  have h1 := congrArg String.data h
  rw [String.data_append, String.data_append] at h1
  simp at h1

theorem generate_eq (st : m3u8) (pr : period) (h : st.m_playlist.periods.head? = some pr) :
    m3u8.generate st =
      match m3u8.first_pass st with
      | none => none
      | some st1 => m3u8.add_period_asets pr.adaptations st1 := by
  unfold m3u8.generate m3u8.first_pass
  rw [h]
  rfl

theorem group_names_zero (name : String) (first : ℕ) : group_names name first 0 = [] := rfl

theorem group_names_succ (name : String) (first n : ℕ) :
    group_names name first (n + 1) = (name ++ toString first) :: group_names name (first + 1) n := by
  unfold group_names
  rw [List.range_succ_eq_map]
  simp only [List.map_cons, List.map_map, add_zero]
  congr 1
  apply List.map_congr_left
  intro j _
  show name ++ toString (first + (j + 1)) = name ++ toString (first + 1 + j)
  congr 2
  omega

theorem group_names_length (name : String) (first n : ℕ) :
    (group_names name first n).length = n := by
  simp [group_names]

theorem audio_count_cons (r : representation) (rs : List representation) :
    audio_count (r :: rs) = audio_count rs + if is_audio r then 1 else 0 := by
  unfold audio_count
  rw [List.countP_cons]

theorem video_count_cons (r : representation) (rs : List representation) :
    video_count (r :: rs) = video_count rs + if is_video r then 1 else 0 := by
  unfold video_count
  rw [List.countP_cons]

theorem group_names_one (name : String) (first : ℕ) :
    group_names name first 1 = [name ++ toString first] := rfl

theorem add_aset_groups_step_spec (k : ℕ) (gid : String) (st : m3u8) (r : representation)
    (trf : track_request) (rest : List track_request) (hr : r.tracks = trf :: rest) :
    ∃ m : ext_x_media,
      (m3u8.add_aset_groups_step ("adaptation-" ++ toString k) gid st r trf).2.m_ss =
        st.m_ss ++ [MasterLine.media m] ∧
      (m3u8.add_aset_groups_step ("adaptation-" ++ toString k) gid st r trf).2.m_playlist =
        st.m_playlist ∧
      (m3u8.add_aset_groups_step ("adaptation-" ++ toString k) gid st r trf).2.m_adaptation_id =
        st.m_adaptation_id ∧
      (m3u8.add_aset_groups_step ("adaptation-" ++ toString k) gid st r trf).2.m_total_duration_msec
        = st.m_total_duration_msec ∧
      (m3u8.add_aset_groups_step ("adaptation-" ++ toString k) gid st r trf).2.m_audio_groups =
        st.m_audio_groups ++
          group_names "audio-" st.m_audio_groups.length (if is_audio r then 1 else 0) ∧
      (m3u8.add_aset_groups_step ("adaptation-" ++ toString k) gid st r trf).2.m_video_groups =
        st.m_video_groups ++
          group_names "video-" st.m_video_groups.length (if is_video r then 1 else 0) ∧
      m.name = "adaptation-" ++ toString k ∧
      m.uri = st.m_playlist.base_url ++ "playlist/" ++ r.id ∧
      (is_audio r = true →
        m.type = "AUDIO" ∧ m.group_id = "audio-" ++ toString st.m_audio_groups.length) ∧
      (is_video r = true →
        m.type = "VIDEO" ∧ m.group_id = "video-" ++ toString st.m_video_groups.length) ∧
      (is_audio r = false → is_video r = false → m.type = "DATA") := by
  have hmt : repr_media_type r = some trf.track.media_type := by
    simp [repr_media_type, hr]
  cases hty : trf.track.media_type with
  | AUDIO =>
    have ha : is_audio r = true := by simp [is_audio, hmt, hty]
    have hv : is_video r = false := by simp [is_video, hmt, hty]
    refine ⟨_, rfl, rfl, rfl, rfl, ?_, ?_, ?_, ?_, ?_, ?_, ?_⟩ <;>
      simp [m3u8.add_aset_groups_step, hty, ha, hv, group_names_one, group_names_zero]
  | VISUAL =>
    have ha : is_audio r = false := by simp [is_audio, hmt, hty]
    have hv : is_video r = true := by simp [is_video, hmt, hty]
    refine ⟨_, rfl, rfl, rfl, rfl, ?_, ?_, ?_, ?_, ?_, ?_, ?_⟩ <;>
      simp [m3u8.add_aset_groups_step, hty, ha, hv, group_names_one, group_names_zero]
  | OTHER =>
    have ha : is_audio r = false := by simp [is_audio, hmt, hty]
    have hv : is_video r = false := by simp [is_video, hmt, hty]
    refine ⟨_, rfl, rfl, rfl, rfl, ?_, ?_, ?_, ?_, ?_, ?_, ?_⟩ <;>
      simp [m3u8.add_aset_groups_step, hty, ha, hv, group_names_one, group_names_zero]

theorem group_names_add (name : String) (first a b : ℕ) :
    group_names name first (a + b) = group_names name first a ++ group_names name (first + a) b := by
  induction a generalizing first with
  | zero => simp [group_names]
  | succ a ih =>
    rw [Nat.succ_add, group_names_succ, group_names_succ, ih]
    simp only [List.cons_append]
    congr 3
    omega

theorem add_aset_groups_loop_spec (k : ℕ) (ids : List String) (gid : String) (st : m3u8)
    (hne : ∀ id ∈ ids, ∀ r, st.m_playlist.find id = some r → r.tracks ≠ []) :
    ∃ st', m3u8.add_aset_groups_loop ("adaptation-" ++ toString k) ids gid st = some st' ∧
      st'.m_playlist = st.m_playlist ∧ st'.m_adaptation_id = st.m_adaptation_id ∧
      st'.m_total_duration_msec = st.m_total_duration_msec ∧
      st'.m_audio_groups = st.m_audio_groups ++
        group_names "audio-" st.m_audio_groups.length
          (audio_count (ids.filterMap st.m_playlist.find)) ∧
      st'.m_video_groups = st.m_video_groups ++
        group_names "video-" st.m_video_groups.length
          (video_count (ids.filterMap st.m_playlist.find)) ∧
      stream_inf_lines st'.m_ss = stream_inf_lines st.m_ss ∧
      ∃ M, media_lines st'.m_ss = media_lines st.m_ss ++ M ∧
        media_ok st.m_playlist.base_url st.m_audio_groups.length st.m_video_groups.length
          ((ids.filterMap st.m_playlist.find).map (fun r => (k, r))) M := by
  induction ids generalizing gid st with
  | nil =>
    refine ⟨st, rfl, rfl, rfl, rfl, ?_, ?_, rfl, [], ?_, ?_⟩
    · simp [audio_count, group_names]
    · simp [video_count, group_names]
    · simp
    · simp [media_ok]
  | cons id ids ih =>
    have hne2 : ∀ id ∈ ids, ∀ r, st.m_playlist.find id = some r → r.tracks ≠ [] :=
      fun i hi => hne i (List.mem_cons_of_mem _ hi)
    cases hf : st.m_playlist.find id with
    | none =>
      obtain ⟨st2, h2, hrest⟩ := ih gid st hne2
      refine ⟨st2, by rw [m3u8.add_aset_groups_loop, hf]; exact h2, ?_⟩
      rw [List.filterMap_cons, hf]
      exact hrest
    | some r =>
      have hrne := hne id (List.mem_cons_self _ _) r hf
      obtain ⟨trf, rest, hr⟩ : ∃ trf rest, r.tracks = trf :: rest := by
        cases h : r.tracks with
        | nil => exact absurd h hrne
        | cons a b => exact ⟨a, b, rfl⟩
      obtain ⟨m, s1, s2, s3, s4, s5, s6, s7, s8, s9, s10, s11⟩ :=
        add_aset_groups_step_spec k gid st r trf rest hr
      rw [m3u8.add_aset_groups_loop, hf]
      simp only [hr, List.head?_cons]
      rw [List.filterMap_cons, hf]
      simp only [List.map_cons]
      generalize (m3u8.add_aset_groups_step ("adaptation-" ++ toString k) gid st r trf).1 = g1
      generalize (m3u8.add_aset_groups_step ("adaptation-" ++ toString k) gid st r trf).2 = st1
        at s1 s2 s3 s4 s5 s6
      obtain ⟨st2, h2, e1, e2, e3, e4, e5, e6, M, e7, e8⟩ := ih g1 st1 (by rw [s2]; exact hne2)
      rw [s2] at e4 e5 e8
      refine ⟨st2, h2, e1.trans s2, e2.trans s3, e3.trans s4, ?_, ?_, ?_, m :: M, ?_, ?_⟩
      · rw [e4, s5, audio_count_cons, add_comm (audio_count _), group_names_add,
          List.append_assoc, List.length_append, group_names_length]
      · rw [e5, s6, video_count_cons, add_comm (video_count _), group_names_add,
          List.append_assoc, List.length_append, group_names_length]
      · rw [e6, s1, stream_inf_lines_append]
        simp [stream_inf_lines]
      · rw [e7, s1, media_lines_append]
        simp [media_lines]
      · refine ⟨m, M, rfl, s7, s8, s9, s10, s11, ?_⟩
        rw [s5, s6, List.length_append, List.length_append, group_names_length,
          group_names_length] at e8
        exact e8

theorem media_ok_append (base : String) (L1 L2 : List (ℕ × representation))
    (M1 M2 : List ext_x_media) (na nv : ℕ) (h1 : media_ok base na nv L1 M1)
    (h2 : media_ok base (na + audio_count (L1.map (fun e => e.2)))
      (nv + video_count (L1.map (fun e => e.2))) L2 M2) :
    media_ok base na nv (L1 ++ L2) (M1 ++ M2) := by
  induction L1 generalizing M1 na nv with
  | nil =>
    have : M1 = [] := h1
    subst this
    simpa [audio_count, video_count] using h2
  | cons e L1 ih =>
    obtain ⟨k, r⟩ := e
    obtain ⟨m, M', hM, p1, p2, p3, p4, p5, p6⟩ := h1
    subst hM
    refine ⟨m, M' ++ M2, rfl, p1, p2, p3, p4, p5, ?_⟩
    apply ih M' _ _ p6
    simp only [List.map_cons, audio_count_cons, video_count_cons] at h2
    have e1 : na + (if is_audio r = true then 1 else 0) + audio_count (L1.map (fun e => e.2)) =
        na + (audio_count (L1.map (fun e => e.2)) + if is_audio r = true then 1 else 0) := by
      omega
    have e2 : nv + (if is_video r = true then 1 else 0) + video_count (L1.map (fun e => e.2)) =
        nv + (video_count (L1.map (fun e => e.2)) + if is_video r = true then 1 else 0) := by
      omega
    rw [e1, e2]
    exact h2

theorem audio_count_append (a b : List representation) :
    audio_count (a ++ b) = audio_count a + audio_count b := by
  simp [audio_count, List.countP_append]

theorem video_count_append (a b : List representation) :
    video_count (a ++ b) = video_count a + video_count b := by
  simp [video_count, List.countP_append]

theorem add_period_groups_spec (ads : List adaptation) (st : m3u8)
    (hne : ∀ a ∈ ads, ∀ id ∈ a.repr_ids, ∀ r, st.m_playlist.find id = some r → r.tracks ≠ []) :
    ∃ st', m3u8.add_period_groups ads st = some st' ∧
      st'.m_playlist = st.m_playlist ∧
      st'.m_audio_groups = st.m_audio_groups ++
        group_names "audio-" st.m_audio_groups.length
          (audio_count (ads.flatMap (fun a => a.repr_ids.filterMap st.m_playlist.find))) ∧
      st'.m_video_groups = st.m_video_groups ++
        group_names "video-" st.m_video_groups.length
          (video_count (ads.flatMap (fun a => a.repr_ids.filterMap st.m_playlist.find))) ∧
      stream_inf_lines st'.m_ss = stream_inf_lines st.m_ss ∧
      ∃ M, media_lines st'.m_ss = media_lines st.m_ss ++ M ∧
        media_ok st.m_playlist.base_url st.m_audio_groups.length st.m_video_groups.length
          (listed_with_index st.m_playlist st.m_adaptation_id ads) M := by
  induction ads generalizing st with
  | nil =>
    refine ⟨st, rfl, rfl, ?_, ?_, rfl, [], ?_, ?_⟩
    · simp [audio_count, group_names]
    · simp [video_count, group_names]
    · simp
    · simp [listed_with_index, media_ok]
  | cons a ads ih =>
    obtain ⟨st1, h1, s1, s2, s3, s4, s5, s6, M1, s7, s8⟩ :=
      add_aset_groups_loop_spec st.m_adaptation_id a.repr_ids "" st
        (hne a (List.mem_cons_self _ _))
    obtain ⟨st2, h2, e1, e2, e3, e4, M2, e5, e6⟩ :=
      ih { st1 with m_adaptation_id := st1.m_adaptation_id + 1 }
        (by
          show ∀ b ∈ ads, ∀ id ∈ b.repr_ids, ∀ r, st1.m_playlist.find id = some r → r.tracks ≠ []
          rw [s1]
          exact fun b hb => hne b (List.mem_cons_of_mem _ hb))
    simp only [] at e1 e2 e3 e4 e5 e6
    rw [s1] at e2 e3 e6
    rw [s2] at e6
    have hcount : ∀ p : representation → Bool,
        List.countP p (List.map (fun e => e.2)
          (List.map (fun r => (st.m_adaptation_id, r))
            (List.filterMap st.m_playlist.find a.repr_ids))) =
        List.countP p (List.filterMap st.m_playlist.find a.repr_ids) := by
      intro p
      rw [List.map_map]
      congr 1
      simp [Function.comp]
    refine ⟨st2, ?_, e1.trans s1, ?_, ?_, ?_, M1 ++ M2, ?_, ?_⟩
    · rw [m3u8.add_period_groups, m3u8.add_aset_groups, h1]
      exact h2
    · rw [e2, s4, List.flatMap_cons, audio_count_append, group_names_add, List.append_assoc,
        List.length_append, group_names_length]
    · rw [e3, s5, List.flatMap_cons, video_count_append, group_names_add, List.append_assoc,
        List.length_append, group_names_length]
    · rw [e4, s6]
    · rw [e5, s7, List.append_assoc]
    · rw [listed_with_index]
      apply media_ok_append _ _ _ _ _ _ _ s8
      rw [s4, s5, List.length_append, List.length_append, group_names_length,
        group_names_length] at e6
      have ha := hcount is_audio
      have hv := hcount is_video
      rw [← audio_count, ← audio_count] at ha
      rw [← video_count, ← video_count] at hv
      rw [ha, hv]
      exact e6

theorem groups_or_none_idem (g : List String) :
    groups_or_none (groups_or_none g) = groups_or_none g := by
  unfold groups_or_none
  cases g <;> simp

theorem add_aset_spec (st : m3u8) (a : adaptation)
    (h0 : wrap32 (1000 * st.m_playlist.chunk_duration_sec) ≠ 0)
    (hne : ∀ id ∈ a.repr_ids, ∀ r, st.m_playlist.find id = some r → r.tracks ≠ []) :
    ∃ st', m3u8.add_aset st a = some st' ∧ st'.m_playlist = st.m_playlist ∧
      st'.m_audio_groups = groups_or_none st.m_audio_groups ∧
      st'.m_video_groups = groups_or_none st.m_video_groups ∧
      stream_inf_lines st'.m_ss = stream_inf_lines st.m_ss ++
        (a.repr_ids.filterMap st.m_playlist.find).flatMap
          (fun r => repr_stream_infs r (groups_or_none st.m_audio_groups)
            (groups_or_none st.m_video_groups)) ∧
      media_lines st'.m_ss = media_lines st.m_ss := by
  unfold m3u8.add_aset
  simp only
  rw [← groups_or_none, ← groups_or_none]
  obtain ⟨st3, h3, ⟨q1, q2, q3, _, _⟩, hs, hm⟩ := add_aset_loop_spec a.repr_ids
    { st with m_audio_groups := groups_or_none st.m_audio_groups
              m_video_groups := groups_or_none st.m_video_groups } h0 hne
  exact ⟨st3, h3, q1, q2, q3, hs, hm⟩

theorem add_period_asets_spec (ads : List adaptation) (st : m3u8)
    (h0 : wrap32 (1000 * st.m_playlist.chunk_duration_sec) ≠ 0)
    (hne : ∀ a ∈ ads, ∀ id ∈ a.repr_ids, ∀ r, st.m_playlist.find id = some r → r.tracks ≠ []) :
    ∃ st', m3u8.add_period_asets ads st = some st' ∧ st'.m_playlist = st.m_playlist ∧
      stream_inf_lines st'.m_ss = stream_inf_lines st.m_ss ++
        (ads.flatMap (fun a => a.repr_ids.filterMap st.m_playlist.find)).flatMap
          (fun r => repr_stream_infs r (groups_or_none st.m_audio_groups)
            (groups_or_none st.m_video_groups)) ∧
      media_lines st'.m_ss = media_lines st.m_ss := by
  induction ads generalizing st with
  | nil => exact ⟨st, rfl, rfl, by simp, rfl⟩
  | cons a ads ih =>
    obtain ⟨st1, h1, s1, s2, s3, s4, s5⟩ := add_aset_spec st a h0 (hne a (List.mem_cons_self _ _))
    obtain ⟨st2, h2, e1, e2, e3⟩ := ih st1 (by rw [s1]; exact h0)
      (by rw [s1]; exact fun b hb => hne b (List.mem_cons_of_mem _ hb))
    refine ⟨st2, by rw [m3u8.add_period_asets, h1]; exact h2, e1.trans s1, ?_, e3.trans s5⟩
    rw [e2, s4, s1, s2, s3, groups_or_none_idem, groups_or_none_idem, List.flatMap_cons,
      List.flatMap_append, List.append_assoc]

theorem mem_listed_reprs {pl : playlist} {p : period} {a : adaptation} {id : String}
    {r : representation} (ha : a ∈ p.adaptations) (hid : id ∈ a.repr_ids)
    (hf : pl.find id = some r) : r ∈ listed_reprs pl p := by
  unfold listed_reprs
  rw [List.mem_flatMap]
  exact ⟨a, ha, List.mem_filterMap.2 ⟨id, hid, hf⟩⟩

theorem generate_spec (pl : playlist) (p : period) (hp : pl.periods.head? = some p)
    (h0 : wrap32 (1000 * pl.chunk_duration_sec) ≠ 0)
    (hne : ∀ r ∈ listed_reprs pl p, r.tracks ≠ []) :
    ∃ st', m3u8.generate (m3u8.init pl) = some st' ∧
      stream_inf_lines st'.m_ss =
        (listed_reprs pl p).flatMap
          (fun r => repr_stream_infs r
            (groups_or_none (group_names "audio-" 0 (audio_count (listed_reprs pl p))))
            (groups_or_none (group_names "video-" 0 (video_count (listed_reprs pl p))))) := by
  have hne2 : ∀ a ∈ p.adaptations, ∀ id ∈ a.repr_ids, ∀ r, pl.find id = some r →
      r.tracks ≠ [] := fun a ha id hid r hf => hne r (mem_listed_reprs ha hid hf)
  obtain ⟨st1, h1, s1, s2, s3, s4, _⟩ :=
    add_period_groups_spec p.adaptations (m3u8.generate_start (m3u8.init pl) p) hne2
  obtain ⟨st2, h2, e1, e2, _⟩ := add_period_asets_spec p.adaptations st1
    (by rw [s1]; exact h0) (by rw [s1]; exact hne2)
  have hfp : m3u8.first_pass (m3u8.init pl) = some st1 := by
    unfold m3u8.first_pass
    rw [show (m3u8.init pl).m_playlist.periods.head? = some p from hp]
    exact h1
  refine ⟨st2, ?_, ?_⟩
  · rw [generate_eq (m3u8.init pl) p hp, hfp]
    exact h2
  · rw [e2, s4, s1, s2, s3]
    simp [m3u8.generate_start, m3u8.init, stream_inf_lines, listed_reprs]

theorem groups_or_none_names (name : String) (n : ℕ) :
    groups_or_none (group_names name 0 n) =
      (group_options name n).map (fun o => o.getD "none") := by
  unfold groups_or_none group_options group_names
  cases n with
  | zero => simp
  | succ n =>
    have h : ¬ (List.map (fun (j : ℕ) => name ++ toString (0 + j)) (List.range (n + 1))).isEmpty
        = true := by
      rw [List.isEmpty_iff]
      intro h0
      have := congrArg List.length h0
      simp at this
    simp only [h, if_false, Nat.succ_ne_zero, List.map_map]
    apply List.map_congr_left
    intro j _
    simp

theorem mem_group_options {name : String} {n : ℕ} {o : Option String}
    (h : o ∈ group_options name n) : o = none ∨ ∃ s, o = some (name ++ s) := by
  unfold group_options at h
  split at h
  · left
    simpa using h
  · right
    obtain ⟨j, _, hj⟩ := List.mem_map.1 h
    exact ⟨toString j, hj.symm⟩

theorem stream_inf_of_getD (t : track) {A V : ℕ} {a v : Option String}
    (ha : a ∈ group_options "audio-" A) (hv : v ∈ group_options "video-" V) :
    m3u8.stream_inf_of t (a.getD "none") (v.getD "none") = spec_stream_inf t a v := by
  unfold m3u8.stream_inf_of spec_stream_inf
  rcases mem_group_options ha with rfl | ⟨s, rfl⟩ <;>
    rcases mem_group_options hv with rfl | ⟨s2, rfl⟩ <;>
    simp [audio_ne_none, video_ne_none]

theorem repr_stream_infs_eq (r : representation) (A V : ℕ) :
    repr_stream_infs r (groups_or_none (group_names "audio-" 0 A))
        (groups_or_none (group_names "video-" 0 V)) =
      spec_stream_infs r (group_options "audio-" A) (group_options "video-" V) := by
  unfold repr_stream_infs spec_stream_infs
  cases r.tracks.head? with
  | none => rfl
  | some trf =>
    simp only [groups_or_none_names, List.flatMap_map, List.map_map]
    apply List.flatMap_congr
    intro a ha
    apply List.map_congr_left
    intro v hv
    exact stream_inf_of_getD trf.track ha hv

theorem group_options_length (name : String) (n : ℕ) :
    (group_options name n).length = max 1 n := by
  unfold group_options
  split
  · rename_i h
    simp [h]
  · rename_i h
    simp only [List.length_map, List.length_range]
    omega

theorem spec_stream_infs_length (r : representation) (hr : r.tracks ≠ [])
    (ags vgs : List (Option String)) :
    (spec_stream_infs r ags vgs).length = ags.length * vgs.length := by
  unfold spec_stream_infs
  cases h : r.tracks with
  | nil => exact absurd h hr
  | cons trf rest =>
    simp only [List.head?_cons]
    induction ags with
    | nil => simp
    | cons a as ih =>
      rw [List.flatMap_cons, List.length_append, ih, List.length_map, List.length_cons]
      ring

theorem flatMap_length_const {α β : Type} (l : List α) (f : α → List β) (c : ℕ)
    (h : ∀ x ∈ l, (f x).length = c) : (l.flatMap f).length = l.length * c := by
  induction l with
  | nil => simp
  | cons x xs ih =>
    rw [List.flatMap_cons, List.length_append, h x (List.mem_cons_self _ _),
      ih (fun y hy => h y (List.mem_cons_of_mem _ hy)), List.length_cons]
    ring

/-- C4 (amended): for a playlist whose first period lists `R` representation
ids that are present in `playlist.repr`, each with a non-empty track list, `A`
of them audio and `V` video, and whose `chunk_duration_sec` makes the `int`
value `1000 * chunk_duration_sec` different from zero, `generate` produces a
master playlist with exactly `R * max(1, A) * max(1, V)` `#EXT-X-STREAM-INF`
lines: one for each representation and each pair of an audio group and a video
group, which carries `AUDIO="<g>"` (`VIDEO="<g>"`) exactly when the group is a
collected one and not the synthetic `"none"`. -/
theorem C4_stream_inf_lines (pl : playlist) (p : period) (hp : pl.periods.head? = some p)
    (h0 : wrap32 (1000 * pl.chunk_duration_sec) ≠ 0)
    (hne : ∀ r ∈ listed_reprs pl p, r.tracks ≠ []) :
    ∃ st', m3u8.generate (m3u8.init pl) = some st' ∧
      (stream_inf_lines st'.main_playlist).length =
        (listed_reprs pl p).length * max 1 (audio_count (listed_reprs pl p)) *
          max 1 (video_count (listed_reprs pl p)) ∧
      stream_inf_lines st'.main_playlist =
        (listed_reprs pl p).flatMap (fun r =>
          spec_stream_infs r (group_options "audio-" (audio_count (listed_reprs pl p)))
            (group_options "video-" (video_count (listed_reprs pl p)))) := by
  obtain ⟨st', hgen, hlines⟩ := generate_spec pl p hp h0 hne
  have heq : stream_inf_lines st'.main_playlist =
      (listed_reprs pl p).flatMap (fun r =>
        spec_stream_infs r (group_options "audio-" (audio_count (listed_reprs pl p)))
          (group_options "video-" (video_count (listed_reprs pl p)))) := by
    rw [m3u8.main_playlist, hlines]
    apply List.flatMap_congr
    intro r _
    exact repr_stream_infs_eq r _ _
  refine ⟨st', hgen, ?_, heq⟩
  rw [heq, flatMap_length_const _ _
    (max 1 (audio_count (listed_reprs pl p)) * max 1 (video_count (listed_reprs pl p)))]
  · ring
  · intro r hr
    rw [spec_stream_infs_length r (hne r hr), group_options_length, group_options_length]

/-- C4, witness: scenario S2 (representations `v0`, `v1`, `a0`) with 4 s chunks. -/
theorem C4_stream_inf_lines_witness :
    ∃ st', m3u8.generate (m3u8.init (sample_playlist_s2 4 [sample_period_s2])) = some st' ∧
      (stream_inf_lines st'.main_playlist).length =
        (listed_reprs (sample_playlist_s2 4 [sample_period_s2]) sample_period_s2).length *
          max 1 (audio_count
            (listed_reprs (sample_playlist_s2 4 [sample_period_s2]) sample_period_s2)) *
          max 1 (video_count
            (listed_reprs (sample_playlist_s2 4 [sample_period_s2]) sample_period_s2)) ∧
      stream_inf_lines st'.main_playlist =
        (listed_reprs (sample_playlist_s2 4 [sample_period_s2]) sample_period_s2).flatMap
          (fun r => spec_stream_infs r
            (group_options "audio-" (audio_count
              (listed_reprs (sample_playlist_s2 4 [sample_period_s2]) sample_period_s2)))
            (group_options "video-" (video_count
              (listed_reprs (sample_playlist_s2 4 [sample_period_s2]) sample_period_s2)))) :=
  C4_stream_inf_lines (sample_playlist_s2 4 [sample_period_s2]) sample_period_s2 rfl
    (by decide) (by decide)

/-- C4, the example of the spec: `v0`, `v1`, `a0` give six `#EXT-X-STREAM-INF`
lines. -/
theorem C4_example_s2 :
    (m3u8.generate (m3u8.init (sample_playlist_s2 4 [sample_period_s2]))).map
      (fun st => (stream_inf_lines st.main_playlist).length) = some 6 := by
  decide!

/-- C4, counterexample: the claim as stated fails. In scenario S2 with
`chunk_duration_sec = 0` three representations with a non-empty track list are
listed, one audio and two video, so that the claim promises 6 lines; but
`add_representation` divides by `track_in_msec = 0` and no master playlist is
produced. -/
theorem C4_counterexample :
    (listed_reprs (sample_playlist_s2 0 [sample_period_s2]) sample_period_s2).length = 3
      ∧ audio_count (listed_reprs (sample_playlist_s2 0 [sample_period_s2]) sample_period_s2) = 1
      ∧ video_count (listed_reprs (sample_playlist_s2 0 [sample_period_s2]) sample_period_s2) = 2
      ∧ (∀ r ∈ listed_reprs (sample_playlist_s2 0 [sample_period_s2]) sample_period_s2,
          r.tracks ≠ [])
      ∧ m3u8.generate (m3u8.init (sample_playlist_s2 0 [sample_period_s2])) = none := by
  refine ⟨by decide, by decide, by decide, by decide, ?_⟩
  have h : (m3u8.generate (m3u8.init (sample_playlist_s2 0 [sample_period_s2]))).isNone
      = true := by decide!
  exact Option.isNone_iff_eq_none.1 h

theorem media_ok_pointwise (base : String) (L : List (ℕ × representation))
    (M : List ext_x_media) (na nv : ℕ) (h : media_ok base na nv L M) :
    M.length = L.length ∧
      ∀ (n : ℕ) (hL : n < L.length) (hM : n < M.length),
        M[n].name = "adaptation-" ++ toString L[n].1 ∧
        M[n].uri = base ++ "playlist/" ++ L[n].2.id ∧
        (is_audio L[n].2 = true → M[n].type = "AUDIO" ∧
          M[n].group_id =
            "audio-" ++ toString (na + audio_count ((L.take n).map (fun e => e.2)))) ∧
        (is_video L[n].2 = true → M[n].type = "VIDEO" ∧
          M[n].group_id =
            "video-" ++ toString (nv + video_count ((L.take n).map (fun e => e.2)))) ∧
        (is_audio L[n].2 = false → is_video L[n].2 = false → M[n].type = "DATA") := by
  induction L generalizing M na nv with
  | nil =>
    have : M = [] := h
    subst this
    exact ⟨rfl, fun n hL => absurd hL (by simp)⟩
  | cons e L ih =>
    obtain ⟨k, r⟩ := e
    obtain ⟨m, M', hM, p1, p2, p3, p4, p5, p6⟩ := h
    subst hM
    obtain ⟨hlen, hpt⟩ := ih M' _ _ p6
    refine ⟨by simp [hlen], ?_⟩
    intro n hL hM
    cases n with
    | zero =>
      simp only [List.getElem_cons_zero, List.take_zero, List.map_nil]
      refine ⟨p1, p2, ?_, ?_, p5⟩
      · intro ha
        simpa [audio_count] using p3 ha
      · intro hv
        simpa [video_count] using p4 hv
    | succ n =>
      simp only [List.getElem_cons_succ, List.take_succ_cons, List.map_cons, audio_count_cons,
        video_count_cons]
      have hL' : n < L.length := by simpa using hL
      have hM' : n < M'.length := by simpa using hM
      obtain ⟨q1, q2, q3, q4, q5⟩ := hpt n hL' hM'
      refine ⟨q1, q2, ?_, ?_, q5⟩
      · intro ha
        obtain ⟨t1, t2⟩ := q3 ha
        refine ⟨t1, ?_⟩
        rw [t2]
        congr 2
        omega
      · intro hv
        obtain ⟨t1, t2⟩ := q4 hv
        refine ⟨t1, ?_⟩
        rw [t2]
        congr 2
        omega

theorem countP_take_lt {α : Type} (p : α → Bool) (L : List α) (i j : ℕ) (hij : i < j)
    (hi : i < L.length) (hp : p L[i] = true) :
    List.countP p (L.take i) < List.countP p (L.take j) := by
  have h1 : List.countP p (L.take (i + 1)) = List.countP p (L.take i) + 1 := by
    rw [List.take_succ, List.getElem?_eq_getElem hi, List.countP_append]
    simp [hp]
  have h2 := List.Sublist.countP_le (p := p) (List.take_sublist_take_left L (by omega : i + 1 ≤ j))
  omega

/-- C5 (amended): when every representation that the first period lists and
that is present in `playlist.repr` has a non-empty track list, the first pass
of `generate` emits exactly one `#EXT-X-MEDIA` line for each of them, in order.
The line has `NAME="adaptation-k"` for the 1-based index `k` of the adaptation
and `URI = base_url + "playlist/" + repr.id`; for an audio (video)
representation it has `TYPE=AUDIO` (`TYPE=VIDEO`) and `GROUP-ID` `audio-j`
(`video-j`) with `j` the number of earlier representations of the same type,
and for a representation of any other type it has `TYPE=DATA`. The group ids
of the audio and video lines are pairwise distinct. -/
theorem C5_media_lines (pl : playlist) (p : period) (hp : pl.periods.head? = some p)
    (hne : ∀ r ∈ listed_reprs pl p, r.tracks ≠ []) :
    ∃ st', m3u8.first_pass (m3u8.init pl) = some st' ∧
      (media_lines st'.m_ss).length = (listed_with_index pl 1 p.adaptations).length ∧
      (∀ (n : ℕ) (hL : n < (listed_with_index pl 1 p.adaptations).length)
          (hM : n < (media_lines st'.m_ss).length),
        (media_lines st'.m_ss)[n].name =
          "adaptation-" ++ toString (listed_with_index pl 1 p.adaptations)[n].1 ∧
        (media_lines st'.m_ss)[n].uri =
          pl.base_url ++ "playlist/" ++ (listed_with_index pl 1 p.adaptations)[n].2.id ∧
        (is_audio (listed_with_index pl 1 p.adaptations)[n].2 = true →
          (media_lines st'.m_ss)[n].type = "AUDIO" ∧
          (media_lines st'.m_ss)[n].group_id = "audio-" ++ toString
            (audio_count (((listed_with_index pl 1 p.adaptations).take n).map (fun e => e.2)))) ∧
        (is_video (listed_with_index pl 1 p.adaptations)[n].2 = true →
          (media_lines st'.m_ss)[n].type = "VIDEO" ∧
          (media_lines st'.m_ss)[n].group_id = "video-" ++ toString
            (video_count (((listed_with_index pl 1 p.adaptations).take n).map (fun e => e.2)))) ∧
        (is_audio (listed_with_index pl 1 p.adaptations)[n].2 = false →
          is_video (listed_with_index pl 1 p.adaptations)[n].2 = false →
          (media_lines st'.m_ss)[n].type = "DATA")) ∧
      (∀ (i j : ℕ) (hi : i < (listed_with_index pl 1 p.adaptations).length)
          (hj : j < (listed_with_index pl 1 p.adaptations).length)
          (hMi : i < (media_lines st'.m_ss).length) (hMj : j < (media_lines st'.m_ss).length),
        i < j →
        (is_audio (listed_with_index pl 1 p.adaptations)[i].2 = true ∨
          is_video (listed_with_index pl 1 p.adaptations)[i].2 = true) →
        (is_audio (listed_with_index pl 1 p.adaptations)[j].2 = true ∨
          is_video (listed_with_index pl 1 p.adaptations)[j].2 = true) →
        (media_lines st'.m_ss)[i].group_id ≠ (media_lines st'.m_ss)[j].group_id) := by
  have hne2 : ∀ a ∈ p.adaptations, ∀ id ∈ a.repr_ids, ∀ r, pl.find id = some r →
      r.tracks ≠ [] := fun a ha id hid r hf => hne r (mem_listed_reprs ha hid hf)
  obtain ⟨st1, h1, s1, s2, s3, s4, M, s5, s6⟩ :=
    add_period_groups_spec p.adaptations (m3u8.generate_start (m3u8.init pl) p) hne2
  have hfp : m3u8.first_pass (m3u8.init pl) = some st1 := by
    unfold m3u8.first_pass
    rw [show (m3u8.init pl).m_playlist.periods.head? = some p from hp]
    exact h1
  have hM : media_lines st1.m_ss = M := by
    rw [s5]
    simp [m3u8.generate_start, m3u8.init, media_lines]
  have hok : media_ok pl.base_url 0 0 (listed_with_index pl 1 p.adaptations) M := s6
  rw [← hM] at hok
  obtain ⟨hlen, hpt⟩ := media_ok_pointwise _ _ _ _ _ hok
  refine ⟨st1, hfp, hlen, ?_, ?_⟩
  · intro n hL hMn
    obtain ⟨q1, q2, q3, q4, q5⟩ := hpt n hL hMn
    refine ⟨q1, q2, ?_, ?_, q5⟩
    · intro ha
      simpa using q3 ha
    · intro hv
      simpa using q4 hv
  · intro i j hi hj hMi hMj hij hti htj
    obtain ⟨_, _, a3, a4, _⟩ := hpt i hi hMi
    obtain ⟨_, _, b3, b4, _⟩ := hpt j hj hMj
    rcases hti with ha | hv
    · rcases htj with ha2 | hv2
      · rw [(a3 ha).2, (b3 ha2).2]
        intro heq
        have hnum := append_toString_injective "audio-" heq
        have hlt := countP_take_lt is_audio
          ((listed_with_index pl 1 p.adaptations).map (fun e => e.2)) i j hij
          (by simpa using hi) (by simpa using ha)
        rw [← List.map_take, ← List.map_take] at hlt
        simp only [audio_count] at hnum
        omega
      · rw [(a3 ha).2, (b4 hv2).2]
        exact audio_ne_video _ _
    · rcases htj with ha2 | hv2
      · rw [(a4 hv).2, (b3 ha2).2]
        exact fun h => audio_ne_video _ _ h.symm
      · rw [(a4 hv).2, (b4 hv2).2]
        intro heq
        have hnum := append_toString_injective "video-" heq
        have hlt := countP_take_lt is_video
          ((listed_with_index pl 1 p.adaptations).map (fun e => e.2)) i j hij
          (by simpa using hi) (by simpa using hv)
        rw [← List.map_take, ← List.map_take] at hlt
        simp only [video_count] at hnum
        omega

/-- C5, witness: scenario S2 (adaptations `v0, v1` and `a0`). -/
theorem C5_media_lines_witness :
    (sample_playlist_s2 4 [sample_period_s2]).periods.head? = some sample_period_s2 ∧
      (∀ r ∈ listed_reprs (sample_playlist_s2 4 [sample_period_s2]) sample_period_s2,
        r.tracks ≠ []) ∧
      ∃ st', m3u8.first_pass (m3u8.init (sample_playlist_s2 4 [sample_period_s2])) = some st' ∧
        (media_lines st'.m_ss).length =
          (listed_with_index (sample_playlist_s2 4 [sample_period_s2]) 1
            sample_period_s2.adaptations).length :=
  ⟨rfl, by decide,
    (C5_media_lines (sample_playlist_s2 4 [sample_period_s2]) sample_period_s2 rfl
      (by decide)).imp (fun _ h => ⟨h.1, h.2.1⟩)⟩

/-- C5, the example of the spec: scenario S2 gives three `#EXT-X-MEDIA` lines
with the group ids `video-0`, `video-1` and `audio-0`. -/
theorem C5_example_s2 :
    (m3u8.first_pass (m3u8.init (sample_playlist_s2 4 [sample_period_s2]))).map
      (fun st => media_lines st.m_ss) =
      some [{ type := "VIDEO", group_id := "video-0", name := "adaptation-1",
              uri := "http://h/playlist/v0" },
            { type := "VIDEO", group_id := "video-1", name := "adaptation-1",
              uri := "http://h/playlist/v1" },
            { type := "AUDIO", group_id := "audio-0", name := "adaptation-2",
              uri := "http://h/playlist/a0" }] := by
  decide

/-- C5, counterexample: the claim as stated fails. For an adaptation that lists
the audio representation `a0` and the text representation `t0`, the line of
`t0` has `TYPE=DATA`, neither AUDIO nor VIDEO, and repeats the group id
`audio-0` of the line before it; and when `t0` has no track-request,
`r.tracks.front()` is undefined and the first pass emits nothing. -/
theorem C5_counterexample :
    (m3u8.first_pass (m3u8.init (sample_playlist_text
        [{ track := sample_text_track, start_number := 0, duration_msec := 12000 }]))).map
      (fun st => media_lines st.m_ss) =
      some [{ type := "AUDIO", group_id := "audio-0", name := "adaptation-1",
              uri := "http://h/playlist/a0" },
            { type := "DATA", group_id := "audio-0", name := "adaptation-1",
              uri := "http://h/playlist/t0" }]
      ∧ m3u8.first_pass (m3u8.init (sample_playlist_text [])) = none := by
  refine ⟨by decide, ?_⟩
  have h : (m3u8.first_pass (m3u8.init (sample_playlist_text []))).isNone = true := by decide
  exact Option.isNone_iff_eq_none.1 h

/-! ## The periods after the first -/

theorem variant_body_with_periods (pl : playlist) (ps : List period) (r : representation)
    (ts : List track_request) :
    m3u8.variant_body (pl.with_periods ps) r ts = m3u8.variant_body pl r ts := by
  induction ts with
  | nil => rfl
  | cons t ts ih =>
    rw [m3u8.variant_body, m3u8.variant_body, ih]
    rfl

theorem add_representation_with_periods (st : m3u8) (ps : List period) (r : representation)
    (a v : String) :
    m3u8.add_representation (st.with_periods ps) r a v =
      (m3u8.add_representation st r a v).map (fun s => s.with_periods ps) := by
  unfold m3u8.add_representation m3u8.variant_of
  cases r.tracks.head? with
  | none => rfl
  | some trf =>
    simp only [m3u8.with_periods]
    rw [variant_body_with_periods]
    cases m3u8.variant_body st.m_playlist r r.tracks with
    | none => rfl
    | some b => rfl

theorem add_aset_video_loop_with_periods (ps : List period) (r : representation) (a : String)
    (vs : List String) (st : m3u8) :
    m3u8.add_aset_video_loop r a vs (st.with_periods ps) =
      (m3u8.add_aset_video_loop r a vs st).map (fun s => s.with_periods ps) := by
  induction vs generalizing st with
  | nil => rfl
  | cons v vs ih =>
    rw [m3u8.add_aset_video_loop, m3u8.add_aset_video_loop, add_representation_with_periods]
    cases m3u8.add_representation st r a v with
    | none => rfl
    | some st1 => exact ih st1

theorem add_aset_audio_loop_with_periods (ps : List period) (r : representation)
    (vgroups as : List String) (st : m3u8) :
    m3u8.add_aset_audio_loop r vgroups as (st.with_periods ps) =
      (m3u8.add_aset_audio_loop r vgroups as st).map (fun s => s.with_periods ps) := by
  induction as generalizing st with
  | nil => rfl
  | cons a as ih =>
    rw [m3u8.add_aset_audio_loop, m3u8.add_aset_audio_loop, add_aset_video_loop_with_periods]
    cases m3u8.add_aset_video_loop r a vgroups st with
    | none => rfl
    | some st1 => exact ih st1

theorem add_aset_loop_with_periods (ps : List period) (ids : List String) (st : m3u8) :
    m3u8.add_aset_loop ids (st.with_periods ps) =
      (m3u8.add_aset_loop ids st).map (fun s => s.with_periods ps) := by
  induction ids generalizing st with
  | nil => rfl
  | cons id ids ih =>
    rw [m3u8.add_aset_loop, m3u8.add_aset_loop]
    have hfind : (st.with_periods ps).m_playlist.find id = st.m_playlist.find id := rfl
    rw [hfind]
    cases st.m_playlist.find id with
    | none => exact ih st
    | some r =>
      have h := add_aset_audio_loop_with_periods ps r st.m_video_groups st.m_audio_groups st
      simp only
      have e1 : (st.with_periods ps).m_video_groups = st.m_video_groups := rfl
      have e2 : (st.with_periods ps).m_audio_groups = st.m_audio_groups := rfl
      rw [e1, e2, h]
      cases m3u8.add_aset_audio_loop r st.m_video_groups st.m_audio_groups st with
      | none => rfl
      | some st1 => exact ih st1

theorem add_aset_with_periods (ps : List period) (a : adaptation) (st : m3u8) :
    m3u8.add_aset (st.with_periods ps) a =
      (m3u8.add_aset st a).map (fun s => s.with_periods ps) := by
  unfold m3u8.add_aset
  exact add_aset_loop_with_periods ps a.repr_ids
    { st with
      m_audio_groups :=
        if st.m_audio_groups.isEmpty then st.m_audio_groups ++ ["none"] else st.m_audio_groups
      m_video_groups :=
        if st.m_video_groups.isEmpty then st.m_video_groups ++ ["none"] else st.m_video_groups }

theorem add_aset_groups_loop_with_periods (ps : List period) (name : String)
    (ids : List String) (gid : String) (st : m3u8) :
    m3u8.add_aset_groups_loop name ids gid (st.with_periods ps) =
      (m3u8.add_aset_groups_loop name ids gid st).map (fun s => s.with_periods ps) := by
  induction ids generalizing gid st with
  | nil => rfl
  | cons id ids ih =>
    rw [m3u8.add_aset_groups_loop, m3u8.add_aset_groups_loop]
    have hfind : (st.with_periods ps).m_playlist.find id = st.m_playlist.find id := rfl
    rw [hfind]
    cases st.m_playlist.find id with
    | none => exact ih gid st
    | some r =>
      simp only
      cases r.tracks.head? with
      | none => rfl
      | some trf =>
        exact ih (m3u8.add_aset_groups_step name gid st r trf).1
          (m3u8.add_aset_groups_step name gid st r trf).2

theorem add_period_groups_with_periods (ps : List period) (ads : List adaptation) (st : m3u8) :
    m3u8.add_period_groups ads (st.with_periods ps) =
      (m3u8.add_period_groups ads st).map (fun s => s.with_periods ps) := by
  induction ads generalizing st with
  | nil => rfl
  | cons a ads ih =>
    rw [m3u8.add_period_groups, m3u8.add_period_groups]
    unfold m3u8.add_aset_groups
    have e : (st.with_periods ps).m_adaptation_id = st.m_adaptation_id := rfl
    rw [e, add_aset_groups_loop_with_periods]
    cases m3u8.add_aset_groups_loop ("adaptation-" ++ toString st.m_adaptation_id)
        a.repr_ids "" st with
    | none => rfl
    | some st1 => exact ih { st1 with m_adaptation_id := st1.m_adaptation_id + 1 }

theorem add_period_asets_with_periods (ps : List period) (ads : List adaptation) (st : m3u8) :
    m3u8.add_period_asets ads (st.with_periods ps) =
      (m3u8.add_period_asets ads st).map (fun s => s.with_periods ps) := by
  induction ads generalizing st with
  | nil => rfl
  | cons a ads ih =>
    rw [m3u8.add_period_asets, m3u8.add_period_asets, add_aset_with_periods]
    cases m3u8.add_aset st a with
    | none => rfl
    | some st1 => exact ih st1

theorem add_period_with_periods (ps : List period) (p : period) (st : m3u8) :
    m3u8.add_period (st.with_periods ps) p =
      (m3u8.add_period st p).map (fun s => s.with_periods ps) := by
  unfold m3u8.add_period
  rw [add_period_groups_with_periods]
  cases m3u8.add_period_groups p.adaptations st with
  | none => rfl
  | some st1 => exact add_period_asets_with_periods ps p.adaptations st1

/-- C7 (amended): for every playlist with more than one period, `generate`
reports no error: it works on `periods.front()` alone and hands out the master
playlist and the variant playlists that it hands out for the playlist cut down
to its first period; the later periods are ignored. -/
theorem C7_later_periods_ignored (pl : playlist) (p q : period) (rest : List period) :
    (m3u8.generate (m3u8.init (pl.with_periods (p :: q :: rest)))).map m3u8.output =
      (m3u8.generate (m3u8.init (pl.with_periods [p]))).map m3u8.output := by
  have h1 : m3u8.generate (m3u8.init (pl.with_periods [p])) =
      m3u8.add_period (m3u8.generate_start (m3u8.init (pl.with_periods [p])) p) p := rfl
  have h2 : m3u8.generate (m3u8.init (pl.with_periods (p :: q :: rest))) =
      m3u8.add_period
        (m3u8.generate_start (m3u8.init (pl.with_periods (p :: q :: rest))) p) p := rfl
  have h3 : m3u8.generate_start (m3u8.init (pl.with_periods [p])) p =
      (m3u8.generate_start (m3u8.init (pl.with_periods (p :: q :: rest))) p).with_periods [p] :=
    rfl
  rw [h1, h2, h3, add_period_with_periods]
  cases m3u8.add_period
      (m3u8.generate_start (m3u8.init (pl.with_periods (p :: q :: rest))) p) p with
  | none => rfl
  | some st => rfl

/-- C7, counterexample: the claim as stated fails. For the playlist of scenario
S2 with two periods `generate` reports no error and produces a master playlist,
with the six `#EXT-X-STREAM-INF` lines of the first period. -/
theorem C7_counterexample :
    (sample_playlist_s2 4 [sample_period_s2, sample_period_s2]).periods.length = 2
      ∧ (m3u8.generate (m3u8.init
          (sample_playlist_s2 4 [sample_period_s2, sample_period_s2]))).isSome = true
      ∧ (m3u8.generate (m3u8.init
          (sample_playlist_s2 4 [sample_period_s2, sample_period_s2]))).map
          (fun st => (st.main_playlist.length, (stream_inf_lines st.main_playlist).length)) =
          some (17, 6) := by
  refine ⟨rfl, ?_, ?_⟩
  · decide!
  · decide!

/-! ## Codec strings -/

/-- C6, the example of the spec: `"avc3.640028"` gives `CODECS="avc1.640028"`
in the HLS master playlist and `codecs="avc3.640028"` in the MPD. -/
theorem C6_example_avc3 :
    (m3u8.stream_inf_of { sample_video_track with codec := "avc3.640028" } "none" "none").codecs
        = "avc1.640028"
      ∧ (mpd.representation_element (sample_playlist 4 [])  (sample_repr [])
          { track := { sample_video_track with codec := "avc3.640028" }, start_number := 0,
            duration_msec := 12000 }).attrs.lookup "codecs" = some "avc3.640028" := by
  constructor
  · decide
  · decide

/-! ## Frame rate -/

/-- C8: the code does not do what the claim says. For `fps_num = 60` and
`fps_denum = 2` the reduced frame rate is 30/1 and the claim asks for the text
`"30"`; `add_representation` tests the reduced denominator but writes the
unreduced `track.video.fps_num`, the text `"60"`. For 50/4 it writes
`"50/4"` where the claim asks for `"25/2"`. -/
theorem C8_frame_rate_unreduced :
    mpd.frame_rate { width := 1280, height := 720, fps_num := 60, fps_denum := 2,
                     sar_w := 1, sar_h := 1 } = "60"
      ∧ spec_frame_rate 60 2 = "30"
      ∧ mpd.frame_rate { width := 1280, height := 720, fps_num := 50, fps_denum := 4,
                         sar_w := 1, sar_h := 1 } = "50/4"
      ∧ spec_frame_rate 50 4 = "25/2"
      ∧ mpd.frame_rate { width := 1280, height := 720, fps_num := 30, fps_denum := 1,
                         sar_w := 1, sar_h := 1 } = "30" := by
  refine ⟨?_, ?_, ?_, ?_, ?_⟩ <;> decide!

/-! ## SegmentTemplate -/

/-- C10, the example of the spec: timescale 15360 and 4 s chunks give the
`SegmentTemplate` of `v0` with `duration = 61440`. -/
theorem C10_example_s1 :
    (mpd.add_segment (sample_playlist 4 [sample_request 0 12000])
      (sample_repr [sample_request 0 12000]) sample_video_track).attrs =
      [("timescale", "15360"), ("duration", "61440"), ("initialization", "init/v0"),
       ("startNumber", "0"), ("media", "play/v0/$Number$")] := by
  decide

/-! ## Rounding and integers -/

/-- Rounding does not cross an integer: for `|y| < 2^prec`, an integer below
`y` stays below the rounded value and an integer above `y` stays above it. -/
theorem roundBinary_int_bounds (prec : ℕ) (emin : ℤ) (hp : 1 ≤ prec)
    (hemin : emin ≤ (prec : ℤ) - 1) (y : ℚ) (hy : |y| < pow2 (prec : ℤ)) (T : ℤ) :
    ((T : ℚ) ≤ y → (T : ℚ) ≤ roundBinary prec emin y) ∧
      (y ≤ (T : ℚ) → roundBinary prec emin y ≤ (T : ℚ)) := by
  by_cases hy0 : y = 0
  · subst hy0
    simp [roundBinary]
  · rw [roundBinary_eq prec emin y hy0]
    have hb := binade_lt hy0 hy
    have hcast : ((prec - 1 : ℕ) : ℤ) = (prec : ℤ) - 1 := by omega
    set e := max (binade y) emin - ((prec - 1 : ℕ) : ℤ) with he
    have he0 : e ≤ 0 := by
      have : max (binade y) emin ≤ (prec : ℤ) - 1 := max_le (by omega) hemin
      omega
    set u := pow2 e with hu
    have hup : 0 < u := pow2_pos _
    have hone : pow2 (-e) * u = 1 := by
      rw [hu, ← pow2_add, ← pow2_zero]; congr 1; ring
    have hnat : pow2 (-e) = (((2 : ℤ) ^ (-e).toNat : ℤ) : ℚ) := by
      have : -e = (((-e).toNat : ℕ) : ℤ) := (Int.toNat_of_nonneg (by omega)).symm
      conv_lhs => rw [this]
      rw [pow2_natCast]
      push_cast
      rfl
    set g : ℤ := (2 : ℤ) ^ (-e).toNat with hg
    have hTu : (T : ℚ) = ((T * g : ℤ) : ℚ) * u := by
      push_cast
      rw [← hnat, mul_assoc, hone, mul_one]
    constructor
    · intro h
      have h1 : ((T * g : ℤ) : ℚ) ≤ y / u := by
        rw [le_div_iff₀ hup, ← hTu]; exact h
      have h2 := le_roundHalfEven h1
      have h3 : ((T * g : ℤ) : ℚ) ≤ (roundHalfEven (y / u) : ℚ) := by exact_mod_cast h2
      calc (T : ℚ) = ((T * g : ℤ) : ℚ) * u := hTu
        _ ≤ (roundHalfEven (y / u) : ℚ) * u := mul_le_mul_of_nonneg_right h3 (le_of_lt hup)
    · intro h
      have h1 : y / u ≤ ((T * g : ℤ) : ℚ) := by
        rw [div_le_iff₀ hup, ← hTu]; exact h
      have h2 := roundHalfEven_le h1
      have h3 : (roundHalfEven (y / u) : ℚ) ≤ ((T * g : ℤ) : ℚ) := by exact_mod_cast h2
      calc (roundHalfEven (y / u) : ℚ) * u ≤ ((T * g : ℤ) : ℚ) * u :=
            mul_le_mul_of_nonneg_right h3 (le_of_lt hup)
        _ = (T : ℚ) := hTu.symm

theorem f32_ge_int (y : ℚ) (hy : |y| < 16777216) (T : ℤ) (h : (T : ℚ) ≤ y) :
    (T : ℚ) ≤ f32 y := by
  have p24 : pow2 ((24 : ℕ) : ℤ) = 16777216 := by rw [pow2_eq]; norm_num
  exact (roundBinary_int_bounds 24 (-126) (by norm_num) (by norm_num) y (by rw [p24]; exact hy)
    T).1 h

theorem f32_le_int (y : ℚ) (hy : |y| < 16777216) (T : ℤ) (h : y ≤ (T : ℚ)) :
    f32 y ≤ (T : ℚ) := by
  have p24 : pow2 ((24 : ℕ) : ℤ) = 16777216 := by rw [pow2_eq]; norm_num
  exact (roundBinary_int_bounds 24 (-126) (by norm_num) (by norm_num) y (by rw [p24]; exact hy)
    T).2 h

theorem f64_ge_int (y : ℚ) (hy : |y| < 16777216) (T : ℤ) (h : (T : ℚ) ≤ y) :
    (T : ℚ) ≤ f64 y := by
  have p53 : (16777216 : ℚ) ≤ pow2 ((53 : ℕ) : ℤ) := by rw [pow2_eq]; norm_num
  exact (roundBinary_int_bounds 53 (-1022) (by norm_num) (by norm_num) y
    (lt_of_lt_of_le hy p53) T).1 h

theorem roundHalfEven_eq_of_near (z : ℚ) (n : ℤ) (h : |z - (n : ℚ)| < 1 / 2) :
    roundHalfEven z = n := by
  rw [abs_lt] at h
  have e1 := roundHalfEven_error z
  rw [abs_le] at e1
  have lo : ((n : ℚ) - 1) < (roundHalfEven z : ℚ) := by linarith
  have hi : (roundHalfEven z : ℚ) < (n : ℚ) + 1 := by linarith
  have lo2 : n - 1 < roundHalfEven z := by exact_mod_cast lo
  have hi2 : roundHalfEven z < n + 1 := by exact_mod_cast hi
  omega

theorem float_to_int_of_floor (z : ℚ) (n : ℤ) (h0 : 0 ≤ n) (hn : n ≤ 2147483647)
    (h1 : (n : ℚ) ≤ z) (h2 : z < (n : ℚ) + 1) : float_to_int z = some n := by
  unfold float_to_int
  have hz : (0 : ℚ) ≤ z := le_trans (by exact_mod_cast h0) h1
  have hf : ⌊z⌋ = n := Int.floor_eq_iff.2 ⟨h1, h2⟩
  simp only [hz, if_true, hf]
  rw [if_pos ⟨by omega, hn⟩]

/-! ## Length of decimal numbers -/

theorem toDigitsCore_length (fuel n : ℕ) (ds : List Char) (k : ℕ) (hn : n < 10 ^ (k + 1))
    (hf : n < fuel) : (Nat.toDigitsCore 10 fuel n ds).length ≤ ds.length + k + 1 := by
  induction fuel generalizing n ds k with
  | zero => omega
  | succ fuel ih =>
    rw [toDigitsCore_succ]
    split
    · simp only [List.length_cons]
      omega
    · rename_i h0
      cases k with
      | zero =>
        exfalso
        apply h0
        have : n < 10 := by simpa using hn
        omega
      | succ k =>
        have hn2 : n / 10 < 10 ^ (k + 1) := by
          rw [pow_succ] at hn
          omega
        have := ih (n / 10) (Nat.digitChar (n % 10) :: ds) k hn2 (by omega)
        simp only [List.length_cons] at this
        omega

theorem toString_nat_length (n k : ℕ) (hn : n < 10 ^ (k + 1)) :
    (toString n).length ≤ k + 1 := by
  have h := toDigitsCore_length (n + 1) n [] k hn (Nat.lt_succ_self n)
  simpa using h

theorem pad3_length (n : ℕ) (hn : n < 1000) : (pad3 n).length ≤ 3 := by
  unfold pad3
  split
  · rename_i h
    have := toString_nat_length n 0 (by simpa using h)
    rw [String.length_append]
    have e : "00".length = 2 := rfl
    omega
  · split
    · rename_i h
      have := toString_nat_length n 1 (by simpa using h)
      rw [String.length_append]
      have e : "0".length = 1 := rfl
      omega
    · exact toString_nat_length n 2 (by simpa using hn)

/-! ## `print_time` -/

theorem toString_natCast_int (n : ℕ) : toString ((n : ℕ) : ℤ) = toString n := rfl

theorem f32_3600 : f32 3600 = 3600 := by decide!

theorem f32_60 : f32 60 = 60 := by decide!

/-- The hours of `print_time`: `int h = sec / 3600`. -/
theorem print_time_hours (sec : ℚ) (H : ℤ) (hH0 : 0 ≤ H) (hH4 : H ≤ 4)
    (h1 : 3600 * (H : ℚ) ≤ sec)
    (h2 : sec ≤ 3600 * ((H : ℚ) + 1) - 1 / 1000 + 1 / 2048 + 1 / 1099511627776)
    (h3 : sec ≤ 16385) :
    float_to_int (f32 (sec / f32 3600)) = some H := by
  have p23 : pow2 (2 - 25) = 1 / 8388608 := by rw [pow2_eq]; norm_num
  have p22 : pow2 (3 - 25) = 1 / 4194304 := by rw [pow2_eq]; norm_num
  have q2 : pow2 2 = 4 := by rw [pow2_eq]; norm_num
  have q3 : pow2 3 = 8 := by rw [pow2_eq]; norm_num
  have hHq0 : (0 : ℚ) ≤ (H : ℚ) := by exact_mod_cast hH0
  have hz1 : sec = 3600 * (sec / 3600) := by ring
  generalize sec / 3600 = z1 at hz1
  rw [f32_3600]
  have hz : sec / 3600 = z1 := by rw [hz1]; field_simp
  rw [hz]
  have hz1ge : (H : ℚ) ≤ z1 := by linarith
  have hz1abs : |z1| < 16777216 := by rw [abs_of_nonneg (by linarith)]; linarith
  have hfz1ge : (H : ℚ) ≤ f32 z1 := f32_ge_int z1 hz1abs H hz1ge
  have hfz1lt : f32 z1 < (H : ℚ) + 1 := by
    rcases (by omega : H ≤ 3 ∨ H = 4) with h3 | h4
    · have h3q : (H : ℚ) ≤ 3 := by exact_mod_cast h3
      have herr : |f32 z1 - z1| ≤ 1 / 8388608 := by
        rw [← p23]
        apply f32_error_lt z1 2 (by norm_num)
        rw [q2, abs_of_nonneg (by linarith)]
        linarith
      rw [abs_le] at herr
      linarith
    · have h4q : (H : ℚ) = 4 := by exact_mod_cast h4
      have herr : |f32 z1 - z1| ≤ 1 / 4194304 := by
        rw [← p22]
        apply f32_error_lt z1 3 (by norm_num)
        rw [q3, abs_of_nonneg (by linarith)]
        linarith
      rw [abs_le] at herr
      linarith
  exact float_to_int_of_floor _ H hH0 (by omega) hfz1ge hfz1lt

/-- The minutes of `print_time`: `int m = (sec - h * 3600) / 60`. -/
theorem print_time_minutes (t : ℚ) (M : ℤ) (hM0 : 0 ≤ M) (hM59 : M ≤ 59)
    (h1 : 60 * (M : ℚ) ≤ t)
    (h2 : t ≤ 60 * ((M : ℚ) + 1) - 1 / 1000 + 1 / 2048 + 1 / 1099511627776) :
    float_to_int (f32 (t / f32 60)) = some M := by
  have p19 : pow2 (6 - 25) = 1 / 524288 := by rw [pow2_eq]; norm_num
  have q6 : pow2 6 = 64 := by rw [pow2_eq]; norm_num
  have hMq0 : (0 : ℚ) ≤ (M : ℚ) := by exact_mod_cast hM0
  have hMq59 : (M : ℚ) ≤ 59 := by exact_mod_cast hM59
  have hz2 : t = 60 * (t / 60) := by ring
  generalize t / 60 = z2 at hz2
  rw [f32_60]
  have hz : t / 60 = z2 := by rw [hz2]; field_simp
  rw [hz]
  have hz2ge : (M : ℚ) ≤ z2 := by linarith
  have hz2abs : |z2| < 16777216 := by rw [abs_of_nonneg (by linarith)]; linarith
  have hfz2ge : (M : ℚ) ≤ f32 z2 := f32_ge_int z2 hz2abs M hz2ge
  have hfz2lt : f32 z2 < (M : ℚ) + 1 := by
    have herr : |f32 z2 - z2| ≤ 1 / 524288 := by
      rw [← p19]
      apply f32_error_lt z2 6 (by norm_num)
      rw [q6, abs_of_nonneg (by linarith)]
      linarith
    rw [abs_le] at herr
    linarith
  exact float_to_int_of_floor _ M hM0 (by omega) hfz2ge hfz2lt

/-- The `float` seconds `sec` of `print_time` for `x = ms / 1000` below 16384:
they are within `2^-11 + 2^-40` of `x`, not below an integer `T ≤ x`, and the
subtraction of such a `T` is exact. -/
theorem print_time_sec (x : ℚ) (hx0 : 1 / 1000 ≤ x) (hx1 : x ≤ 16383999 / 1000) :
    |f32 (f64 x) - x| ≤ 1 / 2048 + 1 / 1099511627776 ∧
      ∀ T : ℤ, 0 ≤ T → (T : ℚ) ≤ x →
        (T : ℚ) ≤ f32 (f64 x) ∧ f32 (f32 (f64 x) - (T : ℚ)) = f32 (f64 x) - (T : ℚ) := by
  have p14 : pow2 14 = 16384 := by rw [pow2_eq]; norm_num
  have p24 : pow2 24 = 16777216 := by rw [pow2_eq]; norm_num
  have p40 : pow2 (14 - 54) = 1 / 1099511627776 := by rw [pow2_eq]; norm_num
  have p11 : pow2 (14 - 25) = 1 / 2048 := by rw [pow2_eq]; norm_num
  have p126 : pow2 (-126) ≤ 1 / 2048 := by
    have := @pow2_le (-126) (-11) (by norm_num)
    have e : pow2 (-11) = 1 / 2048 := by rw [pow2_eq]; norm_num
    linarith
  have hyx : |f64 x - x| ≤ 1 / 1099511627776 := by
    rw [← p40]
    apply f64_error_lt x 14 (by norm_num)
    rw [p14, abs_of_nonneg (by linarith)]
    linarith
  have hxabs : |x| < 16777216 := by rw [abs_of_nonneg (by linarith)]; linarith
  have hge : ∀ T : ℤ, (T : ℚ) ≤ x → (T : ℚ) ≤ f64 x := fun T h => f64_ge_int x hxabs T h
  generalize f64 x = y at hyx hge ⊢
  rw [abs_le] at hyx
  have hy0 : 0 ≤ y := by linarith
  have hsy : |f32 y - y| ≤ 1 / 2048 := by
    rw [← p11]
    apply f32_error_lt y 14 (by norm_num)
    rw [p14, abs_of_nonneg hy0]
    linarith
  have hyabs : |y| < 16777216 := by rw [abs_of_nonneg hy0]; linarith
  have hylo : pow2 (-126) ≤ y := by linarith
  have hyhi : y < pow2 24 := by rw [p24]; linarith
  refine ⟨?_, ?_⟩
  · rw [abs_le] at hsy ⊢
    constructor <;> linarith
  · intro T hT0 hTx
    have hTy : (T : ℚ) ≤ y := hge T hTx
    exact ⟨f32_ge_int y hyabs T hTy, f32_sub_exact y T hT0 hTy hylo hyhi⟩
theorem print_time_numeric (ms : ℕ) (h1 : 1 ≤ ms) (h2 : ms < 16384000) :
    float_to_int (f32 (f32 (f64 (f32 ((ms : ℤ) : ℚ) / 1000)) / f32 3600)) =
        some ((ms / 3600000 : ℕ) : ℤ) ∧
      float_to_int (f32 (f32 (f32 (f64 (f32 ((ms : ℤ) : ℚ) / 1000)) -
          f32 ((wrap32 (((ms / 3600000 : ℕ) : ℤ) * 3600) : ℤ) : ℚ)) / f32 60)) =
        some ((ms / 60000 % 60 : ℕ) : ℤ) ∧
      0 ≤ f32 (f32 (f32 (f64 (f32 ((ms : ℤ) : ℚ) / 1000)) -
          f32 ((wrap32 (((ms / 3600000 : ℕ) : ℤ) * 3600) : ℤ) : ℚ)) -
          f32 ((wrap32 (((ms / 60000 % 60 : ℕ) : ℤ) * 60) : ℤ) : ℚ)) ∧
      roundHalfEven (f32 (f32 (f32 (f64 (f32 ((ms : ℤ) : ℚ) / 1000)) -
          f32 ((wrap32 (((ms / 3600000 : ℕ) : ℤ) * 3600) : ℤ) : ℚ)) -
          f32 ((wrap32 (((ms / 60000 % 60 : ℕ) : ℤ) * 60) : ℤ) : ℚ)) * 1000) =
        ((ms % 60000 : ℕ) : ℤ) := by
  -- the exact quantities
  obtain ⟨H, hH⟩ : ∃ H : ℤ, H = ((ms / 3600000 : ℕ) : ℤ) := ⟨_, rfl⟩
  obtain ⟨M, hM⟩ : ∃ M : ℤ, M = ((ms / 60000 % 60 : ℕ) : ℤ) := ⟨_, rfl⟩
  obtain ⟨R, hR⟩ : ∃ R : ℤ, R = ((ms % 60000 : ℕ) : ℤ) := ⟨_, rfl⟩
  rw [← hH, ← hM, ← hR]
  have hH0 : 0 ≤ H := by omega
  have hH4 : H ≤ 4 := by omega
  have hM0 : 0 ≤ M := by omega
  have hM59 : M ≤ 59 := by omega
  have hR0 : 0 ≤ R := by omega
  have hR1 : R ≤ 59999 := by omega
  have hdec : (ms : ℤ) = 1000 * (3600 * H + 60 * M) + R := by omega
  have hfms : f32 ((ms : ℤ) : ℚ) = ((ms : ℤ) : ℚ) :=
    f32_intCast _ (by rw [abs_of_nonneg (by omega)]; omega)
  have hms1 : (1 : ℚ) ≤ ((ms : ℤ) : ℚ) := by exact_mod_cast h1
  have hms2 : ((ms : ℤ) : ℚ) ≤ 16383999 := by
    have : ms ≤ 16383999 := by omega
    exact_mod_cast this
  have hmsq : ((ms : ℤ) : ℚ) = 1000 * (3600 * (H : ℚ) + 60 * (M : ℚ)) + (R : ℚ) := by
    exact_mod_cast hdec
  rw [hfms]
  clear hfms hdec hH hM hR h1 h2
  have hHq0 : (0 : ℚ) ≤ (H : ℚ) := by exact_mod_cast hH0
  have hMq0 : (0 : ℚ) ≤ (M : ℚ) := by exact_mod_cast hM0
  have hMq59 : (M : ℚ) ≤ 59 := by exact_mod_cast hM59
  have hRq0 : (0 : ℚ) ≤ (R : ℚ) := by exact_mod_cast hR0
  have hRq1 : (R : ℚ) ≤ 59999 := by exact_mod_cast hR1
  have hxdec : ((ms : ℤ) : ℚ) / 1000 = 3600 * (H : ℚ) + 60 * (M : ℚ) + (R : ℚ) / 1000 := by
    rw [hmsq]; ring
  have hx0 : 1 / 1000 ≤ ((ms : ℤ) : ℚ) / 1000 := by linarith only [hms1]
  have hx1 : ((ms : ℤ) : ℚ) / 1000 ≤ 16383999 / 1000 := by linarith only [hms2]
  obtain ⟨herr, hT⟩ := print_time_sec (((ms : ℤ) : ℚ) / 1000) hx0 hx1
  generalize f32 (f64 (((ms : ℤ) : ℚ) / 1000)) = sec at herr hT ⊢
  rw [hxdec] at herr hT hx1
  clear hxdec hx0 hmsq hms1 hms2
  rw [abs_le] at herr
  obtain ⟨g1, e1⟩ := hT (3600 * H) (by omega)
    (by push_cast; linarith only [hMq0, hRq0])
  obtain ⟨g2, e2⟩ := hT (3600 * H + 60 * M) (by omega)
    (by push_cast; linarith only [hRq0])
  clear hT
  push_cast at g1 g2
  have hw1 : wrap32 (H * 3600) = 3600 * H := by
    rw [wrap32_of_range (by omega) (by omega)]; ring
  have hw2 : wrap32 (M * 60) = 60 * M := by
    rw [wrap32_of_range (by omega) (by omega)]; ring
  have hf1 : f32 ((3600 * H : ℤ) : ℚ) = ((3600 * H : ℤ) : ℚ) :=
    f32_intCast _ (by rw [abs_of_nonneg (by omega)]; omega)
  have hf2 : f32 ((60 * M : ℤ) : ℚ) = ((60 * M : ℤ) : ℚ) :=
    f32_intCast _ (by rw [abs_of_nonneg (by omega)]; omega)
  rw [hw1, hw2, hf1, hf2, e1]
  have hs : f32 (sec - ((3600 * H : ℤ) : ℚ) - ((60 * M : ℤ) : ℚ)) =
      sec - (3600 * (H : ℚ) + 60 * (M : ℚ)) := by
    have e : sec - ((3600 * H : ℤ) : ℚ) - ((60 * M : ℤ) : ℚ) =
        sec - ((3600 * H + 60 * M : ℤ) : ℚ) := by push_cast; ring
    rw [e, e2]
    push_cast
    ring
  rw [hs]
  refine ⟨?_, ?_, ?_, ?_⟩
  · exact print_time_hours sec H hH0 hH4 g1
      (by linarith only [herr.2, hMq59, hRq1]) (by linarith only [herr.2, hx1])
  · apply print_time_minutes _ M hM0 hM59
    · push_cast; linarith only [g2]
    · push_cast; linarith only [herr.2, hRq1]
  · linarith only [g2]
  · apply roundHalfEven_eq_of_near
    rw [abs_lt]
    constructor
    · linarith only [herr.1]
    · linarith only [herr.2]

theorem spec_print_time_length (ms : ℕ) (h : ms < 16384000) :
    (spec_print_time ms).length ≤ 35 := by
  unfold spec_print_time
  have l1 := toString_nat_length (ms / 3600000) 0 (by norm_num; omega)
  have l2 := toString_nat_length (ms / 60000 % 60) 1 (by norm_num; omega)
  have l3 := toString_nat_length (ms % 60000 / 1000) 1 (by norm_num; omega)
  have l4 := pad3_length (ms % 1000) (by omega)
  simp only [String.length_append]
  have e1 : "PT".length = 2 := rfl
  have e2 : "H".length = 1 := rfl
  have e3 : "M".length = 1 := rfl
  have e4 : ".".length = 1 := rfl
  have e5 : "S".length = 1 := rfl
  omega

theorem print_time_spec (ms : ℕ) (h1 : 1 ≤ ms) (h2 : ms < 16384000) :
    mpd.print_time (ms : ℤ) = some (spec_print_time ms) := by
  obtain ⟨n1, n2, n3, n4⟩ := print_time_numeric ms h1 h2
  unfold mpd.print_time
  simp only [n1, n2]
  generalize f32 (f32 (f32 (f64 (f32 ((ms : ℤ) : ℚ) / 1000)) -
    f32 ((wrap32 (((ms / 3600000 : ℕ) : ℤ) * 3600) : ℤ) : ℚ)) -
    f32 ((wrap32 (((ms / 60000 % 60 : ℕ) : ℤ) * 60) : ℤ) : ℚ)) = s at n3 n4 ⊢
  have hfmt : fmt_3f s = toString (ms % 60000 / 1000) ++ "." ++ pad3 (ms % 1000) := by
    unfold fmt_3f
    simp only [abs_of_nonneg n3, n4, Int.toNat_ofNat, not_lt.2 n3, if_false]
    have hm : ms % 60000 % 1000 = ms % 1000 := Nat.mod_mod_of_dvd ms (by norm_num)
    rw [hm]
    apply String.ext
    simp [String.data_append]
  have hstr : "PT" ++ toString ((ms / 3600000 : ℕ) : ℤ) ++ "H" ++
      toString ((ms / 60000 % 60 : ℕ) : ℤ) ++ "M" ++ fmt_3f s ++ "S" = spec_print_time ms := by
    rw [hfmt, toString_natCast_int, toString_natCast_int]
    unfold spec_print_time
    apply String.ext
    simp [String.data_append]
  rw [hstr]
  have hlen := spec_print_time_length ms h2
  congr 1
  apply String.ext
  exact List.take_of_length_le hlen

/-- C9 (amended): for every `0 ≤ duration_msec ≤ 16384000` (up to 2^14
seconds), `print_time` returns `"PT<H>H<M>M<S>S"` where
`H = floor(duration_msec / 3600000)`, `M = floor(duration_msec / 60000) mod 60`
and `S` is the remaining `(duration_msec mod 60000) / 1000` seconds printed with
exactly three fractional digits. -/
theorem C9_print_time (ms : ℕ) (h : ms ≤ 16384000) :
    mpd.print_time (ms : ℤ) = some (spec_print_time ms) := by
  rcases (by omega : ms = 0 ∨ ms = 16384000 ∨ (1 ≤ ms ∧ ms < 16384000)) with h0 | h1 | ⟨h1, h2⟩
  · subst h0
    decide!
  · subst h1
    decide!
  · exact print_time_spec ms h1 h2

/-- C9, witness: 12000 ms gives `PT0H0M12.000S`. -/
theorem C9_print_time_witness :
    12000 ≤ 16384000 ∧ mpd.print_time ((12000 : ℕ) : ℤ) = some (spec_print_time 12000) ∧
      spec_print_time 12000 = "PT0H0M12.000S" :=
  ⟨by decide, C9_print_time 12000 (by decide), by decide⟩

/-- C9, counterexample: the claim as stated fails. For 17999999 ms the claim
asks for `PT4H59M59.999S`; the `float` conversion of 17999999 is 18000000 and
`print_time` returns `PT5H0M0.000S`. For 16384001 ms, the first value beyond
the amended range, it returns `PT4H33M4.002S` where the claim asks for
`PT4H33M4.001S`. -/
theorem C9_counterexample :
    mpd.print_time 17999999 = some "PT5H0M0.000S"
      ∧ spec_print_time 17999999 = "PT4H59M59.999S"
      ∧ mpd.print_time 16384001 = some "PT4H33M4.002S"
      ∧ spec_print_time 16384001 = "PT4H33M4.001S" := by
  refine ⟨?_, ?_, ?_, ?_⟩ <;> decide!

/-! ## Segment requests (`server.cpp`) -/

theorem wrapU64_of_range {x : ℤ} (h1 : 0 ≤ x) (h2 : x < 18446744073709551616) :
    wrapU64 x = x := by
  unfold wrapU64
  omega

theorem wrapU64_sub (a b : ℤ) : wrapU64 (wrapU64 a - wrapU64 b) = wrapU64 (a - b) := by
  unfold wrapU64
  omega

theorem vector_at_zero {α : Type} (v : List α) : vector_at v 0 = v.head? := by
  cases v <;> simp [vector_at]

theorem vector_at_of_lt {α : Type} (v : List α) (pos : ℤ) (h0 : 0 ≤ pos)
    (h1 : pos < v.length) : ∃ x, v[pos.toNat]? = some x ∧ vector_at v pos = some x := by
  have hlt : pos.toNat < v.length := by omega
  refine ⟨v[pos.toNat], List.getElem?_eq_getElem hlt, ?_⟩
  unfold vector_at
  rw [if_pos h0, List.getElem?_eq_getElem hlt]

theorem dtime_start_eq (track : track) (time : ℤ) (h0 : 0 ≤ time)
    (h1 : time * track.timescale < 2 ^ 64) :
    on_dash_stream_base.dtime_start track time = time * track.timescale := by
  unfold on_dash_stream_base.dtime_start
  exact wrapU64_of_range (mul_nonneg h0 (Int.natCast_nonneg _)) (by simpa using h1)

theorem dtime_end_eq (track : track) (time : ℤ) (h0 : 0 ≤ time) (h1 : time ≤ 2147483637)
    (h2 : (time + 10) * track.timescale < 2 ^ 64) :
    on_dash_stream_base.dtime_end track time = (time + 10) * track.timescale := by
  have hw : wrapU64 (wrap32 (time + 10)) = time + 10 := by
    rw [wrap32_of_range (by omega) (by omega)]
    exact wrapU64_of_range (by omega) (by omega)
  unfold on_dash_stream_base.dtime_end
  simp only [hw]
  exact wrapU64_of_range (mul_nonneg (by omega) (Int.natCast_nonneg _)) (by simpa using h2)

theorem pos_end_valid (search : track → ℤ → ℤ) (track : track) (time : ℤ)
    (hvalid : ∀ t, search track t < track.samples.length) (hne : 0 < track.samples.length) :
    0 ≤ on_dash_stream_base.pos_end search track time ∧
      on_dash_stream_base.pos_end search track time < track.samples.length := by
  unfold on_dash_stream_base.pos_end
  have hv := hvalid (on_dash_stream_base.dtime_end track time)
  by_cases h : search track (on_dash_stream_base.dtime_end track time) < 0
  · simp only [h, if_true]
    omega
  · simp only [h, if_false]
    omega

/-- The run of `request_track_data` whose start search fails: the search and
the `close`, nothing else. -/
theorem request_track_data_not_found (search : track → ℤ → ℤ) (m_media : media)
    (track : track) (key : String) (time : ℤ) (htrack : m_media.tracks.head? = some track)
    (hneg : search track (on_dash_stream_base.dtime_start track time) < 0) :
    on_dash_stream_base.request_track_data search m_media key time =
      some [Event.search (on_dash_stream_base.dtime_start track time),
        Event.close (wrap32 (search track (on_dash_stream_base.dtime_start track time)))] := by
  unfold on_dash_stream_base.request_track_data
  rw [vector_at_zero, htrack]
  simp only [hneg, if_true]

/-- The run of `request_track_data` whose start search succeeds, for a search
that returns a negative value or an index of `track.samples`. -/
theorem request_track_data_found (search : track → ℤ → ℤ) (m_media : media)
    (track : track) (key : String) (time : ℤ) (htrack : m_media.tracks.head? = some track)
    (hvalid : ∀ t, search track t < track.samples.length)
    (hstart : 0 ≤ search track (on_dash_stream_base.dtime_start track time)) :
    ∃ s_start s_end : sample,
      track.samples[(search track (on_dash_stream_base.dtime_start track time)).toNat]? =
        some s_start ∧
      track.samples[(on_dash_stream_base.pos_end search track time).toNat]? = some s_end ∧
      on_dash_stream_base.request_track_data search m_media key time =
        some [Event.search (on_dash_stream_base.dtime_start track time),
          Event.search (on_dash_stream_base.dtime_end track time),
          Event.sample (search track (on_dash_stream_base.dtime_start track time)),
          Event.sample (on_dash_stream_base.pos_end search track time),
          Event.sample (on_dash_stream_base.pos_end search track time),
          Event.read_data key (wrapU64 s_start.offset)
            (wrapU64 (wrapU64 (s_end.offset + s_end.length) - wrapU64 s_start.offset))
            (on_dash_stream_base.options search track time)] := by
  have hs := hvalid (on_dash_stream_base.dtime_start track time)
  have hne : 0 < track.samples.length := by omega
  obtain ⟨hpe0, hpe1⟩ := pos_end_valid search track time hvalid hne
  obtain ⟨s_start, hs1, hs2⟩ := vector_at_of_lt track.samples _ hstart hs
  obtain ⟨s_end, he1, he2⟩ := vector_at_of_lt track.samples _ hpe0 hpe1
  refine ⟨s_start, s_end, hs1, he1, ?_⟩
  unfold on_dash_stream_base.request_track_data
  rw [vector_at_zero, htrack]
  simp only [not_lt.mpr hstart, if_false, hs2, he2]

/-- Every defined run of `request_track_data` is one of two lists of events. -/
theorem request_track_data_events (search : track → ℤ → ℤ) (m_media : media)
    (track : track) (key : String) (time : ℤ) (htrack : m_media.tracks.head? = some track)
    (evs : List Event)
    (hrun : on_dash_stream_base.request_track_data search m_media key time = some evs) :
    evs = [Event.search (on_dash_stream_base.dtime_start track time),
        Event.close (wrap32 (search track (on_dash_stream_base.dtime_start track time)))] ∨
      ∃ offset size : ℤ,
        evs = [Event.search (on_dash_stream_base.dtime_start track time),
          Event.search (on_dash_stream_base.dtime_end track time),
          Event.sample (search track (on_dash_stream_base.dtime_start track time)),
          Event.sample (on_dash_stream_base.pos_end search track time),
          Event.sample (on_dash_stream_base.pos_end search track time),
          Event.read_data key offset size (on_dash_stream_base.options search track time)] := by
  by_cases hneg : search track (on_dash_stream_base.dtime_start track time) < 0
  · left
    rw [request_track_data_not_found search m_media track key time htrack hneg] at hrun
    exact (Option.some.inj hrun).symm
  · right
    unfold on_dash_stream_base.request_track_data at hrun
    rw [vector_at_zero, htrack] at hrun
    simp only [hneg, if_false] at hrun
    cases h1 : vector_at track.samples (search track (on_dash_stream_base.dtime_start track time))
      with
    | none => simp [h1] at hrun
    | some s_start =>
      cases h2 : vector_at track.samples (on_dash_stream_base.pos_end search track time) with
      | none => simp [h1, h2] at hrun
      | some s_end =>
        simp only [h1, h2] at hrun
        exact ⟨_, _, (Option.some.inj hrun).symm⟩

/-- The callback `on_read_samples` reads no sample, issues no blob read, and
invokes the writer at most once, with the options bound to it. -/
theorem on_read_samples_events
    (create : track → writer_options → List UInt8 → ℤ × List UInt8) (m_media : media)
    (opt : writer_options) (result : read_result) (after : List Event)
    (hrun : on_dash_stream_base.on_read_samples create m_media opt result = some after) :
    sample_reads after = [] ∧ blob_reads after = [] ∧
      (writer_calls after = [] ∨ writer_calls after = [opt]) := by
  unfold on_dash_stream_base.on_read_samples at hrun
  by_cases herr : result.error ≠ 0
  · rw [if_pos herr] at hrun
    rw [← Option.some.inj hrun]
    exact ⟨rfl, rfl, Or.inl rfl⟩
  · rw [if_neg herr] at hrun
    cases ht : vector_at m_media.tracks 0 with
    | none => simp [ht] at hrun
    | some track =>
      simp only [ht] at hrun
      by_cases hw : wrap32 (create track opt result.file).1 < 0
      · rw [if_pos hw] at hrun
        rw [← Option.some.inj hrun]
        exact ⟨rfl, rfl, Or.inr rfl⟩
      · rw [if_neg hw] at hrun
        rw [← Option.some.inj hrun]
        exact ⟨rfl, rfl, Or.inr rfl⟩

theorem writer_calls_append (a b : List Event) :
    writer_calls (a ++ b) = writer_calls a ++ writer_calls b := by
  induction a with
  | nil => rfl
  | cons e rest ih => cases e <;> simp [writer_calls, ih]

/-- The run of a segment request whose start search fails. -/
theorem segment_request_not_found (search : track → ℤ → ℤ)
    (create : track → writer_options → List UInt8 → ℤ × List UInt8)
    (blob : String → ℤ → ℤ → read_result) (m_media : media)
    (track : track) (key : String) (time : ℤ) (htrack : m_media.tracks.head? = some track)
    (hneg : search track (on_dash_stream_base.dtime_start track time) < 0) :
    on_dash_stream_base.segment_request search create blob m_media key time =
      some [Event.search (on_dash_stream_base.dtime_start track time),
        Event.close (wrap32 (search track (on_dash_stream_base.dtime_start track time)))] := by
  unfold on_dash_stream_base.segment_request
  rw [request_track_data_not_found search m_media track key time htrack hneg]
  rfl

/-- Every writer call of a segment request has the options of
`request_track_data`. -/
theorem segment_request_writer_calls (search : track → ℤ → ℤ)
    (create : track → writer_options → List UInt8 → ℤ × List UInt8)
    (blob : String → ℤ → ℤ → read_result) (m_media : media)
    (track : track) (key : String) (time : ℤ) (htrack : m_media.tracks.head? = some track)
    (evs : List Event)
    (hrun : on_dash_stream_base.segment_request search create blob m_media key time = some evs) :
    writer_calls evs = [] ∨
      writer_calls evs = [on_dash_stream_base.options search track time] := by
  unfold on_dash_stream_base.segment_request at hrun
  cases h0 : on_dash_stream_base.request_track_data search m_media key time with
  | none => simp [h0] at hrun
  | some evs0 =>
    simp only [h0] at hrun
    rcases request_track_data_events search m_media track key time htrack evs0 h0 with
      h | ⟨offset, size, h⟩
    · subst h
      simp only [List.getLast?] at hrun
      rw [← Option.some.inj hrun]
      exact Or.inl rfl
    · subst h
      simp only [List.getLast?, List.getLast] at hrun
      cases h1 : on_dash_stream_base.on_read_samples create m_media
          (on_dash_stream_base.options search track time) (blob key offset size) with
      | none => simp [h1] at hrun
      | some after =>
        simp only [h1] at hrun
        rw [← Option.some.inj hrun, writer_calls_append]
        obtain ⟨-, -, h2 | h2⟩ := on_read_samples_events create m_media _ _ after h1
        · left
          rw [h2]
          rfl
        · right
          rw [h2]
          rfl

theorem sample_position_from_dts_lt (track : track) (t : ℤ) :
    sample_position_from_dts track t < track.samples.length := by
  unfold sample_position_from_dts
  cases h : (List.range track.samples.length).reverse.find?
      (fun i => decide (((track.samples.getD i ⟨0, 0, 0⟩).dts : ℤ) ≤ t)) with
  | none =>
    simp only
    omega
  | some i =>
    simp only
    have hmem := List.mem_of_find?_eq_some h
    rw [List.mem_reverse, List.mem_range] at hmem
    exact_mod_cast hmem
/-- C11 (amended): for a segment request with `0 ≤ time ≤ 2147483637` on a
track with timescale `ts` and `(time + 10) * ts < 2 ^ 64`, and for a search
that returns a negative value or an index of `track.samples`,
`request_track_data` searches the sample index with `dts_start = time * ts`
and, when that search succeeds, with `dts_end = (time + 10) * ts`: the window
is ten seconds, no chunk duration enters. Both values are the integers, not
reduced, and the options bound to the blob read hold them. -/
theorem C11_dts_window (search : track → ℤ → ℤ) (m_media : media) (track : track)
    (key : String) (time : ℤ) (htrack : m_media.tracks.head? = some track)
    (hvalid : ∀ t, search track t < track.samples.length)
    (ht0 : 0 ≤ time) (ht1 : time ≤ 2147483637)
    (hts : (time + 10) * track.timescale < 2 ^ 64) :
    ∃ evs, on_dash_stream_base.request_track_data search m_media key time = some evs ∧
      (search track (time * track.timescale) < 0 →
        searches evs = [time * track.timescale] ∧ read_options evs = []) ∧
      (0 ≤ search track (time * track.timescale) →
        searches evs = [time * track.timescale, (time + 10) * track.timescale] ∧
        ∃ opt, read_options evs = [opt] ∧ opt.dts_start = time * track.timescale ∧
          opt.dts_end = (time + 10) * track.timescale) := by
  have hts0 : time * track.timescale < 2 ^ 64 := by
    have : (0 : ℤ) ≤ (track.timescale : ℤ) := Int.natCast_nonneg _
    nlinarith
  have hs := dtime_start_eq track time ht0 hts0
  have he := dtime_end_eq track time ht0 ht1 hts
  by_cases hneg : search track (time * track.timescale) < 0
  · refine ⟨_, request_track_data_not_found search m_media track key time htrack
      (by rw [hs]; exact hneg), ?_, ?_⟩
    · intro _
      rw [hs]
      exact ⟨rfl, rfl⟩
    · intro h
      omega
  · obtain ⟨s_start, s_end, -, -, hrun⟩ := request_track_data_found search m_media track key
      time htrack hvalid (by rw [hs]; omega)
    refine ⟨_, hrun, ?_, ?_⟩
    · intro h
      exact absurd h hneg
    · intro _
      rw [hs, he]
      refine ⟨rfl, _, rfl, ?_, ?_⟩
      · exact hs
      · exact he

/-- C11, witness: time 4 on the track of scenario S4 (timescale 15360). -/
theorem C11_dts_window_witness :
    ∃ evs, on_dash_stream_base.request_track_data sample_position_from_dts
        ⟨[sample_track_s4]⟩ "k" 4 = some evs ∧
      (sample_position_from_dts sample_track_s4 (4 * sample_track_s4.timescale) < 0 →
        searches evs = [4 * sample_track_s4.timescale] ∧ read_options evs = []) ∧
      (0 ≤ sample_position_from_dts sample_track_s4 (4 * sample_track_s4.timescale) →
        searches evs = [4 * sample_track_s4.timescale, (4 + 10) * sample_track_s4.timescale] ∧
        ∃ opt, read_options evs = [opt] ∧ opt.dts_start = 4 * sample_track_s4.timescale ∧
          opt.dts_end = (4 + 10) * sample_track_s4.timescale) :=
  C11_dts_window sample_position_from_dts ⟨[sample_track_s4]⟩ sample_track_s4 "k" 4 rfl
    (sample_position_from_dts_lt sample_track_s4) (by decide) (by decide) (by decide!)

/-- C11, counterexample: the claim as stated fails. For time 4 on the track
of scenario S4 (timescale 15360) the searches are made with 61440 and with
215040, and the options hold `dts_end = 215040`, which is `(4 + 10) * 15360`
and not the `(4 + 4) * 15360 = 122880` of a presentation with 4 s chunks. -/
theorem C11_counterexample :
    (on_dash_stream_base.request_track_data sample_position_from_dts
        ⟨[sample_track_s4]⟩ "k" 4).map searches = some [61440, 215040] ∧
      (on_dash_stream_base.request_track_data sample_position_from_dts
        ⟨[sample_track_s4]⟩ "k" 4).map read_options =
        some [{ pos_start := 120, pos_end := 359, dts_start := 61440, dts_end := 215040,
                fragment_duration := 15360, dts_start_absolute := 0 }] ∧
      (215040 : ℤ) ≠ (4 + 4) * 15360 := by
  decide!

/-- C12: when the start search returns an index `pos_start ≥ 0` (the search
returning a negative value or an index of `track.samples`),
`request_track_data` issues exactly one blob read. With `pos_end` the result
of the end search, or `samples.size() - 1` when that is negative, the offset
is `samples[pos_start].offset` and the length is
`samples[pos_end].offset + samples[pos_end].length - samples[pos_start].offset`,
both as `u64` values; they are these integers themselves when the start
offset is below `2 ^ 64` and the difference is in `[0, 2 ^ 64)`. -/
theorem C12_single_read (search : track → ℤ → ℤ) (m_media : media) (track : track)
    (key : String) (time : ℤ) (htrack : m_media.tracks.head? = some track)
    (hvalid : ∀ t, search track t < track.samples.length)
    (hstart : 0 ≤ search track (on_dash_stream_base.dtime_start track time)) :
    ∃ (pos_end : ℤ) (s_start s_end : sample) (evs : List Event),
      pos_end = (if search track (on_dash_stream_base.dtime_end track time) < 0
        then (track.samples.length : ℤ) - 1
        else search track (on_dash_stream_base.dtime_end track time)) ∧
      track.samples[(search track (on_dash_stream_base.dtime_start track time)).toNat]? =
        some s_start ∧
      track.samples[pos_end.toNat]? = some s_end ∧
      on_dash_stream_base.request_track_data search m_media key time = some evs ∧
      blob_reads evs = [(wrapU64 s_start.offset,
        wrapU64 ((s_end.offset : ℤ) + s_end.length - s_start.offset))] ∧
      ((s_start.offset : ℤ) < 2 ^ 64 → (s_start.offset : ℤ) ≤ s_end.offset + s_end.length →
        (s_end.offset : ℤ) + s_end.length - s_start.offset < 2 ^ 64 →
        blob_reads evs = [((s_start.offset : ℤ),
          (s_end.offset : ℤ) + s_end.length - s_start.offset)]) := by
  obtain ⟨s_start, s_end, hs, he, hrun⟩ := request_track_data_found search m_media track key
    time htrack hvalid hstart
  have hreads : blob_reads [Event.search (on_dash_stream_base.dtime_start track time),
      Event.search (on_dash_stream_base.dtime_end track time),
      Event.sample (search track (on_dash_stream_base.dtime_start track time)),
      Event.sample (on_dash_stream_base.pos_end search track time),
      Event.sample (on_dash_stream_base.pos_end search track time),
      Event.read_data key (wrapU64 s_start.offset)
        (wrapU64 (wrapU64 (s_end.offset + s_end.length) - wrapU64 s_start.offset))
        (on_dash_stream_base.options search track time)] =
      [(wrapU64 s_start.offset,
        wrapU64 ((s_end.offset : ℤ) + s_end.length - s_start.offset))] := by
    rw [wrapU64_sub]
    rfl
  refine ⟨on_dash_stream_base.pos_end search track time, s_start, s_end, _, rfl, hs, he, hrun,
    hreads, ?_⟩
  intro h1 h2 h3
  rw [hreads, wrapU64_of_range (Int.natCast_nonneg _) (by simpa using h1),
    wrapU64_of_range (by omega) (by simpa using h3)]

/-- C12, witness: time 4 on the track of scenario S4. -/
theorem C12_single_read_witness :
    ∃ (pos_end : ℤ) (s_start s_end : sample) (evs : List Event),
      pos_end = (if sample_position_from_dts sample_track_s4
          (on_dash_stream_base.dtime_end sample_track_s4 4) < 0
        then (sample_track_s4.samples.length : ℤ) - 1
        else sample_position_from_dts sample_track_s4
          (on_dash_stream_base.dtime_end sample_track_s4 4)) ∧
      sample_track_s4.samples[(sample_position_from_dts sample_track_s4
        (on_dash_stream_base.dtime_start sample_track_s4 4)).toNat]? = some s_start ∧
      sample_track_s4.samples[pos_end.toNat]? = some s_end ∧
      on_dash_stream_base.request_track_data sample_position_from_dts
        ⟨[sample_track_s4]⟩ "k" 4 = some evs ∧
      blob_reads evs = [(wrapU64 s_start.offset,
        wrapU64 ((s_end.offset : ℤ) + s_end.length - s_start.offset))] ∧
      ((s_start.offset : ℤ) < 2 ^ 64 → (s_start.offset : ℤ) ≤ s_end.offset + s_end.length →
        (s_end.offset : ℤ) + s_end.length - s_start.offset < 2 ^ 64 →
        blob_reads evs = [((s_start.offset : ℤ),
          (s_end.offset : ℤ) + s_end.length - s_start.offset)]) :=
  C12_single_read sample_position_from_dts ⟨[sample_track_s4]⟩ sample_track_s4 "k" 4 rfl
    (sample_position_from_dts_lt sample_track_s4) (by decide!)

/-- C12, the example of scenario S4: for time 4 the read starts at the offset
of sample 120 and ends with sample 359, the last one. -/
theorem C12_example_s4 :
    (on_dash_stream_base.request_track_data sample_position_from_dts
      ⟨[sample_track_s4]⟩ "k" 4).map blob_reads = some [(480, 960)] ∧
    (on_dash_stream_base.request_track_data sample_position_from_dts
      ⟨[sample_track_s4]⟩ "k" 4).map sample_reads = some [120, 359, 359] := by
  decide!
/-- C13 (amended): in every segment request that reaches the fragment writer,
whatever the start time, the writer options have `dts_start_absolute = 0`;
it is the field `dts_start` that holds the `u64` value of
`time * track.timescale`, which is that product itself for `0 ≤ time` and a
product below `2 ^ 64`. -/
theorem C13_dts_start_absolute (search : track → ℤ → ℤ)
    (create : track → writer_options → List UInt8 → ℤ × List UInt8)
    (blob : String → ℤ → ℤ → read_result) (m_media : media) (track : track)
    (key : String) (time : ℤ) (evs : List Event) (opt : writer_options)
    (htrack : m_media.tracks.head? = some track)
    (hrun : on_dash_stream_base.segment_request search create blob m_media key time = some evs)
    (hopt : opt ∈ writer_calls evs) :
    opt.dts_start_absolute = 0 ∧
      opt.dts_start = on_dash_stream_base.dtime_start track time ∧
      (0 ≤ time → time * track.timescale < 2 ^ 64 →
        opt.dts_start = time * track.timescale) := by
  rcases segment_request_writer_calls search create blob m_media track key time htrack evs hrun
    with h | h
  · rw [h] at hopt
    exact absurd hopt (List.not_mem_nil _)
  · rw [h, List.mem_singleton] at hopt
    subst hopt
    exact ⟨rfl, rfl, fun ht0 hts => dtime_start_eq track time ht0 hts⟩

/-- C13, witness: the request for time 4 on the track of scenario S4 reaches
the writer, with `dts_start_absolute = 0` and `dts_start = 61440`. -/
theorem C13_dts_start_absolute_witness :
    on_dash_stream_base.segment_request sample_position_from_dts sample_writer sample_blob
        ⟨[sample_track_s4]⟩ "k" 4 =
      some [Event.search 61440, Event.search 215040, Event.sample 120, Event.sample 359,
        Event.sample 359,
        Event.read_data "k" 480 960
          (on_dash_stream_base.options sample_position_from_dts sample_track_s4 4),
        Event.create (on_dash_stream_base.options sample_position_from_dts sample_track_s4 4)
          (List.replicate 960 0),
        Event.send_headers 960] ∧
      (on_dash_stream_base.options sample_position_from_dts sample_track_s4 4).dts_start_absolute
        = 0 ∧
      (on_dash_stream_base.options sample_position_from_dts sample_track_s4 4).dts_start
        = on_dash_stream_base.dtime_start sample_track_s4 4 ∧
      ((0 : ℤ) ≤ 4 → (4 : ℤ) * sample_track_s4.timescale < 2 ^ 64 →
        (on_dash_stream_base.options sample_position_from_dts sample_track_s4 4).dts_start
          = 4 * sample_track_s4.timescale) := by
  have hrun : on_dash_stream_base.segment_request sample_position_from_dts sample_writer
      sample_blob ⟨[sample_track_s4]⟩ "k" 4 =
      some [Event.search 61440, Event.search 215040, Event.sample 120, Event.sample 359,
        Event.sample 359,
        Event.read_data "k" 480 960
          (on_dash_stream_base.options sample_position_from_dts sample_track_s4 4),
        Event.create (on_dash_stream_base.options sample_position_from_dts sample_track_s4 4)
          (List.replicate 960 0),
        Event.send_headers 960] := by
    decide!
  exact ⟨hrun, C13_dts_start_absolute sample_position_from_dts sample_writer sample_blob
    ⟨[sample_track_s4]⟩ sample_track_s4 "k" 4 _ _ rfl hrun (by decide!)⟩

/-- C13, a request with a negative time: time -5 on the track of scenario S4
reaches the writer as well, and `dts_start_absolute` is 0 there too. -/
theorem C13_example_negative_time :
    ((on_dash_stream_base.segment_request sample_position_from_dts sample_writer
        (fun _ _ _ => { error := 0, file := [0] }) ⟨[sample_track_s4]⟩ "k" (-5)).map
          writer_calls).map
      (List.map (fun (opt : writer_options) => opt.dts_start_absolute)) = some [0] := by
  decide!

/-- C13, counterexample: the claim as stated fails. The segment request for
time 4 on the track of scenario S4 (timescale 15360) invokes the writer once,
with `dts_start = 61440` and `dts_start_absolute = 0`. -/
theorem C13_counterexample :
    (on_dash_stream_base.segment_request sample_position_from_dts sample_writer sample_blob
        ⟨[sample_track_s4]⟩ "k" 4).map writer_calls =
        some [{ pos_start := 120, pos_end := 359, dts_start := 61440, dts_end := 215040,
                fragment_duration := 15360, dts_start_absolute := 0 }] ∧
      (0 : ℤ) ≠ 4 * 15360 := by
  decide!

/-- C14: when the start search returns a negative value, the segment request
consists of that search and of `this->close(ec)`, where `ec` is the error code
made of the value (the value itself when it is an `int`, hence not zero):
the run reads no element of `track.samples`, issues no blob read and does not
invoke the fragment writer. -/
theorem C14_start_not_found (search : track → ℤ → ℤ)
    (create : track → writer_options → List UInt8 → ℤ × List UInt8)
    (blob : String → ℤ → ℤ → read_result) (m_media : media) (track : track)
    (key : String) (time : ℤ) (htrack : m_media.tracks.head? = some track)
    (hneg : search track (on_dash_stream_base.dtime_start track time) < 0) :
    ∃ (evs : List Event) (ec : ℤ),
      on_dash_stream_base.segment_request search create blob m_media key time = some evs ∧
      on_dash_stream_base.request_track_data search m_media key time = some evs ∧
      evs = [Event.search (on_dash_stream_base.dtime_start track time), Event.close ec] ∧
      ec = wrap32 (search track (on_dash_stream_base.dtime_start track time)) ∧
      (-2147483648 ≤ search track (on_dash_stream_base.dtime_start track time) →
        ec = search track (on_dash_stream_base.dtime_start track time) ∧ ec < 0) ∧
      sample_reads evs = [] ∧ blob_reads evs = [] ∧ writer_calls evs = [] := by
  refine ⟨_, _, segment_request_not_found search create blob m_media track key time htrack hneg,
    request_track_data_not_found search m_media track key time htrack hneg, rfl, rfl, ?_,
    rfl, rfl, rfl⟩
  intro h
  rw [wrap32_of_range h (by omega)]
  exact ⟨rfl, hneg⟩

/-- C14, witness: a request for time 4 on a track without samples. -/
theorem C14_start_not_found_witness :
    ∃ (evs : List Event) (ec : ℤ),
      on_dash_stream_base.segment_request sample_position_from_dts sample_writer sample_blob
        ⟨[sample_video_track]⟩ "k" 4 = some evs ∧
      on_dash_stream_base.request_track_data sample_position_from_dts
        ⟨[sample_video_track]⟩ "k" 4 = some evs ∧
      evs = [Event.search (on_dash_stream_base.dtime_start sample_video_track 4),
        Event.close ec] ∧
      ec = wrap32 (sample_position_from_dts sample_video_track
        (on_dash_stream_base.dtime_start sample_video_track 4)) ∧
      (-2147483648 ≤ sample_position_from_dts sample_video_track
          (on_dash_stream_base.dtime_start sample_video_track 4) →
        ec = sample_position_from_dts sample_video_track
          (on_dash_stream_base.dtime_start sample_video_track 4) ∧ ec < 0) ∧
      sample_reads evs = [] ∧ blob_reads evs = [] ∧ writer_calls evs = [] :=
  C14_start_not_found sample_position_from_dts sample_writer sample_blob
    ⟨[sample_video_track]⟩ sample_video_track "k" 4 rfl (by decide!)

/-- C14, example: the run of the request for time 4 on a track without
samples. -/
theorem C14_example_empty :
    on_dash_stream_base.segment_request sample_position_from_dts sample_writer sample_blob
      ⟨[sample_video_track]⟩ "k" 4 = some [Event.search 61440, Event.close (-1)] := by
  decide!

/-! ## The segment loop in exact arithmetic -/

theorem extinf_loop_in_machine (u : String) (s n : ℤ) (td : ℚ) (k : ℕ) (i : ℤ)
    (total d : ℚ) :
    m3u8.extinf_loop_in arithmetic.machine u s n td k i total d =
      m3u8.extinf_loop u s n td k i total d := by
  induction k generalizing i total d with
  | zero => rfl
  | succ k ih =>
    rw [extinf_loop_succ, ← ih]
    rfl

/-- With the formats of the machine the parametric loop body is the loop body
of the generator. -/
theorem track_segments_in_machine (pl : playlist) (r : representation) (tr : track_request) :
    m3u8.track_segments_in arithmetic.machine pl r tr = m3u8.track_segments pl r tr := by
  unfold m3u8.track_segments_in m3u8.track_segments
  simp only [extinf_loop_in_machine]
  rfl

theorem extinf_loop_in_succ (ar : arithmetic) (u : String) (s n : ℤ) (td : ℚ) (k : ℕ)
    (i : ℤ) (total d : ℚ) :
    m3u8.extinf_loop_in ar u s n td (k + 1) i total d =
      VariantLine.extinf (if i = n - 1 then ar.float32 (td - total) else d)
        :: VariantLine.uri (u ++ toString (s + i))
        :: m3u8.extinf_loop_in ar u s n td k (i + 1)
            (ar.float32 (total + if i = n - 1 then ar.float32 (td - total) else d))
            (if i = n - 1 then ar.float32 (td - total) else d) := rfl

theorem extinf_durations_loop_exact (u : String) (s N c : ℤ) (td : ℚ) (k : ℕ) (i : ℤ)
    (hik : i + k + 1 = N) (d : ℚ) (hd : 0 < k → d = (c : ℚ)) :
    extinf_durations (m3u8.extinf_loop_in arithmetic.exact u s N td (k + 1) i
        ((i : ℚ) * (c : ℚ)) d) =
      List.replicate k (c : ℚ) ++ [td - ((N : ℚ) - 1) * (c : ℚ)] := by
  induction k generalizing i d with
  | zero =>
    have hiN : i = N - 1 := by push_cast at hik; omega
    rw [extinf_loop_in_succ, extinf_durations_step, hiN, if_pos rfl]
    simp [arithmetic.exact, m3u8.extinf_loop_in, extinf_durations]
  | succ k ih =>
    have hiN : ¬ i = N - 1 := by push_cast at hik; omega
    have hdc : d = (c : ℚ) := hd (Nat.succ_pos k)
    have htot : arithmetic.exact.float32 ((i : ℚ) * (c : ℚ) + (c : ℚ)) =
        ((i + 1 : ℤ) : ℚ) * (c : ℚ) := by
      show (i : ℚ) * (c : ℚ) + (c : ℚ) = ((i + 1 : ℤ) : ℚ) * (c : ℚ)
      push_cast
      ring
    rw [extinf_loop_in_succ, extinf_durations_step, if_neg hiN, hdc, htot,
      ih (i + 1) (by push_cast at hik ⊢; omega) (c : ℚ) (fun _ => rfl)]
    rfl

theorem sum_replicate_append (k : ℕ) (c last : ℚ) :
    (List.replicate k c ++ [last]).sum = k * c + last := by
  simp [List.sum_replicate]
/-- C15: in exact arithmetic, for a track-request with `duration_msec > 0` and
`chunk_duration_sec ≥ 1` and with
`N = (duration_msec + 1000 * chunk - 1) / (1000 * chunk)`, the loop of
`m3u8::add_representation` writes `N - 1` durations `chunk_duration_sec` and
then the last one, `duration_msec/1000 - (N-1) * chunk_duration_sec`, which is
strictly positive and at most `chunk_duration_sec`. Hence no duration exceeds
the chunk duration, which is the advertised `#EXT-X-TARGETDURATION`, and the
durations of the track-request sum to `duration_msec/1000`. -/
theorem C15_last_duration (pl : playlist) (r : representation) (tr : track_request)
    (hms : 0 < tr.duration_msec) (hc : 1 ≤ pl.chunk_duration_sec) :
    ∃ (N : ℤ) (last : ℚ) (ds : List ℚ),
      N = (tr.duration_msec + 1000 * pl.chunk_duration_sec - 1) /
        (1000 * pl.chunk_duration_sec) ∧
      last = (tr.duration_msec : ℚ) / 1000 - ((N : ℚ) - 1) * (pl.chunk_duration_sec : ℚ) ∧
      (m3u8.track_segments_in arithmetic.exact pl r tr).map extinf_durations = some ds ∧
      ds = List.replicate (N.toNat - 1) (pl.chunk_duration_sec : ℚ) ++ [last] ∧
      ds.getLast? = some last ∧
      0 < last ∧ last ≤ (pl.chunk_duration_sec : ℚ) ∧
      (∀ d ∈ ds, d ≤ (pl.chunk_duration_sec : ℚ)) ∧
      ds.sum = (tr.duration_msec : ℚ) / 1000 ∧
      VariantLine.text ("#EXT-X-TARGETDURATION:" ++ toString pl.chunk_duration_sec) ∈
        m3u8.variant_header pl := by
  set c := pl.chunk_duration_sec with hcdef
  set ms := tr.duration_msec with hmsdef
  have hpos : (0 : ℤ) < 1000 * c := by omega
  obtain ⟨N, hN⟩ : ∃ N : ℤ, N = (ms + 1000 * c - 1) / (1000 * c) := ⟨_, rfl⟩
  have hdiv1 := Int.ediv_mul_le (ms + 1000 * c - 1) (ne_of_gt hpos)
  have hdiv2 := Int.lt_ediv_add_one_mul_self (ms + 1000 * c - 1) hpos
  rw [← hN] at hdiv1 hdiv2
  have hN1 : 1 ≤ N := by
    by_contra hcon
    have : N ≤ 0 := by omega
    nlinarith
  have hlo : 1000 * ((N - 1) * c) < ms := by nlinarith
  have hhi : ms ≤ 1000 * (N * c) := by nlinarith
  have hloq : 1000 * (((N : ℚ) - 1) * (c : ℚ)) < (ms : ℚ) := by exact_mod_cast hlo
  have hhiq : (ms : ℚ) ≤ 1000 * ((N : ℚ) * (c : ℚ)) := by exact_mod_cast hhi
  have hcq : (1 : ℚ) ≤ (c : ℚ) := by exact_mod_cast hc
  have hlast0 : 0 < (ms : ℚ) / 1000 - ((N : ℚ) - 1) * (c : ℚ) := by linarith
  have hlast1 : (ms : ℚ) / 1000 - ((N : ℚ) - 1) * (c : ℚ) ≤ (c : ℚ) := by linarith
  have hrun : (m3u8.track_segments_in arithmetic.exact pl r tr).map extinf_durations =
      some (List.replicate (N.toNat - 1) (c : ℚ) ++
        [(ms : ℚ) / 1000 - ((N : ℚ) - 1) * (c : ℚ)]) := by
    have hne : ¬ (1000 * c = 0) := by omega
    have htd : Int.tdiv (ms + 1000 * c - 1) (1000 * c) = N := by
      rw [hN, Int.tdiv_eq_ediv (by omega) (by omega)]
    have hk : N.toNat = (N.toNat - 1) + 1 := by omega
    unfold m3u8.track_segments_in
    simp only [arithmetic.exact, id, ← hcdef, ← hmsdef, hne, if_false, htd, Option.map_some']
    rw [hk]
    have h0 : (0 : ℚ) = ((0 : ℤ) : ℚ) * (c : ℚ) := by simp
    rw [Nat.add_sub_cancel, h0]
    have := extinf_durations_loop_exact (pl.base_url ++ "play/" ++ r.id ++ "/")
      tr.start_number N c ((ms : ℚ) / 1000) (N.toNat - 1) 0
      (by have : ((N.toNat - 1 : ℕ) : ℤ) = N - 1 := by omega
          omega) (c : ℚ) (fun _ => rfl)
    simpa [arithmetic.exact] using this
  refine ⟨N, _, _, hN, rfl, hrun, rfl, by simp, hlast0, hlast1, ?_, ?_, ?_⟩
  · intro d hd
    rw [List.mem_append, List.mem_replicate, List.mem_singleton] at hd
    rcases hd with ⟨-, h⟩ | h
    · rw [h]
    · rw [h]
      exact hlast1
  · rw [sum_replicate_append]
    have hcast : ((N.toNat - 1 : ℕ) : ℚ) = (N : ℚ) - 1 := by
      have h1 : ((N.toNat - 1 : ℕ) : ℤ) = N - 1 := by omega
      have h2 : (((N.toNat - 1 : ℕ) : ℤ) : ℚ) = ((N - 1 : ℤ) : ℚ) := by rw [h1]
      push_cast at h2
      exact_mod_cast h2
    rw [hcast]
    ring
  · simp [m3u8.variant_header]

/-- C15, witness: 12500 ms with 4 s chunks. -/
theorem C15_last_duration_witness :
    ∃ (N : ℤ) (last : ℚ) (ds : List ℚ),
      N = ((sample_request 0 12500).duration_msec +
          1000 * (sample_playlist 4 [sample_request 0 12500]).chunk_duration_sec - 1) /
        (1000 * (sample_playlist 4 [sample_request 0 12500]).chunk_duration_sec) ∧
      last = ((sample_request 0 12500).duration_msec : ℚ) / 1000 - ((N : ℚ) - 1) *
        ((sample_playlist 4 [sample_request 0 12500]).chunk_duration_sec : ℚ) ∧
      (m3u8.track_segments_in arithmetic.exact (sample_playlist 4 [sample_request 0 12500])
        (sample_repr [sample_request 0 12500]) (sample_request 0 12500)).map extinf_durations
        = some ds ∧
      ds = List.replicate (N.toNat - 1)
        ((sample_playlist 4 [sample_request 0 12500]).chunk_duration_sec : ℚ) ++ [last] ∧
      ds.getLast? = some last ∧
      0 < last ∧ last ≤ ((sample_playlist 4 [sample_request 0 12500]).chunk_duration_sec : ℚ) ∧
      (∀ d ∈ ds, d ≤ ((sample_playlist 4 [sample_request 0 12500]).chunk_duration_sec : ℚ)) ∧
      ds.sum = ((sample_request 0 12500).duration_msec : ℚ) / 1000 ∧
      VariantLine.text ("#EXT-X-TARGETDURATION:" ++
          toString (sample_playlist 4 [sample_request 0 12500]).chunk_duration_sec) ∈
        m3u8.variant_header (sample_playlist 4 [sample_request 0 12500]) :=
  C15_last_duration (sample_playlist 4 [sample_request 0 12500])
    (sample_repr [sample_request 0 12500]) (sample_request 0 12500) (by decide) (by decide)

/-- C15, the example of scenario S5 in exact arithmetic: 12500 ms with 4 s
chunks gives the durations 4, 4, 4 and 0.5. -/
theorem C15_example_12500 :
    (m3u8.track_segments_in arithmetic.exact (sample_playlist 4 [sample_request 0 12500])
      (sample_repr [sample_request 0 12500]) (sample_request 0 12500)).map extinf_durations =
      some [4, 4, 4, 1 / 2] := by
  decide!

end nulla
